import Mathlib

/-!
Verification of the SDMX ingestion/normalization engine of the
BESSER-PEARL/statec_hackathon repository.

The Python sources are shallowly embedded as executable Lean definitions:

* `src/dashboard/backend/data_fetch.py` — the SDMX-JSON pipeline
  (`_prefer_text`, `_build_dimension_metadata`, `store_metadata`,
  `ensure_category`, `store_observations`, `fetch_data_recurrently`).
* `src/database/data_fetch.py` — the SDMX-XML pipeline
  (`preferred_text`, `store_metadata`, `store_observations`).
* `src/database/remove_duplicates.py` — the deduplication repairer
  (`remove_duplicate_categories`, `remove_duplicate_dimensions`).
* `src/dashboard/backend/sql_alchemy.py` — the relational schema, embedded
  as lists of rows with integer primary keys.

Conventions of the embedding:

* A SQLAlchemy session is a pure `DB` value threaded through the functions;
  `session.add` appends a row with a fresh id (SQLAlchemy autoflush makes
  pending rows visible to every later query of the same session, so
  assigning ids immediately is faithful), `session.query(...).one_or_none()`
  is `one_or_none` below, which errors when more than one row matches,
  exactly as SQLAlchemy raises `MultipleResultsFound`.
* Python exceptions are `Except String`; `fetch_data_recurrently` catches
  every exception per dataset and the session is rolled back, which the
  embedding renders by returning the unchanged store.
* Python dicts are association lists with insertion order; assignment to an
  existing key overwrites in place (`alInsert`), as Python dicts do.
* Python `float(x)` is not re-implemented: raw observation values carry a
  `floatOk` flag recording whether the conversion succeeds (it always does
  for JSON numbers), and the stored `value` is the raw payload itself.
* Python `int(s)` is `pyIntParse` (optional surrounding whitespace, optional
  sign, digits with single interior underscores) and Python list indexing,
  which accepts negative indices and raises `IndexError` otherwise, is
  `pyGetInt`.
-/

/-! ## Association lists with Python-dict semantics -/

def alGet {α : Type} (l : List (String × α)) (k : String) : Option α :=
  (l.find? (fun p => p.1 == k)).map (·.2)

def alInsert {α : Type} : List (String × α) → String → α → List (String × α)
  | [], k, v => [(k, v)]
  | (k', v') :: t, k, v =>
    if k' == k then (k, v) :: t else (k', v') :: alInsert t k v

def alKeys {α : Type} (l : List (String × α)) : List String := l.map (·.1)

/-! ## Python primitives -/

def digitsCore : List Char → Nat → Option Nat
  | [], acc => some acc
  | '_' :: c :: cs, acc =>
    if c.isDigit then digitsCore cs (acc * 10 + (c.toNat - 48)) else none
  | c :: cs, acc =>
    if c.isDigit then digitsCore cs (acc * 10 + (c.toNat - 48)) else none

def parseDigits : List Char → Option Nat
  | [] => none
  | c :: cs => if c.isDigit then digitsCore cs (c.toNat - 48) else none

/-- Python `int(s)` on a string: optional whitespace, optional sign, digits
with single interior underscores; `none` when `int` raises `ValueError`. -/
def pyIntParse (s : String) : Option Int :=
  let cs := (s.toList.dropWhile (·.isWhitespace)).reverse
  let cs := (cs.dropWhile (·.isWhitespace)).reverse
  match cs with
  | '+' :: rest => (parseDigits rest).map Int.ofNat
  | '-' :: rest => (parseDigits rest).map (fun n => -(Int.ofNat n))
  | rest => (parseDigits rest).map Int.ofNat

/-- Python list indexing `l[i]`: nonnegative indices, or negative indices
counting from the end; `none` models an `IndexError`. -/
def pyGetInt {α : Type} (l : List α) (i : Int) : Option α :=
  if 0 ≤ i then l.get? i.toNat
  else if (-i).toNat ≤ l.length then l.get? (l.length - (-i).toNat)
  else none

def splitColonGo : List Char → List Char → List String
  | [], acc => [String.mk acc.reverse]
  | c :: cs, acc =>
    if c = ':' then String.mk acc.reverse :: splitColonGo cs []
    else splitColonGo cs (c :: acc)

/-- Python `key.split(":")` (structurally recursive so that proofs can
evaluate it). -/
def pySplitColon (s : String) : List String := splitColonGo s.toList []

/-- Python `s.strip()` (whitespace from both ends). -/
def pyStrip (s : String) : String :=
  String.mk (((s.toList.dropWhile (·.isWhitespace)).reverse.dropWhile
    (·.isWhitespace)).reverse)

/-- Python `s.lower()` (ASCII case folding, which covers language tags). -/
def pyLowerStr (s : String) : String := String.mk (s.toList.map Char.toLower)

/-- Python truthiness of an optional string: `None` and `""` are falsy. -/
def pyTruthy (o : Option String) : Bool :=
  match o with
  | some s => s != ""
  | none => false

/-- Python `a or b` for an optional string `a` and a string `b`. -/
def pyOr (o : Option String) (d : String) : String :=
  match o with
  | some s => if s == "" then d else s
  | none => d

/-- `session.query(...).filter(p).one_or_none()`: no match gives `none`, a
unique match gives it, several matches raise `MultipleResultsFound`. -/
def one_or_none {α : Type} (l : List α) (p : α → Bool) :
    Except String (Option α) :=
  match l.filter p with
  | [] => .ok none
  | [x] => .ok (some x)
  | _ => .error "MultipleResultsFound"

/-! ## The relational schema (src/dashboard/backend/sql_alchemy.py) -/

/-- A raw JSON value occurring as `row[0]` of an SDMX-JSON observation.
`floatOk` on a string records whether Python `float` accepts it. -/
inductive JVal where
  | jnull : JVal
  | jnum : Int → JVal
  | jstr : String → Bool → JVal
deriving Repr, DecidableEq

/-- `float(raw_value)` succeeds exactly on these payloads. -/
def pyFloatOk : JVal → Bool
  | .jnull => false
  | .jnum _ => true
  | .jstr _ ok => ok

structure DataTableRow where
  id : Nat
  code : String
  name : String
  description : Option String
  provider : Option String
deriving Repr, DecidableEq

structure DimensionRow where
  id : Nat
  code : String
  name : String
  label : String
  position : Int
  codelist_id : Option String
  data_table_id : Nat
deriving Repr, DecidableEq

structure CategoryRow where
  id : Nat
  code : String
  name : String
  label : String
  data_table_id : Nat
  dimension_id : Nat
  parent_id : Option Nat
deriving Repr, DecidableEq

structure ObservationRow where
  id : Nat
  value : JVal
  time_period : Option String
  data_table_id : Nat
deriving Repr, DecidableEq

structure ODVRow where
  id : Nat
  observation_id : Nat
  dimension_id : Nat
  category_id : Nat
deriving Repr, DecidableEq

/-- The relational store: one list of rows per table plus a fresh-id source. -/
structure DB where
  datatables : List DataTableRow
  dimensions : List DimensionRow
  categories : List CategoryRow
  observations : List ObservationRow
  odvs : List ODVRow
  nextId : Nat
deriving Repr, DecidableEq

def emptyDB : DB := ⟨[], [], [], [], [], 0⟩

/-! ## SDMX-JSON payload model (input of src/dashboard/backend/data_fetch.py)

The raw JSON dicts are modelled structurally: optional fields are `Option`,
per-language text objects are association lists, and `keyPosition` carries
the already-converted integer (the source applies `int(...)` to it). -/

structure ValueMeta where
  id : Option String
  name : Option String
  names : Option (List (String × String))
  parent : Option String
  parents : Option (List String)
deriving Repr, DecidableEq

structure DimMeta where
  id : Option String
  keyPosition : Option Int
  name : Option String
  names : Option (List (String × String))
  values : List ValueMeta
deriving Repr, DecidableEq

structure StructureMeta where
  name : Option String
  names : Option (List (String × String))
  description : Option String
  descriptions : Option (List (String × String))
  dimsObservation : List DimMeta
deriving Repr, DecidableEq

structure DataSetMeta where
  observations : List (String × List JVal)
deriving Repr, DecidableEq

structure Payload where
  structures : List StructureMeta
  dataSets : List DataSetMeta
deriving Repr, DecidableEq

def LANG_PRIORITY : List String := ["en", "fr", "de", "lb"]

def firstPrefLang : List String → List (String × String) → Option String
  | [], _ => none
  | l :: ls, src =>
    match alGet src l with
    | some v => if v == "" then firstPrefLang ls src else some v
    | none => firstPrefLang ls src

/-- `_prefer_text(source, fallback)`: first truthy value in language-priority
order, else the first value of a non-empty dict, else the fallback. -/
def prefer_text (source : Option (List (String × String)))
    (fallback : Option String) : Option String :=
  match source with
  | none => fallback
  | some src =>
    if src.isEmpty then fallback
    else
      match firstPrefLang LANG_PRIORITY src with
      | some v => some v
      | none => (src.head?).map (·.2)

/-! ## `_build_dimension_metadata` -/

structure NormValue where
  code : String
  label : String
  parent_code : Option String
deriving Repr, DecidableEq

structure NormDim where
  code : String
  label : String
  position : Int
  values : List NormValue
deriving Repr, DecidableEq

/-- Parent resolution of one codelist value: a truthy inline `parent` field,
else the head of a non-empty `parents` list, else the inline field as-is. -/
def resolveParent (v : ValueMeta) : Option String :=
  if pyTruthy v.parent then v.parent
  else
    match v.parents with
    | some (p :: _) => some p
    | _ => v.parent

/-- One entry of a dimension's `values` list; `none` when the `id` field is
`None` (the source skips exactly that case for values). -/
def normValue (v : ValueMeta) : Option NormValue :=
  match v.id with
  | none => none
  | some code =>
    let label0 := pyOr v.name code
    let label := (prefer_text v.names (some label0)).getD label0
    some { code := code, label := label, parent_code := resolveParent v }

/-- One entry of `structure["dimensions"]["observation"]`; `none` when the
`id` field is falsy (`None` or `""`). -/
def normDim (index : Nat) (d : DimMeta) : Option NormDim :=
  match d.id with
  | none => none
  | some code =>
    if code == "" then none
    else
      let position := d.keyPosition.getD (Int.ofNat index)
      let l0 := pyOr d.name code
      let l1 := (prefer_text d.names (some l0)).getD l0
      some { code := code
             label := if l1 == "" then code else l1
             position := position
             values := d.values.filterMap normValue }

/-- Stable insertion into a position-sorted list (equal keys keep their
original relative order, as Python `list.sort` guarantees). -/
def insSorted (x : NormDim) : List NormDim → List NormDim
  | [] => [x]
  | y :: ys => if x.position < y.position then x :: y :: ys else y :: insSorted x ys

def sortByPos (l : List NormDim) : List NormDim := l.foldr insSorted []

def buildDimensionMetadata (dims : List DimMeta) : List NormDim :=
  sortByPos ((dims.enum).filterMap (fun p => normDim p.1 p.2))

/-! ## `store_metadata` (SDMX-JSON pipeline) -/

def updateDatatableRow (db : DB) (i : Nat) (nm : String) (ds : Option String) : DB :=
  { db with
    datatables := db.datatables.map
      (fun r => if r.id == i then { r with name := nm, description := ds } else r) }

def updateCategoryLabels (db : DB) (i : Nat) (lbl : String) : DB :=
  { db with
    categories := db.categories.map
      (fun c => if c.id == i then { c with name := lbl, label := lbl } else c) }

def setCategoryParent (db : DB) (i : Nat) (pid : Nat) : DB :=
  { db with
    categories := db.categories.map
      (fun c => if c.id == i then { c with parent_id := some pid } else c) }

/-- The inner loop over `meta["values"]`: reuse-or-insert each category,
refresh labels on reuse, extend the per-dimension lookup and ordered code
list, and record pending parent links as `(dim_code, category_id, parent)`. -/
def storeCats (dtId dimId : Nat) (dimCode : String) :
    List NormValue → DB → List (String × Nat) → List String →
    List (String × Nat × String) →
    Except String (DB × List (String × Nat) × List String × List (String × Nat × String))
  | [], db, catMap, codes, pending => .ok (db, catMap, codes, pending)
  | v :: vs, db, catMap, codes, pending => do
    let label := if v.label == "" then v.code else v.label
    let found ← one_or_none db.categories
      (fun c => c.dimension_id == dimId && c.code == v.code)
    let next : DB × Nat :=
      match found with
      | some c => (updateCategoryLabels db c.id label, c.id)
      | none =>
        let cid := db.nextId
        ({ db with
            categories := db.categories ++
              [{ id := cid, code := v.code, name := label, label := label,
                 data_table_id := dtId, dimension_id := dimId, parent_id := none }],
            nextId := cid + 1 }, cid)
    let pending' :=
      if pyTruthy v.parent_code then
        pending ++ [(dimCode, next.2, v.parent_code.getD "")]
      else pending
    storeCats dtId dimId dimCode vs next.1 (alInsert catMap v.code next.2)
      (codes ++ [v.code]) pending'

/-- The loop over the normalised dimension metadata: reuse-or-insert each
dimension, then process its values with `storeCats`. -/
def storeDims (dtId : Nat) :
    List NormDim → DB → List (String × Nat) → List (String × List (String × Nat)) →
    List String → List (String × List String) → List (String × Nat × String) →
    Except String (DB × List (String × Nat) × List (String × List (String × Nat)) ×
      List String × List (String × List String) × List (String × Nat × String))
  | [], db, dl, cl, ord, vc, pend => .ok (db, dl, cl, ord, vc, pend)
  | meta :: rest, db, dl, cl, ord, vc, pend => do
    let found ← one_or_none db.dimensions
      (fun d => d.data_table_id == dtId && d.code == meta.code)
    let next : DB × Nat :=
      match found with
      | some d => (db, d.id)
      | none =>
        let did := db.nextId
        ({ db with
            dimensions := db.dimensions ++
              [{ id := did, code := meta.code, name := meta.label,
                 label := meta.label, position := meta.position,
                 codelist_id := none, data_table_id := dtId }],
            nextId := did + 1 }, did)
    let r ← storeCats dtId next.2 meta.code meta.values next.1 [] [] pend
    storeDims dtId rest r.1 (alInsert dl meta.code next.2)
      (alInsert cl meta.code r.2.1) (ord ++ [meta.code])
      (alInsert vc meta.code r.2.2.1) r.2.2.2

/-- Resolution of one pending parent link: the just-built per-dimension
set first, then a direct store lookup; `KeyError` mirrors
`dimension_lookup[dim_code]` on an absent key. -/
def parentResolve (dl : List (String × Nat))
    (cl : List (String × List (String × Nat))) (db : DB)
    (e : String × Nat × String) : Except String (Option Nat) :=
  match (alGet cl e.1).bind (fun m => alGet m e.2.2) with
  | some pid => .ok (some pid)
  | none =>
    match alGet dl e.1 with
    | none => .error "KeyError"
    | some dimId => do
      let p ← one_or_none db.categories
        (fun c => c.dimension_id == dimId && c.code == e.2.2)
      pure (p.map (fun c => c.id))

/-- The deferred parent pass: resolve each pending `(dim_code, cat, parent)`
in the just-built per-dimension set, falling back to a store lookup;
unresolvable parents are left untouched. -/
def resolveParents (dl : List (String × Nat))
    (cl : List (String × List (String × Nat))) :
    List (String × Nat × String) → DB → Except String DB
  | [], db => .ok db
  | e :: rest, db => do
    let parentId ← parentResolve dl cl db e
    let db' :=
      match parentId with
      | some pid => setCategoryParent db e.2.1 pid
      | none => db
    resolveParents dl cl rest db'

structure MetaResult where
  db : DB
  datatableId : Nat
  dimension_lookup : List (String × Nat)
  category_lookup : List (String × List (String × Nat))
  dimension_order : List String
  dimension_value_codes : List (String × List String)
deriving Repr, DecidableEq

/-- `store_metadata(session, dataset_code, payload)` of the SDMX-JSON
pipeline: create or reuse the dataset, dimensions and categories and return
the decode tables. -/
def store_metadata (db : DB) (dataset_code : String) (payload : Payload) :
    Except String MetaResult := do
  match payload.structures.head? with
  | none => .error "ValueError: no structure definition"
  | some str0 => do
    let n0 := pyOr str0.name dataset_code
    let dataset_name := (prefer_text str0.names (some n0)).getD n0
    let dataset_description := prefer_text str0.descriptions str0.description
    let found ← one_or_none db.datatables (fun t => t.code == dataset_code)
    let start : DB × Nat :=
      match found with
      | some t => (updateDatatableRow db t.id dataset_name dataset_description, t.id)
      | none =>
        let tid := db.nextId
        ({ db with
            datatables := db.datatables ++
              [{ id := tid, code := dataset_code, name := dataset_name,
                 description := dataset_description, provider := none }],
            nextId := tid + 1 }, tid)
    let metas := buildDimensionMetadata str0.dimsObservation
    let r ← storeDims start.2 metas start.1 [] [] [] [] []
    let db' ← resolveParents r.2.1 r.2.2.1 r.2.2.2.2.2 r.1
    .ok { db := db', datatableId := start.2,
          dimension_lookup := r.2.1, category_lookup := r.2.2.1,
          dimension_order := r.2.2.2.1, dimension_value_codes := r.2.2.2.2.1 }

/-! ## `store_observations` (SDMX-JSON pipeline) -/

/-- Python `int(index_str)` with the source's `except ValueError: index_int = 0`. -/
def toIdx (s : String) : Int := (pyIntParse s).getD 0

/-- Length repair of a positional key: pad with `"0"` on the right when too
short, truncate on the right when too long. -/
def repairIndices (expected : Nat) (indices : List String) : List String :=
  if indices.length < expected then
    indices ++ List.replicate (expected - indices.length) "0"
  else if indices.length > expected then indices.take expected
  else indices

/-- The decode loop over the (repaired) index strings. `.ok none` is the
`break` on an out-of-range index (the whole observation is skipped);
`.error` is a raised `IndexError`; `.ok (some m)` is the fully decoded
`dims_map`. -/
def decodeLoop (order : List String) (vc : List (String × List String)) :
    List String → Nat → List (String × String) →
    Except String (Option (List (String × String)))
  | [], _, dm => .ok (some dm)
  | idxStr :: rest, pos, dm =>
    match order.get? pos with
    | none => .error "IndexError"
    | some dimCode =>
      let value_list := (alGet vc dimCode).getD []
      let index_int := toIdx idxStr
      if value_list.isEmpty then decodeLoop order vc rest (pos + 1) dm
      else if (value_list.length : Int) ≤ index_int then .ok none
      else
        match pyGetInt value_list index_int with
        | some c => decodeLoop order vc rest (pos + 1) (alInsert dm dimCode c)
        | none => .error "IndexError"

/-- `ensure_category` of the JSON pipeline: resolve or create a category,
auto-vivifying with the code as name and label. -/
def ensure_category (db : DB) (dtId dimId : Nat)
    (cl : List (String × List (String × Nat))) (dimCode catCode : String) :
    DB × List (String × List (String × Nat)) × Nat :=
  let cmap := (alGet cl dimCode).getD []
  let cl0 := if (alGet cl dimCode).isSome then cl else alInsert cl dimCode []
  match alGet cmap catCode with
  | some cid => (db, cl0, cid)
  | none =>
    let cid := db.nextId
    let db' :=
      { db with
        categories := db.categories ++
          [{ id := cid, code := catCode, name := catCode, label := catCode,
             data_table_id := dtId, dimension_id := dimId, parent_id := none }],
        nextId := cid + 1 }
    (db', alInsert cl0 dimCode (alInsert cmap catCode cid), cid)

/-- The link-creation loop over a decoded `dims_map`. -/
def persistLinks (dtId obsId : Nat) (dl : List (String × Nat)) :
    List (String × String) → DB → List (String × List (String × Nat)) →
    Except String (DB × List (String × List (String × Nat)))
  | [], db, cl => .ok (db, cl)
  | (dimCode, catCode) :: rest, db, cl =>
    match alGet dl dimCode with
    | none => .error "KeyError"
    | some dimId =>
      let r : DB × List (String × List (String × Nat)) × Nat :=
        match alGet ((alGet cl dimCode).getD []) catCode with
        | some cid => (db, cl, cid)
        | none => ensure_category db dtId dimId cl dimCode catCode
      let oid := r.1.nextId
      let db' :=
        { r.1 with
          odvs := r.1.odvs ++ [{ id := oid, observation_id := obsId,
                                 dimension_id := dimId, category_id := r.2.2 }],
          nextId := oid + 1 }
      persistLinks dtId obsId dl rest db' r.2.1

/-- Processing of one `(key, row)` entry of the observations dict. -/
def processEntry (dtId : Nat) (dl : List (String × Nat))
    (order : List String) (vc : List (String × List String))
    (entry : String × List JVal) (db : DB)
    (cl : List (String × List (String × Nat))) :
    Except String (DB × List (String × List (String × Nat))) :=
  match entry.2 with
  | [] => .ok (db, cl)
  | rawValue :: _ =>
    if rawValue = JVal.jnull then .ok (db, cl)
    else do
      let indices := repairIndices order.length (pySplitColon entry.1)
      let dm? ← decodeLoop order vc indices 0 []
      match dm? with
      | none => .ok (db, cl)
      | some dm =>
        if pyFloatOk rawValue then
          let obsId := db.nextId
          let db' :=
            { db with
              observations := db.observations ++
                [{ id := obsId, value := rawValue,
                   time_period := alGet dm "TIME_PERIOD",
                   data_table_id := dtId }],
              nextId := obsId + 1 }
          persistLinks dtId obsId dl dm db' cl
        else .error "ValueError: could not convert to float"

def soGo (dtId : Nat) (dl : List (String × Nat)) (order : List String)
    (vc : List (String × List String)) :
    List (String × List JVal) → DB → List (String × List (String × Nat)) →
    Except String DB
  | [], db, _ => .ok db
  | e :: rest, db, cl => do
    let r ← processEntry dtId dl order vc e db cl
    soGo dtId dl order vc rest r.1 r.2

/-- `store_observations(session, datatable, ..., payload)` of the SDMX-JSON
pipeline. -/
def store_observations (db : DB) (dtId : Nat) (dl : List (String × Nat))
    (cl : List (String × List (String × Nat))) (order : List String)
    (vc : List (String × List String)) (payload : Payload) :
    Except String DB :=
  match payload.dataSets.head? with
  | none => .ok db
  | some ds =>
    if ds.observations.isEmpty then .ok db
    else soGo dtId dl order vc ds.observations db cl

/-- One dataset iteration of `fetch_data_recurrently`: metadata then
observations, inside one session. -/
def ingest (db : DB) (dataset_code : String) (payload : Payload) :
    Except String DB := do
  let r ← store_metadata db dataset_code payload
  store_observations r.db r.datatableId r.dimension_lookup r.category_lookup
    r.dimension_order r.dimension_value_codes payload

/-- `fetch_data_recurrently` commits on success and otherwise logs the
exception, leaving the store unchanged (the session was never committed). -/
def ingestCommit (db : DB) (dataset_code : String) (payload : Payload) : DB :=
  match ingest db dataset_code payload with
  | .ok db' => db'
  | .error _ => db

/-! ## `preferred_text` (src/database/data_fetch.py) -/

/-- An XML text node as seen by `preferred_text`: its text content and its
optional `xml:lang` attribute. -/
structure TextNode where
  text : Option String
  lang : Option String
deriving Repr, DecidableEq

/-- The `by_lang` accumulation: skip empty/whitespace-only texts, lowercase
the language tag, bucket missing/empty tags under `"und"`, keep the first
text per tag (`setdefault`). -/
def byLangAux : List TextNode → List (String × String) → List (String × String)
  | [], acc => acc
  | n :: ns, acc =>
    let text := pyStrip (n.text.getD "")
    if text == "" then byLangAux ns acc
    else
      let lang0 := pyLowerStr (n.lang.getD "")
      let lang := if lang0 == "" then "und" else lang0
      let acc' := if (alGet acc lang).isSome then acc else acc ++ [(lang, text)]
      byLangAux ns acc'

def firstLangIn : List String → List (String × String) → Option String
  | [], _ => none
  | l :: ls, m =>
    match alGet m l with
    | some v => some v
    | none => firstLangIn ls m

/-- `preferred_text(nodes, default)` of the SDMX-XML pipeline. -/
def preferred_text (nodes : List TextNode) (dflt : Option String) :
    Option String :=
  if nodes.isEmpty then dflt
  else
    let byLang := byLangAux nodes []
    match firstLangIn LANG_PRIORITY byLang with
    | some v => some v
    | none =>
      match byLang.head? with
      | some p => some p.2
      | none => dflt

/-! ## `store_metadata` (SDMX-XML pipeline, src/database/data_fetch.py)

The input is the dictionary produced by `parse_metadata`.  The Python code
stashes pending parent links under the reserved `"_pending"` key of each
per-dimension category dict; the embedding keeps them in a separate
component of the same per-dimension entry, which is faithful for every
category code other than the literal string `"_pending"`. -/

structure XDimMeta where
  code : String
  name : String
  label : String
  position : Int
  codelist_id : Option String
deriving Repr, DecidableEq

structure XCatMeta where
  code : String
  name : String
  label : String
  parent : Option String
deriving Repr, DecidableEq

structure XMetadata where
  dataflowCode : Option String
  dataflowName : Option String
  dataflowDescription : Option String
  dataflowAgency : Option String
  dimensions : List XDimMeta
  codelists : List (String × List XCatMeta)
deriving Repr, DecidableEq

/-- `session.delete(existing)` on a dataset: the ORM cascades over the
dataset's dimensions, categories and observations, and every
observation-dimension-value link attached to any of them. -/
def deleteDatatableCascade (db : DB) (tid : Nat) : DB :=
  let deadDims := (db.dimensions.filter (fun d => d.data_table_id == tid)).map (·.id)
  let deadCats := (db.categories.filter
    (fun c => c.data_table_id == tid || deadDims.contains c.dimension_id)).map (·.id)
  let deadObs := (db.observations.filter (fun o => o.data_table_id == tid)).map (·.id)
  { db with
    datatables := db.datatables.filter (fun t => t.id != tid),
    dimensions := db.dimensions.filter (fun d => d.data_table_id != tid),
    categories := db.categories.filter
      (fun c => !(c.data_table_id == tid || deadDims.contains c.dimension_id)),
    observations := db.observations.filter (fun o => o.data_table_id != tid),
    odvs := db.odvs.filter (fun o =>
      !(deadObs.contains o.observation_id) && !(deadDims.contains o.dimension_id)
        && !(deadCats.contains o.category_id)) }

def insSortedX (x : XDimMeta) : List XDimMeta → List XDimMeta
  | [] => [x]
  | y :: ys =>
    if x.position < y.position then x :: y :: ys else y :: insSortedX x ys

def sortByPosX (l : List XDimMeta) : List XDimMeta := l.foldr insSortedX []

/-- The per-dimension loop of the XML `store_metadata`: always-fresh
dimension and category rows, pending parents recorded per dimension code. -/
def xmStoreDims (dtId : Nat) (codelists : List (String × List XCatMeta)) :
    List XDimMeta → DB → List (String × Nat) →
    List (String × (List (String × Nat) × List (Nat × String))) →
    DB × List (String × Nat) × List (String × (List (String × Nat) × List (Nat × String)))
  | [], db, dl, cl => (db, dl, cl)
  | m :: rest, db, dl, cl =>
    let did := db.nextId
    let db' :=
      { db with
        dimensions := db.dimensions ++
          [{ id := did, code := m.code, name := m.name, label := m.label,
             position := if m.position = 0 then 0 else m.position,
             codelist_id := m.codelist_id, data_table_id := dtId }],
        nextId := did + 1 }
    let catsMeta :=
      match m.codelist_id with
      | some clid => (alGet codelists clid).getD []
      | none => []
    let folded := catsMeta.foldl
      (fun (acc : DB × List (String × Nat) × List (Nat × String)) cm =>
        let cid := acc.1.nextId
        let dbc :=
          { acc.1 with
            categories := acc.1.categories ++
              [{ id := cid, code := cm.code, name := cm.name, label := cm.label,
                 data_table_id := dtId, dimension_id := did, parent_id := none }],
            nextId := cid + 1 }
        let pend :=
          if pyTruthy cm.parent then acc.2.2 ++ [(cid, cm.parent.getD "")]
          else acc.2.2
        (dbc, alInsert acc.2.1 cm.code cid, pend))
      (db', [], [])
    xmStoreDims dtId codelists rest folded.1 (alInsert dl m.code did)
      (alInsert cl m.code (folded.2.1, folded.2.2))

/-- The XML parent pass: resolve each pending link within the same
dimension's just-built category set only. -/
def xmResolveParents :
    List (String × (List (String × Nat) × List (Nat × String))) → DB → DB
  | [], db => db
  | (_, (cats, pending)) :: rest, db =>
    let db' := pending.foldl
      (fun dbp p =>
        match alGet cats p.2 with
        | some pid => setCategoryParent dbp p.1 pid
        | none => dbp)
      db
    xmResolveParents rest db'

structure XMetaResult where
  db : DB
  datatableId : Nat
  dimension_lookup : List (String × Nat)
  category_lookup : List (String × List (String × Nat))
deriving Repr, DecidableEq

/-- `store_metadata(session, metadata)` of the SDMX-XML pipeline: an
existing dataset with the same code is deleted and recreated from scratch. -/
def xmStoreMetadata (db : DB) (md : XMetadata) : Except String XMetaResult := do
  let existing ←
    if pyTruthy md.dataflowCode then
      one_or_none db.datatables (fun t => t.code == md.dataflowCode.getD "")
    else pure none
  let db0 :=
    match existing with
    | some t => deleteDatatableCascade db t.id
    | none => db
  let tid := db0.nextId
  let db1 :=
    { db0 with
      datatables := db0.datatables ++
        [{ id := tid, code := pyOr md.dataflowCode "UNKNOWN",
           name := pyOr md.dataflowName (pyOr md.dataflowCode "Unknown dataset"),
           description := md.dataflowDescription,
           provider := md.dataflowAgency }],
      nextId := tid + 1 }
  let r := xmStoreDims tid md.codelists (sortByPosX md.dimensions) db1 [] []
  let db2 := xmResolveParents r.2.2 r.1
  .ok { db := db2, datatableId := tid, dimension_lookup := r.2.1,
        category_lookup := r.2.2.map (fun e => (e.1, e.2.1)) }

/-! ## `store_observations` (SDMX-XML pipeline) -/

/-- A raw `gen:ObsValue` attribute value; `floatOk` records whether Python
`float` accepts the string. -/
structure XVal where
  txt : String
  floatOk : Bool
deriving Repr, DecidableEq

/-- One `gen:Obs` element: `obsValue` is `none` when the `ObsValue` element
is missing, `some none` when it has no `value` attribute; `keyValues` are
the `(id, value)` attribute pairs of the `ObsKey/Value` children. -/
structure XmlObs where
  obsValue : Option (Option XVal)
  keyValues : List (Option String × Option String)
deriving Repr, DecidableEq

/-- The `dim_values` dict of one XML observation: pairs with a falsy id or a
missing value are skipped. -/
def xmlDimValues (kvs : List (Option String × Option String)) :
    List (String × String) :=
  kvs.foldl
    (fun acc kv =>
      match kv.1, kv.2 with
      | some did, some dcode => if did == "" then acc else alInsert acc did dcode
      | _, _ => acc)
    []

/-- The link loop of the XML path: an unknown dimension skips the pair,
categories are always resolved through `ensure_category`. -/
def xmlLinks (dtId obsId : Nat) (dl : List (String × Nat)) :
    List (String × String) → DB → List (String × List (String × Nat)) →
    DB × List (String × List (String × Nat))
  | [], db, cl => (db, cl)
  | (dc, cc) :: rest, db, cl =>
    match alGet dl dc with
    | none => xmlLinks dtId obsId dl rest db cl
    | some dimId =>
      let r := ensure_category db dtId dimId cl dc cc
      let oid := r.1.nextId
      let db' :=
        { r.1 with
          odvs := r.1.odvs ++ [{ id := oid, observation_id := obsId,
                                 dimension_id := dimId, category_id := r.2.2 }],
          nextId := oid + 1 }
      xmlLinks dtId obsId dl rest db' r.2.1

/-- Processing of one `gen:Obs`: a missing or non-numeric value skips the
observation before the key is read. -/
def processXmlObs (dtId : Nat) (dl : List (String × Nat)) (obs : XmlObs)
    (db : DB) (cl : List (String × List (String × Nat))) :
    DB × List (String × List (String × Nat)) :=
  match obs.obsValue with
  | none => (db, cl)
  | some rawOpt =>
    match rawOpt with
    | none => (db, cl)
    | some xv =>
      if xv.floatOk then
        let dimValues := xmlDimValues obs.keyValues
        let obsId := db.nextId
        let db' :=
          { db with
            observations := db.observations ++
              [{ id := obsId, value := JVal.jstr xv.txt true,
                 time_period := alGet dimValues "TIME_PERIOD",
                 data_table_id := dtId }],
            nextId := obsId + 1 }
        xmlLinks dtId obsId dl dimValues db' cl
      else (db, cl)

/-- `store_observations(session, datatable, ..., observations_root)` of the
SDMX-XML pipeline. -/
def xmStoreObservations (dtId : Nat) (dl : List (String × Nat)) :
    List XmlObs → DB → List (String × List (String × Nat)) →
    DB × List (String × List (String × Nat))
  | [], db, cl => (db, cl)
  | o :: rest, db, cl =>
    let r := processXmlObs dtId dl o db cl
    xmStoreObservations dtId dl rest r.1 r.2

/-! ## Deduplication repairer (src/database/remove_duplicates.py) -/

def groupInsert {α : Type} (key : α → String) (x : α) :
    List (String × List α) → List (String × List α)
  | [] => [(key x, [x])]
  | (k, xs) :: t =>
    if k == key x then (k, xs ++ [x]) :: t else (k, xs) :: groupInsert key x t

/-- `defaultdict(list)` grouping: groups appear in first-occurrence order,
members keep list order. -/
def groupByKey {α : Type} (key : α → String) (l : List α) :
    List (String × List α) :=
  l.foldl (fun acc x => groupInsert key x acc) []

def insById {α : Type} (idOf : α → Nat) (x : α) : List α → List α
  | [] => [x]
  | y :: ys => if idOf x < idOf y then x :: y :: ys else y :: insById idOf x ys

/-- `.order_by(...id)`: ascending sort by primary key. -/
def sortById {α : Type} (idOf : α → Nat) (l : List α) : List α :=
  l.foldr (insById idOf) []

def redirectCatOdvs (db : DB) (fromId toId : Nat) : DB :=
  { db with
    odvs := db.odvs.map
      (fun o => if o.category_id == fromId then { o with category_id := toId } else o) }

def redirectDimOdvs (db : DB) (fromId toId : Nat) : DB :=
  { db with
    odvs := db.odvs.map
      (fun o => if o.dimension_id == fromId then { o with dimension_id := toId } else o) }

def deleteCategoryRow (db : DB) (cid : Nat) : DB :=
  { db with categories := db.categories.filter (fun c => c.id != cid) }

def moveCategoryToDim (db : DB) (cid dimId : Nat) : DB :=
  { db with
    categories := db.categories.map
      (fun c => if c.id == cid then { c with dimension_id := dimId } else c) }

/-- One code group of the category pass: the first member is primary, the
rest have their links redirected and are deleted. -/
def dedupCatGroup (db : DB) (grp : String × List CategoryRow) : DB :=
  match grp.2 with
  | [] => db
  | primary :: dups =>
    if dups.isEmpty then db
    else dups.foldl
      (fun dbx dup => deleteCategoryRow (redirectCatOdvs dbx dup.id primary.id) dup.id)
      db

def dedupCatsOfDim (db : DB) (dimId : Nat) : DB :=
  let cats := sortById (fun c => c.id)
    (db.categories.filter (fun c => c.dimension_id == dimId))
  (groupByKey (fun c => c.code) cats).foldl dedupCatGroup db

/-- `remove_duplicate_categories()`. -/
def remove_duplicate_categories (db : DB) : DB :=
  db.datatables.foldl
    (fun db1 dt =>
      (db1.dimensions.filter (fun d => d.data_table_id == dt.id)).foldl
        (fun db2 dim => dedupCatsOfDim db2 dim.id) db1)
    db

/-- The category merge loop over a duplicate dimension's categories: merge
into a same-code category of the primary dimension when one exists, else
re-parent the category under the primary dimension. -/
def mergeDupCats (primaryId : Nat) :
    List CategoryRow → DB → Except String DB
  | [], db => .ok db
  | c :: cs, db => do
    let ex ← one_or_none db.categories
      (fun k => k.dimension_id == primaryId && k.code == c.code)
    let db' :=
      match ex with
      | some k => deleteCategoryRow (redirectCatOdvs db c.id k.id) c.id
      | none => moveCategoryToDim db c.id primaryId
    mergeDupCats primaryId cs db'

/-- The duplicate loop of one dimension code group. -/
def dedupDimDups (primaryId : Nat) :
    List DimensionRow → DB → Except String DB
  | [], db => .ok db
  | dup :: dups, db => do
    let dupCats := db.categories.filter (fun c => c.dimension_id == dup.id)
    let db1 ← mergeDupCats primaryId dupCats db
    let db2 := redirectDimOdvs db1 dup.id primaryId
    let db3 := { db2 with dimensions := db2.dimensions.filter (fun d => d.id != dup.id) }
    dedupDimDups primaryId dups db3

def dedupDimGroup (db : DB) (grp : String × List DimensionRow) :
    Except String DB :=
  match grp.2 with
  | [] => .ok db
  | primary :: dups =>
    if dups.isEmpty then .ok db else dedupDimDups primary.id dups db

def dedupDimGroups :
    List (String × List DimensionRow) → DB → Except String DB
  | [], db => .ok db
  | g :: gs, db => do
    let db' ← dedupDimGroup db g
    dedupDimGroups gs db'

def dimPassTables :
    List DataTableRow → DB → Except String DB
  | [], db => .ok db
  | dt :: dts, db => do
    let dims := sortById (fun d => d.id)
      (db.dimensions.filter (fun d => d.data_table_id == dt.id))
    let db' ← dedupDimGroups (groupByKey (fun d => d.code) dims) db
    dimPassTables dts db'

/-- `remove_duplicate_dimensions()`. -/
def remove_duplicate_dimensions (db : DB) : Except String DB :=
  dimPassTables db.datatables db

/-- One run of the repairer as `main()` performs it: category pass first,
then dimension pass. -/
def dedupRepair (db : DB) : Except String DB :=
  remove_duplicate_dimensions (remove_duplicate_categories db)

/-- Structural companion of `decodeLoop` that walks the dimension-order
suffix instead of indexing it by position. -/
def decodeGo (vc : List (String × List String)) :
    List String → List String → List (String × String) →
    Except String (Option (List (String × String)))
  | _, [], dm => .ok (some dm)
  | [], _ :: _, _ => .error "IndexError"
  | dimCode :: ocs, idxStr :: rest, dm =>
    let value_list := (alGet vc dimCode).getD []
    let index_int := toIdx idxStr
    if value_list.isEmpty then decodeGo vc ocs rest dm
    else if (value_list.length : Int) ≤ index_int then .ok none
    else
      match pyGetInt value_list index_int with
      | some c => decodeGo vc ocs rest (alInsert dm dimCode c)
      | none => .error "IndexError"

/-- Decidable presence of an out-of-range index: some position resolves a
dimension with a non-empty value-code list whose length the (zero-defaulted)
integer index reaches or exceeds — the source's discard criterion. -/
def hasOutOfRange (order : List String) (vc : List (String × List String))
    (idxs : List String) : Bool :=
  (List.range idxs.length).any (fun j =>
    match order.get? j, idxs.get? j with
    | some code, some s =>
      let vl := (alGet vc code).getD []
      !vl.isEmpty && decide ((vl.length : Int) ≤ toIdx s)
    | _, _ => false)

/-- Decidable statement that every position decodes in range with a
nonnegative integer index (and the key already has the canonical length). -/
def allInRangeNonneg (order : List String) (vc : List (String × List String))
    (idxs : List String) : Bool :=
  idxs.length == order.length &&
  (List.range idxs.length).all (fun j =>
    match order.get? j, idxs.get? j with
    | some code, some s =>
      let vl := (alGet vc code).getD []
      !vl.isEmpty && decide (0 ≤ toIdx s) && decide (toIdx s < (vl.length : Int))
    | _, _ => false)

/-- The effective language tag of a node, as `preferred_text` buckets it. -/
def nodeTag (n : TextNode) : String :=
  if pyLowerStr (n.lang.getD "") == "" then "und" else pyLowerStr (n.lang.getD "")


/-- Concrete one-dimension structure used by several concrete runs. -/
def structEx : StructureMeta :=
  { name := some "Pop", names := none, description := none, descriptions := none,
    dimsObservation :=
      [{ id := some "SEX", keyPosition := some 0, name := some "Sex", names := none,
         values :=
           [{ id := some "F", name := some "Female", names := none,
              parent := none, parents := none },
            { id := some "M", name := some "Male", names := none,
              parent := none, parents := none }] }] }

/-- Payload holding one valid observation followed by one with a
non-numeric raw value on a perfectly decodable key. -/
def payloadNonNumeric : Payload :=
  { structures := [structEx],
    dataSets := [{ observations :=
      [("0", [JVal.jnum 1]), ("1", [JVal.jstr "abc" false])] }] }


/-! ## Well-formedness predicates over the store -/

/-- Category codes are unique within each dimension. -/
def CatsOk (db : DB) : Prop :=
  db.categories.Pairwise (fun a b => ¬(a.dimension_id = b.dimension_id ∧ a.code = b.code))

/-- Dimension codes are unique within each dataset. -/
def DimsOk (db : DB) : Prop :=
  db.dimensions.Pairwise (fun a b => ¬(a.data_table_id = b.data_table_id ∧ a.code = b.code))

/-- Dataset codes are globally unique. -/
def DTsOk (db : DB) : Prop := db.datatables.Pairwise (fun a b => ¬(a.code = b.code))

/-- Primary keys are below the fresh-id source and distinct per table. -/
def IdsOk (db : DB) : Prop :=
  (∀ t ∈ db.datatables, t.id < db.nextId) ∧
  (∀ d ∈ db.dimensions, d.id < db.nextId) ∧
  (∀ c ∈ db.categories, c.id < db.nextId) ∧
  (∀ o ∈ db.observations, o.id < db.nextId) ∧
  (db.datatables.map (fun t => t.id)).Nodup ∧
  (db.dimensions.map (fun d => d.id)).Nodup ∧
  (db.categories.map (fun c => c.id)).Nodup ∧
  (db.observations.map (fun o => o.id)).Nodup

/-- A category with this code exists under this dimension. -/
def catSat (db : DB) (dimId : Nat) (code : String) : Prop :=
  ∃ c ∈ db.categories, c.dimension_id = dimId ∧ c.code = code

/-- The store already holds everything a normalised dimension describes. -/
def SatDim (db : DB) (dtId : Nat) (m : NormDim) : Prop :=
  ∃ d ∈ db.dimensions, d.data_table_id = dtId ∧ d.code = m.code ∧
    ∀ v ∈ m.values, catSat db d.id v.code

/-- Every dimension-lookup entry names a live dimension of the dataset. -/
def DimLookupOk (db : DB) (dtId : Nat) (dl : List (String × Nat)) : Prop :=
  ∀ code did, alGet dl code = some did →
    ∃ d ∈ db.dimensions, d.id = did ∧ d.data_table_id = dtId ∧ d.code = code

/-- Every category-lookup entry names a live category of the dataset, under
the dimension the dimension lookup resolves for its key. -/
def CatLookupOk (db : DB) (dtId : Nat) (dl : List (String × Nat))
    (cl : List (String × List (String × Nat))) : Prop :=
  ∀ dc cm, alGet cl dc = some cm → ∀ cc cid, alGet cm cc = some cid →
    ∃ c ∈ db.categories, c.id = cid ∧ c.data_table_id = dtId ∧ c.code = cc ∧
      ∀ did, alGet dl dc = some did → c.dimension_id = did

/-- The lookups cover every dimension of the canonical order and every code
of the per-dimension value lists. -/
def LookupComplete (dl : List (String × Nat))
    (cl : List (String × List (String × Nat))) (order : List String)
    (vc : List (String × List String)) : Prop :=
  (∀ code ∈ order, (alGet dl code).isSome = true) ∧
  (∀ code ∈ order, ∀ cc ∈ (alGet vc code).getD [],
    ∃ cm, alGet cl code = some cm ∧ (alGet cm cc).isSome = true)

/-- Every category points at a live dimension and shares its dataset. -/
def CatDimCoh (db : DB) : Prop :=
  ∀ c ∈ db.categories, ∃ d ∈ db.dimensions,
    c.dimension_id = d.id ∧ c.data_table_id = d.data_table_id

/-- Postcondition of the category loop `storeCats`. -/
structure SCPost (dtId dimId : Nat) (dimCode : String) (vs : List NormValue)
    (db : DB) (catMap : List (String × Nat)) (codes : List String)
    (pending : List (String × Nat × String)) (db' : DB)
    (cm' : List (String × Nat)) (cd' : List String)
    (pd' : List (String × Nat × String)) : Prop where
  dts : db'.datatables = db.datatables
  dims : db'.dimensions = db.dimensions
  obs : db'.observations = db.observations
  odvs : db'.odvs = db.odvs
  nid : db.nextId ≤ db'.nextId
  codesEq : cd' = codes ++ vs.map (fun v => v.code)
  catProv : ∀ c ∈ db'.categories,
    (∃ c0 ∈ db.categories, c.id = c0.id ∧ c.dimension_id = c0.dimension_id ∧
      c.data_table_id = c0.data_table_id ∧ c.code = c0.code ∧
      c.parent_id = c0.parent_id) ∨
    (c.dimension_id = dimId ∧ c.data_table_id = dtId ∧
      c.code ∈ vs.map (fun v => v.code) ∧ db.nextId ≤ c.id ∧ c.parent_id = none)
  catsSurvive : ∀ c ∈ db.categories, ∃ c' ∈ db'.categories, c'.id = c.id ∧
    c'.dimension_id = c.dimension_id ∧ c'.data_table_id = c.data_table_id ∧
    c'.code = c.code ∧ c'.parent_id = c.parent_id
  catsOk : CatsOk db'
  idsOk : IdsOk db'
  coh : CatDimCoh db'
  cmSpec : ∀ v ∈ vs, ∃ cid, alGet cm' v.code = some cid ∧
    ∃ c ∈ db'.categories, c.id = cid ∧ c.dimension_id = dimId ∧
      c.data_table_id = dtId ∧ c.code = v.code
  cmProv : ∀ x cid, alGet cm' x = some cid → alGet catMap x = some cid ∨
    ∃ c ∈ db'.categories, c.id = cid ∧ c.dimension_id = dimId ∧
      c.data_table_id = dtId ∧ c.code = x
  cmDom : ∀ x, (alGet cm' x).isSome = true →
    (alGet catMap x).isSome = true ∨ x ∈ vs.map (fun v => v.code)
  cmStable : ∀ x cid, alGet catMap x = some cid →
    (∃ c ∈ db.categories, c.id = cid ∧ c.dimension_id = dimId ∧ c.code = x) →
    alGet cm' x = some cid
  pendSpec : ∃ newPend, pd' = pending ++ newPend ∧
    (∀ e ∈ newPend, e.1 = dimCode ∧ ∃ v ∈ vs, pyTruthy v.parent_code = true ∧
      e.2.2 = v.parent_code.getD "" ∧ alGet cm' v.code = some e.2.1) ∧
    (∀ v ∈ vs, pyTruthy v.parent_code = true →
      ∃ cid, alGet cm' v.code = some cid ∧
        (dimCode, cid, v.parent_code.getD "") ∈ newPend)
  satLen : (∀ v ∈ vs, catSat db dimId v.code) →
    db'.categories.length = db.categories.length


/-- Postcondition of the dimension loop `storeDims`. -/
structure SDPost (dtId : Nat) (metas : List NormDim) (db : DB)
    (dl : List (String × Nat)) (cl : List (String × List (String × Nat)))
    (ord : List String) (vc : List (String × List String))
    (pend : List (String × Nat × String)) (db' : DB)
    (dl' : List (String × Nat)) (cl' : List (String × List (String × Nat)))
    (ord' : List String) (vc' : List (String × List String))
    (pd' : List (String × Nat × String)) : Prop where
  dts : db'.datatables = db.datatables
  obs : db'.observations = db.observations
  odvs : db'.odvs = db.odvs
  nid : db.nextId ≤ db'.nextId
  ordEq : ord' = ord ++ metas.map (fun m => m.code)
  vcEq : vc' = metas.foldl
    (fun a m => alInsert a m.code (m.values.map (fun v => v.code))) vc
  dimsOk : DimsOk db'
  catsOk : CatsOk db'
  idsOk : IdsOk db'
  coh : CatDimCoh db'
  dimProv : ∃ nd, db'.dimensions = db.dimensions ++ nd ∧
    ∀ d ∈ nd, d.data_table_id = dtId ∧ d.code ∈ metas.map (fun m => m.code) ∧
      db.nextId ≤ d.id
  catsSurvive : ∀ c ∈ db.categories, ∃ c' ∈ db'.categories, c'.id = c.id ∧
    c'.dimension_id = c.dimension_id ∧ c'.data_table_id = c.data_table_id ∧
    c'.code = c.code ∧ c'.parent_id = c.parent_id
  catMeta : ∀ c ∈ db'.categories,
    (∃ c0 ∈ db.categories, c.id = c0.id ∧ c.dimension_id = c0.dimension_id ∧
      c.data_table_id = c0.data_table_id ∧ c.code = c0.code ∧
      c.parent_id = c0.parent_id) ∨
    (c.data_table_id = dtId ∧ db.nextId ≤ c.id ∧ c.parent_id = none ∧
      ∃ m ∈ metas, c.code ∈ m.values.map (fun v => v.code) ∧
        ∃ d ∈ db'.dimensions, d.id = c.dimension_id ∧ d.data_table_id = dtId ∧
          d.code = m.code)
  satDims : ∀ m ∈ metas, SatDim db' dtId m
  dlOk : DimLookupOk db dtId dl → DimLookupOk db' dtId dl'
  clOk : CatLookupOk db dtId dl cl → CatLookupOk db' dtId dl' cl'
  clDom : ∀ dc cmx, alGet cl' dc = some cmx → alGet cl dc = some cmx ∨
    ∃ m2 ∈ metas, m2.code = dc ∧ ∀ cc, (alGet cmx cc).isSome = true →
      cc ∈ m2.values.map (fun v => v.code)
  dlStable : ∀ code did, alGet dl code = some did →
    (∃ d ∈ db.dimensions, d.id = did ∧ d.data_table_id = dtId ∧ d.code = code) →
    alGet dl' code = some did
  untouched : ∀ code, code ∉ metas.map (fun m => m.code) →
    alGet dl' code = alGet dl code ∧ alGet cl' code = alGet cl code
  completeNew : ∀ code ∈ metas.map (fun m => m.code),
    (∃ did, alGet dl' code = some did) ∧
    ∃ cm, alGet cl' code = some cm ∧
      ∀ cc ∈ (alGet vc' code).getD [], ∃ cid, alGet cm cc = some cid ∧
        ∃ c ∈ db'.categories, c.id = cid ∧ c.data_table_id = dtId ∧ c.code = cc ∧
          ∀ did, alGet dl' code = some did → c.dimension_id = did
  pendProv : ∃ np, pd' = pend ++ np ∧
    ∀ e ∈ np, ∃ m ∈ metas, e.1 = m.code ∧
      ∃ v ∈ m.values, pyTruthy v.parent_code = true ∧
        e.2.2 = v.parent_code.getD "" ∧
        ∃ c ∈ db'.categories, c.id = e.2.1 ∧ c.code = v.code ∧
          ∃ did, alGet dl' m.code = some did ∧ c.dimension_id = did
  pendCover : ∀ m ∈ metas, ∀ v ∈ m.values, pyTruthy v.parent_code = true →
    ∃ cid, (m.code, cid, v.parent_code.getD "") ∈ pd' ∧
      ∃ c ∈ db'.categories, c.id = cid ∧ c.code = v.code ∧
        ∃ did, alGet dl' m.code = some did ∧ c.dimension_id = did
  pendDl : (∀ e ∈ pend, (alGet dl e.1).isSome = true) →
    ∀ e ∈ pd', (alGet dl' e.1).isSome = true
  satLens : (∀ m ∈ metas, SatDim db dtId m) →
    db'.dimensions.length = db.dimensions.length ∧
    db'.categories.length = db.categories.length


/-- Key-field bisimulation on the category table: ids, dimension,
dataset and code agree row-for-row; parents may differ. -/
def KeyBisim (db dbk : DB) : Prop :=
  (∀ c ∈ db.categories, ∃ c' ∈ dbk.categories, c'.id = c.id ∧
    c'.dimension_id = c.dimension_id ∧ c'.data_table_id = c.data_table_id ∧
    c'.code = c.code) ∧
  (∀ c' ∈ dbk.categories, ∃ c ∈ db.categories, c'.id = c.id ∧
    c'.dimension_id = c.dimension_id ∧ c'.data_table_id = c.data_table_id ∧
    c'.code = c.code)

/-- Postcondition of the deferred parent pass `resolveParents`: it only
rewrites `parent_id` fields of existing category rows. -/
structure RPPost (db db' : DB) : Prop where
  dts : db'.datatables = db.datatables
  dims : db'.dimensions = db.dimensions
  obs : db'.observations = db.observations
  odvs : db'.odvs = db.odvs
  nid : db'.nextId = db.nextId
  len : db'.categories.length = db.categories.length
  surv : ∀ c ∈ db.categories, ∃ c' ∈ db'.categories, c'.id = c.id ∧
    c'.dimension_id = c.dimension_id ∧ c'.data_table_id = c.data_table_id ∧
    c'.code = c.code
  prov : ∀ c' ∈ db'.categories, ∃ c ∈ db.categories, c'.id = c.id ∧
    c'.dimension_id = c.dimension_id ∧ c'.data_table_id = c.data_table_id ∧
    c'.code = c.code
  catsOk : CatsOk db'
  idsOk : IdsOk db → IdsOk db'
  coh : CatDimCoh db → CatDimCoh db'


/-- The normalised dimension metadata a payload yields (empty when the
payload has no structure definition). -/
def metasOf (p : Payload) : List NormDim :=
  match p.structures.head? with
  | none => []
  | some str0 => buildDimensionMetadata str0.dimsObservation

/-- The dimension order `store_metadata` returns, computed from the payload
alone. -/
def dimOrderOf (p : Payload) : List String := (metasOf p).map (fun m => m.code)

/-- The per-dimension value-code lists `store_metadata` returns, computed
from the payload alone. -/
def vcOf (p : Payload) : List (String × List String) :=
  (metasOf p).foldl
    (fun a m => alInsert a m.code (m.values.map (fun v => v.code))) []

/-- The dataset display name `store_metadata` computes. -/
def smName (code : String) (p : Payload) : String :=
  match p.structures.head? with
  | none => ""
  | some str0 =>
    let n0 := pyOr str0.name code
    (prefer_text str0.names (some n0)).getD n0

/-- The dataset description `store_metadata` computes. -/
def smDesc (p : Payload) : Option String :=
  match p.structures.head? with
  | none => none
  | some str0 => prefer_text str0.descriptions str0.description

/-- Postcondition of `store_metadata` (SDMX-JSON pipeline). -/
structure SMPost (db : DB) (code : String) (p : Payload) (r : MetaResult) : Prop where
  obs : r.db.observations = db.observations
  odvs : r.db.odvs = db.odvs
  nid : db.nextId ≤ r.db.nextId
  ordEq : r.dimension_order = dimOrderOf p
  vcEq : r.dimension_value_codes = vcOf p
  dtsOk : DTsOk r.db
  dimsOk : DimsOk r.db
  catsOk : CatsOk r.db
  idsOk : IdsOk r.db
  coh : CatDimCoh r.db
  dtIdBound : r.datatableId < r.db.nextId
  dtRow : ∃ t ∈ r.db.datatables, t.id = r.datatableId ∧ t.code = code ∧
    t.name = smName code p ∧ t.description = smDesc p
  dtSurvive : ∀ t ∈ db.datatables, ∃ t' ∈ r.db.datatables,
    t'.id = t.id ∧ t'.code = t.code
  dtFrame : ∀ t ∈ db.datatables, t.id ≠ r.datatableId → t ∈ r.db.datatables
  dtNew : (∀ t ∈ db.datatables, t.code ≠ code) →
    r.db.datatables.length = db.datatables.length + 1 ∧ r.datatableId = db.nextId
  dtOld : ∀ t0 ∈ db.datatables, t0.code = code →
    r.db.datatables.length = db.datatables.length ∧ r.datatableId = t0.id
  satDims : ∀ m ∈ metasOf p, SatDim r.db r.datatableId m
  complete : LookupComplete r.dimension_lookup r.category_lookup
    r.dimension_order r.dimension_value_codes
  dlOk : DimLookupOk r.db r.datatableId r.dimension_lookup
  clOk : CatLookupOk r.db r.datatableId r.dimension_lookup r.category_lookup
  satLens : (∀ m ∈ metasOf p, SatDim db r.datatableId m) →
    r.db.dimensions.length = db.dimensions.length ∧
    r.db.categories.length = db.categories.length


/-- The pure outcome of one observations-dict entry: `some dims_map` when
the row is kept (decoded and numeric), `none` when it is skipped. -/
def entryOutcome (order : List String) (vc : List (String × List String))
    (e : String × List JVal) : Option (List (String × String)) :=
  match e.2 with
  | [] => none
  | rawValue :: _ =>
    if rawValue = JVal.jnull then none
    else
      match decodeLoop order vc (repairIndices order.length (pySplitColon e.1)) 0 [] with
      | .ok (some dm) => if pyFloatOk rawValue then some dm else none
      | _ => none

/-- How many observation rows a list of entries inserts. -/
def entriesObsCount (order : List String) (vc : List (String × List String))
    (es : List (String × List JVal)) : Nat :=
  (es.filter (fun e => (entryOutcome order vc e).isSome)).length

/-- How many link rows a list of entries inserts. -/
def entriesLinkCount (order : List String) (vc : List (String × List String))
    (es : List (String × List JVal)) : Nat :=
  (es.map (fun e => ((entryOutcome order vc e).map List.length).getD 0)).sum

/-- The per-observation link invariant of the spec: distinct dimensions per
observation, links inside the observation's own dataset, and at most as
many links as the dataset has dimensions. -/
def C9Inv (db : DB) : Prop :=
  (∀ l ∈ db.odvs, l.observation_id < db.nextId) ∧
  ∀ o ∈ db.observations,
    ((db.odvs.filter (fun l => l.observation_id == o.id)).map
      (fun l => l.dimension_id)).Nodup ∧
    (∀ l ∈ db.odvs, l.observation_id = o.id →
      ∃ d ∈ db.dimensions, d.id = l.dimension_id ∧
        d.data_table_id = o.data_table_id ∧
        ∃ c ∈ db.categories, c.id = l.category_id ∧
          c.data_table_id = o.data_table_id) ∧
    (db.odvs.filter (fun l => l.observation_id == o.id)).length ≤
      (db.dimensions.filter (fun d => d.data_table_id == o.data_table_id)).length

/-- Postcondition of the link loop `persistLinks` when every decoded pair
resolves in the lookups. -/
structure PLPost (obsId : Nat) (dl : List (String × Nat))
    (cl : List (String × List (String × Nat))) (dm : List (String × String))
    (db db' : DB) : Prop where
  dts : db'.datatables = db.datatables
  dims : db'.dimensions = db.dimensions
  cats : db'.categories = db.categories
  obs : db'.observations = db.observations
  nid : db.nextId ≤ db'.nextId
  links : ∃ nl, db'.odvs = db.odvs ++ nl ∧ nl.length = dm.length ∧
    (∀ l ∈ nl, l.observation_id = obsId) ∧
    List.Forall₂ (fun (l : ODVRow) (pr : String × String) =>
      alGet dl pr.1 = some l.dimension_id ∧
      alGet ((alGet cl pr.1).getD []) pr.2 = some l.category_id) nl dm

/-- Postcondition of `processEntry` under complete lookups. -/
structure PEPost (dtId : Nat) (dl : List (String × Nat))
    (order : List String) (vc : List (String × List String))
    (e : String × List JVal) (cl : List (String × List (String × Nat)))
    (db db' : DB) : Prop where
  dts : db'.datatables = db.datatables
  dims : db'.dimensions = db.dimensions
  cats : db'.categories = db.categories
  nid : db.nextId ≤ db'.nextId
  out : match entryOutcome order vc e with
    | none => db'.observations = db.observations ∧ db'.odvs = db.odvs
    | some dm =>
      (∃ o, db'.observations = db.observations ++ [o] ∧ o.id = db.nextId ∧
        o.data_table_id = dtId) ∧
      (∃ nl, db'.odvs = db.odvs ++ nl ∧ nl.length = dm.length ∧
        (∀ l ∈ nl, l.observation_id = db.nextId) ∧
        List.Forall₂ (fun (l : ODVRow) (pr : String × String) =>
          alGet dl pr.1 = some l.dimension_id ∧
          alGet ((alGet cl pr.1).getD []) pr.2 = some l.category_id) nl dm) ∧
      db.nextId < db'.nextId

/-- Postcondition of the observation loop `soGo` under complete lookups. -/
structure SOPost (dtId : Nat) (dl : List (String × Nat)) (order : List String)
    (vc : List (String × List String)) (cl : List (String × List (String × Nat)))
    (es : List (String × List JVal)) (db db' : DB) : Prop where
  dts : db'.datatables = db.datatables
  dims : db'.dimensions = db.dimensions
  cats : db'.categories = db.categories
  obsLen : db'.observations.length = db.observations.length + entriesObsCount order vc es
  odvLen : db'.odvs.length = db.odvs.length + entriesLinkCount order vc es
  nid : db.nextId ≤ db'.nextId
  keep : IdsOk db ∧ C9Inv db → IdsOk db' ∧ C9Inv db'


/-- The entry list `store_observations` actually iterates over. -/
def obsEntriesOf (p : Payload) : List (String × List JVal) :=
  match p.dataSets.head? with
  | none => []
  | some ds => if ds.observations.isEmpty then [] else ds.observations


/-- A store holding one dataset row, for exercising the XML metadata path. -/
def c8Store : DB :=
  { datatables := [{ id := 0, code := "D", name := "Old", description := none, provider := none }],
    dimensions := [], categories := [], observations := [], odvs := [], nextId := 1 }

/-- Parsed XML metadata for the same dataset code. -/
def c8Meta : XMetadata :=
  { dataflowCode := some "D", dataflowName := some "New", dataflowDescription := none,
    dataflowAgency := none, dimensions := [], codelists := [] }

/-- A minimal structure definition with no dimensions. -/
def strEx0 : StructureMeta :=
  { name := some "Demo", names := none, description := none, descriptions := none,
    dimsObservation := [] }

/-- A payload carrying only the minimal structure definition. -/
def payloadC8 : Payload := { structures := [strEx0], dataSets := [] }


/-- A codelist value with inline name. -/
def vmOf (c : String) : ValueMeta :=
  { id := some c, name := some c, names := none, parent := none, parents := none }

/-- A dimension with an explicit key position and simple values. -/
def dimC1 (c : String) (k : Int) (vs : List String) : DimMeta :=
  { id := some c, keyPosition := some k, name := some c, names := none,
    values := vs.map vmOf }

/-- A three-dimension structure definition. -/
def strC1 : StructureMeta :=
  { name := some "Demo", names := none, description := none, descriptions := none,
    dimsObservation := [dimC1 "SEX" 0 ["F", "M"], dimC1 "AGE" 1 ["Y15"],
      dimC1 "TIME_PERIOD" 2 ["2021", "2022"]] }

/-- A payload with two numeric observations. -/
def payloadFull : Payload :=
  { structures := [strC1],
    dataSets := [{ observations := [("0:0:0", [JVal.jnum 5]), ("1:0:1", [JVal.jnum 7])] }] }


/-- A one-dimension structure whose first value names a parent declared
only later in the same codelist. -/
def strC7 : StructureMeta :=
  { name := some "Geo demo", names := none, description := none, descriptions := none,
    dimsObservation := [
      { id := some "GEO", keyPosition := some 0, name := some "Geo", names := none,
        values := [
          { id := some "A", name := some "Region A", names := none,
            parent := some "C", parents := none },
          { id := some "B", name := some "Region B", names := none,
            parent := none, parents := none },
          { id := some "C", name := some "Region C", names := none,
            parent := none, parents := none } ] } ] }

/-- A payload carrying only the forward-parent structure. -/
def payloadC7 : Payload := { structures := [strC7], dataSets := [] }


/-- Postcondition of the category merge loop `mergeDupCats`. -/
structure MCPost (primaryId : Nat) (cs : List CategoryRow) (db db1 : DB) : Prop where
  dts : db1.datatables = db.datatables
  dims : db1.dimensions = db.dimensions
  obs : db1.observations = db.observations
  nid : db1.nextId = db.nextId
  odvProv : ∀ l ∈ db1.odvs, ∃ l0 ∈ db.odvs, l.dimension_id = l0.dimension_id ∧
    l.observation_id = l0.observation_id
  linksOk : ∀ l ∈ db1.odvs, ∃ c ∈ db1.categories, c.id = l.category_id
  catsOut : ∀ c ∈ db1.categories, c.dimension_id = primaryId ∨
    ∃ c0 ∈ db.categories, c.id = c0.id ∧ c.dimension_id = c0.dimension_id ∧
      c0.id ∉ cs.map (fun x => x.id)
  catsPW : db1.categories.Pairwise (fun a b => a.id ≠ b.id ∧
    (a.dimension_id = primaryId → b.dimension_id = primaryId → a.code ≠ b.code))


/-- A dataset row for the dedup witness. -/
def c6T : DataTableRow :=
  { id := 0, code := "DS", name := "DS", description := none, provider := none }

/-- The surviving duplicate dimension (lower id). -/
def c6d1 : DimensionRow :=
  { id := 1, code := "DIM", name := "Dim", label := "Dim", position := 0,
    codelist_id := none, data_table_id := 0 }

/-- The duplicate dimension to be merged away (higher id). -/
def c6d2 : DimensionRow :=
  { id := 2, code := "DIM", name := "Dim", label := "Dim", position := 0,
    codelist_id := none, data_table_id := 0 }

/-- A store seeded with the two duplicate dimensions, categories on both and
links split across both. -/
def c6db : DB :=
  { datatables := [c6T], dimensions := [c6d1, c6d2],
    categories := [
      { id := 10, code := "A", name := "A", label := "A", data_table_id := 0,
        dimension_id := 1, parent_id := none },
      { id := 11, code := "A", name := "A", label := "A", data_table_id := 0,
        dimension_id := 2, parent_id := none },
      { id := 12, code := "B", name := "B", label := "B", data_table_id := 0,
        dimension_id := 2, parent_id := none } ],
    observations := [],
    odvs := [
      { id := 20, observation_id := 5, dimension_id := 1, category_id := 10 },
      { id := 21, observation_id := 5, dimension_id := 2, category_id := 11 },
      { id := 22, observation_id := 6, dimension_id := 2, category_id := 12 } ],
    nextId := 100 }

/-! # Helper lemmas -/

theorem alGet_alInsert_self {α : Type} (l : List (String × α)) (k : String) (v : α) :
    alGet (alInsert l k v) k = some v := by
  induction l with
  | nil => simp [alInsert, alGet, List.find?]
  | cons p t ih =>
    by_cases h : p.1 == k
    · simp only [alInsert]
      rw [show (p.1 == k) = true from h]
      simp [alGet, List.find?]
    · simp only [alInsert]
      rw [show (p.1 == k) = false from by simpa using h]
      simp only [alGet, List.find?] at ih ⊢
      rw [show (p.1 == k) = false from by simpa using h]
      exact ih

theorem alGet_alInsert_ne {α : Type} (l : List (String × α)) (k k' : String) (v : α)
    (h : k' ≠ k) : alGet (alInsert l k v) k' = alGet l k' := by
  induction l with
  | nil =>
    simp only [alInsert, alGet, List.find?]
    rw [show (k == k') = false from by simpa using fun e => h (by simpa using e.symm)]
  | cons p t ih =>
    by_cases hp : p.1 == k
    · simp only [alInsert]
      rw [show (p.1 == k) = true from hp]
      simp only [alGet, List.find?]
      rw [show (k == k') = false from by simpa using fun e => h (by simpa using e.symm)]
      rw [show (p.1 == k') = false from by
        have : p.1 = k := by simpa using hp
        simpa [this] using fun e => h (by simpa using e.symm)]
    · simp only [alInsert]
      rw [show (p.1 == k) = false from by simpa using hp]
      simp only [alGet, List.find?] at ih ⊢
      cases hpk : (p.1 == k') with
      | true => rfl
      | false => exact ih

theorem alGet_mem {α : Type} {l : List (String × α)} {k : String} {v : α}
    (h : alGet l k = some v) : (k, v) ∈ l := by
  induction l with
  | nil => simp [alGet, List.find?] at h
  | cons p t ih =>
    simp only [alGet, List.find?] at h
    cases hpk : (p.1 == k) with
    | true =>
      rw [hpk] at h
      simp only [Option.map_some] at h
      have h1 : p.1 = k := by simpa using hpk
      have h2 : p.2 = v := by simpa using h
      have hp : p = (k, v) := by
        cases p
        simp only [Prod.mk.injEq]
        exact ⟨h1, h2⟩
      rw [← hp]
      exact List.mem_cons_self p t
    | false =>
      rw [hpk] at h
      exact List.mem_cons_of_mem p (ih h)

theorem alKeys_alInsert (α : Type) (l : List (String × α)) (k : String) (v : α) :
    alKeys (alInsert l k v) = alKeys l ∨ alKeys (alInsert l k v) = alKeys l ++ [k] := by
  induction l with
  | nil => right; simp [alInsert, alKeys]
  | cons p t ih =>
    by_cases hp : p.1 == k
    · left
      simp only [alInsert]
      rw [show (p.1 == k) = true from hp]
      simp only [alKeys, List.map]
      have : p.1 = k := by simpa using hp
      rw [this]
    · simp only [alInsert]
      rw [show (p.1 == k) = false from by simpa using hp]
      simp only [alKeys, List.map] at ih ⊢
      rcases ih with h | h
      · left; rw [h]
      · right; rw [h]; simp

theorem alKeys_nodup_alInsert {α : Type} (l : List (String × α)) (k : String) (v : α)
    (h : (alKeys l).Nodup) : (alKeys (alInsert l k v)).Nodup := by
  induction l with
  | nil => simp [alInsert, alKeys]
  | cons p t ih =>
    by_cases hp : p.1 == k
    · simp only [alInsert]
      rw [show (p.1 == k) = true from hp]
      simp only [alKeys, List.map, List.nodup_cons] at h ⊢
      have hpk : p.1 = k := by simpa using hp
      exact ⟨by rw [← hpk]; exact h.1, h.2⟩
    · simp only [alInsert]
      rw [show (p.1 == k) = false from by simpa using hp]
      simp only [alKeys, List.map, List.nodup_cons] at h ⊢
      constructor
      · intro hmem
        rcases alKeys_alInsert α t k v with he | he
        · simp only [alKeys] at he
          rw [he] at hmem
          exact h.1 hmem
        · simp only [alKeys] at he
          rw [he] at hmem
          rcases List.mem_append.mp hmem with h1 | h1
          · exact h.1 h1
          · have : p.1 = k := by simpa using h1
            exact absurd this (by simpa using hp)
      · exact ih h.2

/-- A pairwise-incompatible list has at most one element satisfying `p`. -/
theorem filter_length_le_one {α : Type} {R : α → α → Prop} {l : List α}
    (h : l.Pairwise R) (p : α → Bool)
    (hp : ∀ a b, p a = true → p b = true → R a b → False) :
    (l.filter p).length ≤ 1 := by
  induction l with
  | nil => simp
  | cons a t ih =>
    rcases List.pairwise_cons.mp h with ⟨ha, ht⟩
    by_cases hpa : p a = true
    · have hnil : t.filter p = [] := by
        apply List.filter_eq_nil_iff.mpr
        intro b hb hpb
        exact hp a b hpa hpb (ha b hb)
      simp [List.filter, hpa, hnil]
    · simp only [List.filter]
      rw [show p a = false from by simpa using hpa]
      exact ih ht

theorem one_or_none_eq_head {α : Type} (l : List α) (p : α → Bool)
    (h : (l.filter p).length ≤ 1) :
    one_or_none l p = .ok (l.filter p).head? := by
  unfold one_or_none
  cases hf : l.filter p with
  | nil => simp
  | cons x t =>
    cases t with
    | nil => simp
    | cons y s => rw [hf] at h; simp at h

theorem one_or_none_ok_none {α : Type} {l : List α} {p : α → Bool}
    (h : one_or_none l p = .ok none) : ∀ a ∈ l, ¬ p a = true := by
  intro a ha hpa
  unfold one_or_none at h
  cases hf : l.filter p with
  | nil =>
    have := List.filter_eq_nil_iff.mp hf a ha
    exact this hpa
  | cons x t =>
    rw [hf] at h
    cases t with
    | nil => simp at h
    | cons y s => simp at h

theorem one_or_none_ok_some {α : Type} {l : List α} {p : α → Bool} {a : α}
    (h : one_or_none l p = .ok (some a)) : a ∈ l ∧ p a = true := by
  unfold one_or_none at h
  cases hf : l.filter p with
  | nil => rw [hf] at h; simp at h
  | cons x t =>
    rw [hf] at h
    cases t with
    | nil =>
      simp only [Except.ok.injEq, Option.some.injEq] at h
      have hx : x ∈ l.filter p := by rw [hf]; exact List.mem_cons_self x []
      rw [← h]
      exact ⟨(List.mem_filter.mp hx).1, (List.mem_filter.mp hx).2⟩
    | cons y s => simp at h

/-! ## Decode-loop lemmas -/

theorem decodeLoop_eq_go (order : List String) (vc : List (String × List String)) :
    ∀ idxs pos dm, decodeLoop order vc idxs pos dm = decodeGo vc (order.drop pos) idxs dm := by
  intro idxs
  induction idxs with
  | nil =>
    intro pos dm
    cases order.drop pos with
    | nil => rfl
    | cons c t => rfl
  | cons i rest ih =>
    intro pos dm
    cases hget : order.get? pos with
    | none =>
      have hlen : order.length ≤ pos := List.get?_eq_none.mp hget
      have hdrop : order.drop pos = [] := List.drop_eq_nil_of_le hlen
      rw [hdrop]
      simp only [decodeLoop, hget]
      rfl
    | some c =>
      have hlt : pos < order.length := by
        by_contra hge
        push_neg at hge
        rw [List.get?_eq_none.mpr hge] at hget
        exact Option.noConfusion hget
      have hdrop : order.drop pos = c :: order.drop (pos + 1) := by
        rw [List.drop_eq_get_cons hlt]
        have : order.get ⟨pos, hlt⟩ = c := by
          have := List.get?_eq_get hlt
          rw [this] at hget
          exact Option.some.inj hget
        rw [this]
      rw [hdrop]
      simp only [decodeLoop, hget, decodeGo]
      by_cases he : ((alGet vc c).getD []).isEmpty
      · rw [if_pos he, if_pos he, ih]
      · rw [if_neg he, if_neg he]
        by_cases hle : ((alGet vc c).getD []).length ≤ (toIdx i : Int)
        · rw [if_pos (by exact_mod_cast hle), if_pos (by exact_mod_cast hle)]
        · rw [if_neg (by exact_mod_cast hle), if_neg (by exact_mod_cast hle)]
          cases pyGetInt ((alGet vc c).getD []) (toIdx i) with
          | none => rfl
          | some x =>
            show decodeLoop order vc rest (pos + 1) (alInsert dm c x) =
              decodeGo vc (order.drop (pos + 1)) rest (alInsert dm c x)
            exact ih (pos + 1) (alInsert dm c x)

theorem pyGetInt_nonneg {α : Type} (l : List α) (i : Int) (h : 0 ≤ i) :
    pyGetInt l i = l.get? i.toNat := by
  unfold pyGetInt
  rw [if_pos h]

theorem pyGetInt_mem {α : Type} {l : List α} {i : Int} {a : α}
    (h : pyGetInt l i = some a) : a ∈ l := by
  unfold pyGetInt at h
  split at h
  · exact List.get?_mem h
  · split at h
    · exact List.get?_mem h
    · exact Option.noConfusion h

theorem alInsert_mem {α : Type} {l : List (String × α)} {k : String} {v : α} :
    ∀ p ∈ alInsert l k v, p ∈ l ∨ p = (k, v) := by
  induction l with
  | nil => intro p hp; simp [alInsert] at hp; right; exact hp
  | cons q t ih =>
    intro p hp
    by_cases hq : q.1 == k
    · simp only [alInsert] at hp
      rw [show (q.1 == k) = true from hq] at hp
      rcases List.mem_cons.mp hp with h | h
      · right; exact h
      · left; exact List.mem_cons_of_mem q h
    · simp only [alInsert] at hp
      rw [show (q.1 == k) = false from by simpa using hq] at hp
      rcases List.mem_cons.mp hp with h | h
      · left; rw [h]; exact List.mem_cons_self q t
      · rcases ih p h with h1 | h1
        · left; exact List.mem_cons_of_mem q h1
        · right; exact h1

/-- Every binding of a successfully decoded map either was already present
or names a dimension of the walked suffix with a value code from its list. -/
theorem decodeGo_mem (vc : List (String × List String)) :
    ∀ ocs idxs dm dm', decodeGo vc ocs idxs dm = .ok (some dm') →
      ∀ p ∈ dm', p ∈ dm ∨ (p.1 ∈ ocs ∧ p.2 ∈ (alGet vc p.1).getD []) := by
  intro ocs
  induction ocs with
  | nil =>
    intro idxs dm dm' h p hp
    cases idxs with
    | nil =>
      simp only [decodeGo] at h
      have : dm = dm' := by
        have := Except.ok.inj h
        exact Option.some.inj this
      left; rw [this]; exact hp
    | cons i rest => simp [decodeGo] at h
  | cons c ocs' ih =>
    intro idxs dm dm' h p hp
    cases idxs with
    | nil =>
      simp only [decodeGo] at h
      have : dm = dm' := Option.some.inj (Except.ok.inj h)
      left; rw [this]; exact hp
    | cons i rest =>
      simp only [decodeGo] at h
      by_cases he : ((alGet vc c).getD []).isEmpty
      · rw [if_pos he] at h
        rcases ih rest dm dm' h p hp with h1 | h1
        · left; exact h1
        · right; exact ⟨List.mem_cons_of_mem c h1.1, h1.2⟩
      · rw [if_neg he] at h
        by_cases hle : ((alGet vc c).getD []).length ≤ (toIdx i : Int)
        · rw [if_pos (by exact_mod_cast hle)] at h
          exact Option.noConfusion (Except.ok.inj h)
        · rw [if_neg (by exact_mod_cast hle)] at h
          cases hg : pyGetInt ((alGet vc c).getD []) (toIdx i) with
          | none => rw [hg] at h; exact Except.noConfusion h
          | some x =>
            rw [hg] at h
            rcases ih rest (alInsert dm c x) dm' h p hp with h1 | h1
            · rcases alInsert_mem p h1 with h2 | h2
              · left; exact h2
              · right
                refine ⟨by rw [h2]; exact List.mem_cons_self c ocs', ?_⟩
                rw [h2]
                exact pyGetInt_mem hg
            · right; exact ⟨List.mem_cons_of_mem c h1.1, h1.2⟩

/-- Decoding preserves key-distinctness of the accumulated map. -/
theorem decodeGo_keys_nodup (vc : List (String × List String)) :
    ∀ ocs idxs dm dm', decodeGo vc ocs idxs dm = .ok (some dm') →
      (alKeys dm).Nodup → (alKeys dm').Nodup := by
  intro ocs
  induction ocs with
  | nil =>
    intro idxs dm dm' h hn
    cases idxs with
    | nil =>
      simp only [decodeGo] at h
      rw [← Option.some.inj (Except.ok.inj h)]; exact hn
    | cons i rest => simp [decodeGo] at h
  | cons c ocs' ih =>
    intro idxs dm dm' h hn
    cases idxs with
    | nil =>
      simp only [decodeGo] at h
      rw [← Option.some.inj (Except.ok.inj h)]; exact hn
    | cons i rest =>
      simp only [decodeGo] at h
      by_cases he : ((alGet vc c).getD []).isEmpty
      · rw [if_pos he] at h
        exact ih rest dm dm' h hn
      · rw [if_neg he] at h
        by_cases hle : ((alGet vc c).getD []).length ≤ (toIdx i : Int)
        · rw [if_pos (by exact_mod_cast hle)] at h
          exact Option.noConfusion (Except.ok.inj h)
        · rw [if_neg (by exact_mod_cast hle)] at h
          cases hg : pyGetInt ((alGet vc c).getD []) (toIdx i) with
          | none => rw [hg] at h; exact Except.noConfusion h
          | some x =>
            rw [hg] at h
            exact ih rest _ dm' h (alKeys_nodup_alInsert dm c x hn)

theorem hasOutOfRange_exists {order : List String}
    {vc : List (String × List String)} {idxs : List String}
    (h : hasOutOfRange order vc idxs = true) :
    ∃ j code s, order.get? j = some code ∧ idxs.get? j = some s ∧
      ¬((alGet vc code).getD []) = [] ∧
      ((((alGet vc code).getD []).length : Int) ≤ toIdx s) := by
  unfold hasOutOfRange at h
  rcases List.any_eq_true.mp h with ⟨j, _, hj⟩
  cases hc : order.get? j with
  | none => rw [hc] at hj; cases hs : idxs.get? j <;> rw [hs] at hj <;> simp at hj
  | some code =>
    cases hs : idxs.get? j with
    | none => rw [hc, hs] at hj; simp at hj
    | some s =>
      rw [hc, hs] at hj
      simp only [Bool.and_eq_true, Bool.not_eq_true', decide_eq_true_eq] at hj
      refine ⟨j, code, s, hc, hs, ?_, hj.2⟩
      intro he
      rw [he] at hj
      simp at hj

/-- Out-of-range somewhere hence the decode loop never completes: it either
breaks (skip) or raises before reaching the bad position. -/
theorem decodeGo_oor_not_some (vc : List (String × List String)) :
    ∀ ocs idxs j code s, ocs.get? j = some code → idxs.get? j = some s →
      ¬((alGet vc code).getD []) = [] →
      ((((alGet vc code).getD []).length : Int) ≤ toIdx s) →
      ∀ dm dm', decodeGo vc ocs idxs dm ≠ .ok (some dm') := by
  intro ocs
  induction ocs with
  | nil => intro idxs j code s hc; simp at hc
  | cons c ocs' ih =>
    intro idxs j code s hc hs hne hle dm dm' h
    cases idxs with
    | nil => simp at hs
    | cons i rest =>
      simp only [decodeGo] at h
      cases j with
      | zero =>
        simp only [List.get?] at hc hs
        have hcc : c = code := Option.some.inj hc
        have hss : i = s := Option.some.inj hs
        rw [hcc, hss] at h
        rw [if_neg (by simpa using hne)] at h
        rw [if_pos (by exact_mod_cast hle)] at h
        exact Option.noConfusion (Except.ok.inj h)
      | succ j' =>
        simp only [List.get?] at hc hs
        by_cases he : ((alGet vc c).getD []).isEmpty
        · rw [if_pos he] at h
          exact ih rest j' code s hc hs hne hle dm dm' h
        · rw [if_neg he] at h
          by_cases hl : ((alGet vc c).getD []).length ≤ (toIdx i : Int)
          · rw [if_pos (by exact_mod_cast hl)] at h
            exact Option.noConfusion (Except.ok.inj h)
          · rw [if_neg (by exact_mod_cast hl)] at h
            cases hg : pyGetInt ((alGet vc c).getD []) (toIdx i) with
            | none => rw [hg] at h; exact Except.noConfusion h
            | some x =>
              rw [hg] at h
              exact ih rest j' code s hc hs hne hle _ dm' h

/-- Conversely, a `break` (skip) can only come from an out-of-range index. -/
theorem decodeGo_none_oor (vc : List (String × List String)) :
    ∀ ocs idxs dm, decodeGo vc ocs idxs dm = .ok none →
      ∃ j code s, ocs.get? j = some code ∧ idxs.get? j = some s ∧
        ¬((alGet vc code).getD []) = [] ∧
        ((((alGet vc code).getD []).length : Int) ≤ toIdx s) := by
  intro ocs
  induction ocs with
  | nil =>
    intro idxs dm h
    cases idxs with
    | nil => simp [decodeGo] at h
    | cons i rest => simp [decodeGo] at h
  | cons c ocs' ih =>
    intro idxs dm h
    cases idxs with
    | nil => simp [decodeGo] at h
    | cons i rest =>
      simp only [decodeGo] at h
      by_cases he : ((alGet vc c).getD []).isEmpty
      · rw [if_pos he] at h
        rcases ih rest dm h with ⟨j, code, s, h1, h2, h3, h4⟩
        exact ⟨j + 1, code, s, h1, h2, h3, h4⟩
      · rw [if_neg he] at h
        by_cases hl : ((alGet vc c).getD []).length ≤ (toIdx i : Int)
        · exact ⟨0, c, i, rfl, rfl, by simpa using he, by exact_mod_cast hl⟩
        · rw [if_neg (by exact_mod_cast hl)] at h
          cases hg : pyGetInt ((alGet vc c).getD []) (toIdx i) with
          | none => rw [hg] at h; exact Except.noConfusion h
          | some x =>
            rw [hg] at h
            rcases ih rest _ h with ⟨j, code, s, h1, h2, h3, h4⟩
            exact ⟨j + 1, code, s, h1, h2, h3, h4⟩

theorem decodeGo_allin (vc : List (String × List String)) :
    ∀ ocs idxs dm, ocs.Nodup → idxs.length = ocs.length →
      (∀ j code s, ocs.get? j = some code → idxs.get? j = some s →
        ¬((alGet vc code).getD []) = [] ∧ 0 ≤ toIdx s ∧
          toIdx s < (((alGet vc code).getD []).length : Int)) →
      ∃ dm', decodeGo vc ocs idxs dm = .ok (some dm') ∧
        (∀ code, code ∉ ocs → alGet dm' code = alGet dm code) ∧
        (∀ j code s, ocs.get? j = some code → idxs.get? j = some s →
          alGet dm' code = ((alGet vc code).getD []).get? (toIdx s).toNat) := by
  intro ocs
  induction ocs with
  | nil =>
    intro idxs dm _ hlen _
    have : idxs = [] := List.eq_nil_of_length_eq_zero (by simpa using hlen)
    subst this
    refine ⟨dm, rfl, fun code _ => rfl, fun j code s hc => by simp at hc⟩
  | cons c ocs' ih =>
    intro idxs dm hnd hlen hall
    cases idxs with
    | nil => simp at hlen
    | cons i rest =>
      rcases hall 0 c i rfl rfl with ⟨hne, hnn, hlt⟩
      have hnd' := List.nodup_cons.mp hnd
      have hget : pyGetInt ((alGet vc c).getD []) (toIdx i) =
          ((alGet vc c).getD []).get? (toIdx i).toNat := pyGetInt_nonneg _ _ hnn
      have hToNat : (toIdx i).toNat < ((alGet vc c).getD []).length := by
        omega
      have hx : ((alGet vc c).getD []).get? (toIdx i).toNat =
          some (((alGet vc c).getD []).get ⟨(toIdx i).toNat, hToNat⟩) :=
        List.get?_eq_get hToNat
      set x := ((alGet vc c).getD []).get ⟨(toIdx i).toNat, hToNat⟩ with hxdef
      rcases ih rest (alInsert dm c x) hnd'.2 (by simpa using hlen)
          (fun j code s hc hs => hall (j + 1) code s hc hs) with
        ⟨dm', hdm', hout, hpos⟩
      refine ⟨dm', ?_, ?_, ?_⟩
      · simp only [decodeGo]
        rw [if_neg (by simpa using hne)]
        rw [if_neg (by exact_mod_cast not_le.mpr hlt)]
        rw [hget, hx]
        exact hdm'
      · intro code hcode
        have h1 : code ∉ ocs' := fun hm => hcode (List.mem_cons_of_mem c hm)
        have h2 : code ≠ c := fun he => hcode (he ▸ List.mem_cons_self c ocs')
        rw [hout code h1, alGet_alInsert_ne dm c code x h2]
      · intro j code s hc hs
        cases j with
        | zero =>
          have hcc : c = code := Option.some.inj hc
          have hss : i = s := Option.some.inj hs
          subst hcc; subst hss
          rw [hout c hnd'.1, alGet_alInsert_self dm c x, hx]
        | succ j' => exact hpos j' code s hc hs

theorem allInRangeNonneg_spec {order : List String}
    {vc : List (String × List String)} {idxs : List String}
    (h : allInRangeNonneg order vc idxs = true) :
    idxs.length = order.length ∧
    ∀ j code s, order.get? j = some code → idxs.get? j = some s →
      ¬((alGet vc code).getD []) = [] ∧ 0 ≤ toIdx s ∧
        toIdx s < (((alGet vc code).getD []).length : Int) := by
  unfold allInRangeNonneg at h
  simp only [Bool.and_eq_true] at h
  rcases h with ⟨hlen, hall⟩
  refine ⟨by simpa using hlen, ?_⟩
  intro j code s hc hs
  have hj : j < idxs.length := by
    by_contra hge
    push_neg at hge
    rw [List.get?_eq_none.mpr hge] at hs
    exact Option.noConfusion hs
  have := List.all_eq_true.mp hall j (List.mem_range.mpr hj)
  rw [hc, hs] at this
  simp only [Bool.and_eq_true, Bool.not_eq_true', decide_eq_true_eq] at this
  refine ⟨?_, this.1.2, this.2⟩
  intro he
  rw [he] at this
  simp at this

theorem repairIndices_eq_self (n : Nat) (idxs : List String)
    (h : idxs.length = n) : repairIndices n idxs = idxs := by
  unfold repairIndices
  rw [if_neg (by omega), if_neg (by omega)]

/-- C2.  Positional key decoding is correct: whenever every position of a
colon-separated key holds a nonnegative in-range index for its dimension's
non-empty value-code list, the decode loop succeeds and maps
`dimensionOrder[i]` to `valueCodesByDimension[dimensionOrder[i]][index_i]`;
in particular, with dimension order `[SEX, AGE, TIME_PERIOD]` and value
lists `SEX:[F,M]`, `AGE:[Y_LT15,Y15T29]`, `TIME_PERIOD:[2021]`, the key
`"0:1:0"` decodes to `{SEX: F, AGE: Y15T29, TIME_PERIOD: 2021}`. -/
theorem C2_key_decode_correct :
    (∀ (order : List String) (vc : List (String × List String)) (key : String),
      order.Nodup →
      allInRangeNonneg order vc (pySplitColon key) = true →
      ∃ dm, decodeLoop order vc
          (repairIndices order.length (pySplitColon key)) 0 [] = .ok (some dm) ∧
        ∀ j code s, order.get? j = some code → (pySplitColon key).get? j = some s →
          alGet dm code = ((alGet vc code).getD []).get? (toIdx s).toNat) ∧
    decodeLoop ["SEX", "AGE", "TIME_PERIOD"]
      [("SEX", ["F", "M"]), ("AGE", ["Y_LT15", "Y15T29"]), ("TIME_PERIOD", ["2021"])]
      (repairIndices 3 (pySplitColon "0:1:0")) 0 [] =
      .ok (some [("SEX", "F"), ("AGE", "Y15T29"), ("TIME_PERIOD", "2021")]) := by
  constructor
  · intro order vc key hnd hin
    rcases allInRangeNonneg_spec hin with ⟨hlen, hall⟩
    rw [repairIndices_eq_self order.length _ hlen]
    rw [decodeLoop_eq_go, List.drop_zero]
    rcases decodeGo_allin vc order (pySplitColon key) [] hnd hlen hall with
      ⟨dm, hdm, _, hpos⟩
    exact ⟨dm, hdm, hpos⟩
  · rfl

/-- C2 witness: the theorem instantiated at the specification's example. -/
theorem C2_key_decode_correct_witness :
    (["SEX", "AGE", "TIME_PERIOD"].Nodup ∧
      allInRangeNonneg ["SEX", "AGE", "TIME_PERIOD"]
        [("SEX", ["F", "M"]), ("AGE", ["Y_LT15", "Y15T29"]), ("TIME_PERIOD", ["2021"])]
        (pySplitColon "0:1:0") = true) ∧
    ∃ dm, decodeLoop ["SEX", "AGE", "TIME_PERIOD"]
        [("SEX", ["F", "M"]), ("AGE", ["Y_LT15", "Y15T29"]), ("TIME_PERIOD", ["2021"])]
        (repairIndices 3 (pySplitColon "0:1:0")) 0 [] = .ok (some dm) ∧
      ∀ j code s, ["SEX", "AGE", "TIME_PERIOD"].get? j = some code →
        (pySplitColon "0:1:0").get? j = some s →
        alGet dm code =
          ((alGet [("SEX", ["F", "M"]), ("AGE", ["Y_LT15", "Y15T29"]),
            ("TIME_PERIOD", ["2021"])] code).getD []).get? (toIdx s).toNat :=
  ⟨⟨by decide, by decide⟩,
    C2_key_decode_correct.1 ["SEX", "AGE", "TIME_PERIOD"]
      [("SEX", ["F", "M"]), ("AGE", ["Y_LT15", "Y15T29"]), ("TIME_PERIOD", ["2021"])]
      "0:1:0" (by decide) (by decide)⟩

/-- C3.  All-or-nothing discard: whenever the repaired positional key of an
observation holds an index that is out of range for its dimension's
non-empty value-code list, processing the entry that returns normally
persists nothing — no Observation row and no ObservationDimensionValue row
(an entry raising instead aborts the dataset, whose session is never
committed). -/
theorem C3_out_of_range_discard
    (order : List String) (vc : List (String × List String)) (key : String)
    (row : List JVal) (dtId : Nat) (dl : List (String × Nat)) (db : DB)
    (cl : List (String × List (String × Nat))) (db' : DB)
    (cl' : List (String × List (String × Nat)))
    (hoor : hasOutOfRange order vc (repairIndices order.length (pySplitColon key)) = true)
    (hok : processEntry dtId dl order vc (key, row) db cl = .ok (db', cl')) :
    db' = db ∧ cl' = cl := by
  rcases hasOutOfRange_exists hoor with ⟨j, code, s, hc, hs, hne, hle⟩
  have hnot := decodeGo_oor_not_some vc order
    (repairIndices order.length (pySplitColon key)) j code s hc hs hne hle
  cases row with
  | nil =>
    simp only [processEntry] at hok
    injection Except.ok.inj hok with h1 h2
    exact ⟨h1.symm, h2.symm⟩
  | cons rv rest =>
    simp only [processEntry] at hok
    by_cases hnull : rv = JVal.jnull
    · rw [if_pos hnull] at hok
      injection Except.ok.inj hok with h1 h2
      exact ⟨h1.symm, h2.symm⟩
    · rw [if_neg hnull] at hok
      simp only [bind, Except.bind] at hok
      rw [decodeLoop_eq_go, List.drop_zero] at hok
      cases hdec : decodeGo vc order
          (repairIndices order.length (pySplitColon key)) [] with
      | error e => rw [hdec] at hok; exact Except.noConfusion hok
      | ok o =>
        rw [hdec] at hok
        cases o with
        | none =>
          injection Except.ok.inj hok with h1 h2
          exact ⟨h1.symm, h2.symm⟩
        | some dm => exact absurd hdec (hnot [] dm)

/-- C3 witness: the specification's `"2:0:0"` example against
`SEX:[F,M]`, `AGE:[Y_LT15,Y15T29]`, `TIME_PERIOD:[2021]` persists nothing. -/
theorem C3_out_of_range_discard_witness :
    (hasOutOfRange ["SEX", "AGE", "TIME_PERIOD"]
        [("SEX", ["F", "M"]), ("AGE", ["Y_LT15", "Y15T29"]), ("TIME_PERIOD", ["2021"])]
        (repairIndices 3 (pySplitColon "2:0:0")) = true) ∧
    emptyDB = emptyDB ∧ ([] : List (String × List (String × Nat))) = [] :=
  ⟨by decide,
    C3_out_of_range_discard ["SEX", "AGE", "TIME_PERIOD"]
      [("SEX", ["F", "M"]), ("AGE", ["Y_LT15", "Y15T29"]), ("TIME_PERIOD", ["2021"])]
      "2:0:0" [JVal.jnum 1] 0 [] emptyDB [] emptyDB []
      (by decide) (by rfl)⟩

theorem processEntry_eq_of_repair_eq (dtId : Nat) (dl : List (String × Nat))
    (order : List String) (vc : List (String × List String)) (k1 k2 : String)
    (h : repairIndices order.length (pySplitColon k1) =
      repairIndices order.length (pySplitColon k2)) :
    ∀ row db cl, processEntry dtId dl order vc (k1, row) db cl =
      processEntry dtId dl order vc (k2, row) db cl := by
  intro row db cl
  cases row with
  | nil => rfl
  | cons rv rest =>
    simp only [processEntry]
    rw [h]

/-- C4.  Deterministic shape repair: a too-short index sequence is padded
with `"0"` on the right, a too-long one is truncated on the right, a
non-integer index is treated as `0`; for a 3-dimension dataset the keys
`"0:1"` and `"0:1:0:5"` are processed exactly like `"0:1:0"`; and these
repairs never discard the observation by themselves — a skip can only come
from an out-of-range index. -/
theorem C4_shape_repair :
    (∀ (n : Nat) (idxs : List String), idxs.length < n →
      repairIndices n idxs = idxs ++ List.replicate (n - idxs.length) "0") ∧
    (∀ (n : Nat) (idxs : List String), n < idxs.length →
      repairIndices n idxs = idxs.take n) ∧
    (∀ s : String, pyIntParse s = none → toIdx s = 0) ∧
    (∀ (order : List String) (vc : List (String × List String)) (dtId : Nat)
      (dl : List (String × Nat)) (db : DB)
      (cl : List (String × List (String × Nat))) (row : List JVal),
      order.length = 3 →
      processEntry dtId dl order vc ("0:1", row) db cl =
        processEntry dtId dl order vc ("0:1:0", row) db cl ∧
      processEntry dtId dl order vc ("0:1:0:5", row) db cl =
        processEntry dtId dl order vc ("0:1:0", row) db cl) ∧
    (∀ (order : List String) (vc : List (String × List String)) (key : String),
      decodeLoop order vc (repairIndices order.length (pySplitColon key)) 0 [] =
        .ok none →
      hasOutOfRange order vc (repairIndices order.length (pySplitColon key)) = true) := by
  refine ⟨?_, ?_, ?_, ?_, ?_⟩
  · intro n idxs h
    unfold repairIndices
    rw [if_pos h]
  · intro n idxs h
    unfold repairIndices
    rw [if_neg (by omega), if_pos h]
  · intro s h
    unfold toIdx
    rw [h]
    rfl
  · intro order vc dtId dl db cl row h
    constructor
    · exact processEntry_eq_of_repair_eq dtId dl order vc "0:1" "0:1:0"
        (by rw [h]; decide) row db cl
    · exact processEntry_eq_of_repair_eq dtId dl order vc "0:1:0:5" "0:1:0"
        (by rw [h]; decide) row db cl
  · intro order vc key h
    rw [decodeLoop_eq_go, List.drop_zero] at h
    rcases decodeGo_none_oor vc order _ [] h with ⟨j, code, s, hc, hs, hne, hle⟩
    unfold hasOutOfRange
    apply List.any_eq_true.mpr
    have hj : j < (repairIndices order.length (pySplitColon key)).length := by
      by_contra hge
      push_neg at hge
      rw [List.get?_eq_none.mpr hge] at hs
      exact Option.noConfusion hs
    refine ⟨j, List.mem_range.mpr hj, ?_⟩
    rw [hc, hs]
    simp only [Bool.and_eq_true, Bool.not_eq_true', decide_eq_true_eq]
    exact ⟨by simpa using hne, hle⟩

/-- C4 witness: the theorem instantiated at the specification's examples. -/
theorem C4_shape_repair_witness :
    ((["0", "1"] : List String).length < 3 ∧
      repairIndices 3 ["0", "1"] = ["0", "1"] ++ List.replicate (3 - 2) "0") ∧
    ((3 : Nat) < (["0", "1", "0", "5"] : List String).length ∧
      repairIndices 3 ["0", "1", "0", "5"] = ["0", "1", "0", "5"].take 3) ∧
    (pyIntParse "x" = none ∧ toIdx "x" = 0) ∧
    (processEntry 0 [] ["SEX", "AGE", "TIME_PERIOD"]
        [("SEX", ["F", "M"]), ("AGE", ["Y_LT15", "Y15T29"]), ("TIME_PERIOD", ["2021"])]
        ("0:1", [JVal.jnum 1]) emptyDB [] =
      processEntry 0 [] ["SEX", "AGE", "TIME_PERIOD"]
        [("SEX", ["F", "M"]), ("AGE", ["Y_LT15", "Y15T29"]), ("TIME_PERIOD", ["2021"])]
        ("0:1:0", [JVal.jnum 1]) emptyDB []) ∧
    (decodeLoop ["SEX", "AGE", "TIME_PERIOD"]
        [("SEX", ["F", "M"]), ("AGE", ["Y_LT15", "Y15T29"]), ("TIME_PERIOD", ["2021"])]
        (repairIndices 3 (pySplitColon "2:0:0")) 0 [] = .ok none ∧
      hasOutOfRange ["SEX", "AGE", "TIME_PERIOD"]
        [("SEX", ["F", "M"]), ("AGE", ["Y_LT15", "Y15T29"]), ("TIME_PERIOD", ["2021"])]
        (repairIndices 3 (pySplitColon "2:0:0")) = true) :=
  ⟨⟨by decide, C4_shape_repair.1 3 ["0", "1"] (by decide)⟩,
    ⟨by decide, C4_shape_repair.2.1 3 ["0", "1", "0", "5"] (by decide)⟩,
    ⟨by decide, C4_shape_repair.2.2.1 "x" (by decide)⟩,
    (C4_shape_repair.2.2.2.1 ["SEX", "AGE", "TIME_PERIOD"]
      [("SEX", ["F", "M"]), ("AGE", ["Y_LT15", "Y15T29"]), ("TIME_PERIOD", ["2021"])]
      0 [] emptyDB [] [JVal.jnum 1] (by decide)).1,
    ⟨by rfl,
      C4_shape_repair.2.2.2.2 ["SEX", "AGE", "TIME_PERIOD"]
        [("SEX", ["F", "M"]), ("AGE", ["Y_LT15", "Y15T29"]), ("TIME_PERIOD", ["2021"])]
        "2:0:0" (by rfl)⟩⟩

/-! ## `preferred_text` lemmas -/

theorem alGet_append {α : Type} (l1 l2 : List (String × α)) (k : String) :
    alGet (l1 ++ l2) k = ((alGet l1 k).orElse (fun _ => alGet l2 k)) := by
  induction l1 with
  | nil => simp [alGet, List.find?]
  | cons p t ih =>
    simp only [List.cons_append, alGet, List.find?] at ih ⊢
    cases hp : (p.1 == k) with
    | true => rfl
    | false => exact ih

theorem byLangAux_ext : ∀ (ns : List TextNode) (acc : List (String × String)),
    ∃ ext, byLangAux ns acc = acc ++ ext := by
  intro ns
  induction ns with
  | nil => intro acc; exact ⟨[], by simp [byLangAux]⟩
  | cons n t ih =>
    intro acc
    simp only [byLangAux]
    by_cases he : pyStrip (n.text.getD "") == ""
    · rw [if_pos he]; exact ih acc
    · rw [if_neg he]
      by_cases hm : (alGet acc (if pyLowerStr (n.lang.getD "") == "" then "und"
          else pyLowerStr (n.lang.getD ""))).isSome
      · rw [if_pos hm]; exact ih acc
      · rw [if_neg hm]
        rcases ih (acc ++ [(if pyLowerStr (n.lang.getD "") == "" then "und"
            else pyLowerStr (n.lang.getD ""), pyStrip (n.text.getD ""))]) with ⟨ext, hext⟩
        exact ⟨_ :: ext, by rw [hext, List.append_assoc]; rfl⟩

/-- Characterisation of the `by_lang` map: a lookup returns the accumulated
binding if present, else the text of the earliest non-empty node whose
effective tag matches. -/
theorem byLang_get : ∀ (nodes : List TextNode) (acc : List (String × String)) (l : String),
    alGet (byLangAux nodes acc) l =
      match alGet acc l with
      | some v => some v
      | none =>
        (nodes.find? (fun n => !(pyStrip (n.text.getD "") == "") &&
          (nodeTag n == l))).map (fun n => pyStrip (n.text.getD "")) := by
  intro nodes
  induction nodes with
  | nil =>
    intro acc l
    simp only [byLangAux, List.find?]
    cases alGet acc l <;> rfl
  | cons n ns ih =>
    intro acc l
    simp only [byLangAux, List.find?]
    by_cases he : pyStrip (n.text.getD "") == ""
    · rw [if_pos he]
      rw [show (!(pyStrip (n.text.getD "") == "") && (nodeTag n == l)) = false by
        rw [he]; rfl]
      exact ih acc l
    · rw [if_neg he]
      have hbe : (!(pyStrip (n.text.getD "") == "") && (nodeTag n == l)) =
          (nodeTag n == l) := by
        rw [show (pyStrip (n.text.getD "") == "") = false from by simpa using he]
        rfl
      rw [hbe]
      by_cases htag : nodeTag n == l
      · rw [show (nodeTag n == l) = true from htag]
        have htag' : (if pyLowerStr (n.lang.getD "") == "" then "und"
            else pyLowerStr (n.lang.getD "")) = l := by
          have : nodeTag n = l := by simpa using htag
          simpa [nodeTag] using this
        by_cases hm : (alGet acc l).isSome
        · rcases Option.isSome_iff_exists.mp hm with ⟨v, hv⟩
          rw [htag', if_pos (by rw [hv]; rfl)]
          rw [ih acc l, hv]
        · have hnone : alGet acc l = none := Option.not_isSome_iff_eq_none.mp hm
          rw [htag', if_neg (by rw [hnone]; simp)]
          rw [ih _ l, alGet_append, hnone]
          simp only [Option.orElse]
          rw [show alGet [(l, pyStrip (n.text.getD ""))] l =
            some (pyStrip (n.text.getD "")) from by simp [alGet, List.find?]]
          rfl
      · rw [show (nodeTag n == l) = false from by simpa using htag]
        have htagne : (if pyLowerStr (n.lang.getD "") == "" then "und"
            else pyLowerStr (n.lang.getD "")) ≠ l := by
          simpa [nodeTag] using htag
        by_cases hm : (alGet acc (if pyLowerStr (n.lang.getD "") == "" then "und"
            else pyLowerStr (n.lang.getD ""))).isSome
        · rw [if_pos hm]; exact ih acc l
        · rw [if_neg hm]
          rw [ih _ l, alGet_append]
          have : alGet [((if pyLowerStr (n.lang.getD "") == "" then "und"
              else pyLowerStr (n.lang.getD "")), pyStrip (n.text.getD ""))] l = none := by
            simp only [alGet, List.find?]
            rw [show ((if pyLowerStr (n.lang.getD "") == "" then "und"
              else pyLowerStr (n.lang.getD "")) == l) = false from by simpa using htagne]
            rfl
          rw [this]
          cases alGet acc l <;> rfl

theorem byLang_empty_of_all_empty :
    ∀ (nodes : List TextNode) (acc : List (String × String)),
      (∀ n ∈ nodes, pyStrip (n.text.getD "") = "") → byLangAux nodes acc = acc := by
  intro nodes
  induction nodes with
  | nil => intro acc _; rfl
  | cons n ns ih =>
    intro acc h
    simp only [byLangAux]
    rw [if_pos (by simpa using h n (List.mem_cons_self n ns))]
    exact ih acc (fun m hm => h m (List.mem_cons_of_mem n hm))

theorem byLang_ne_nil_of_nonempty :
    ∀ (nodes : List TextNode) (acc : List (String × String)),
      (∃ n ∈ nodes, ¬ pyStrip (n.text.getD "") = "") → byLangAux nodes acc ≠ [] := by
  intro nodes
  induction nodes with
  | nil => intro acc h; simp at h
  | cons n ns ih =>
    intro acc h
    simp only [byLangAux]
    by_cases he : pyStrip (n.text.getD "") == ""
    · rw [if_pos he]
      rcases h with ⟨m, hm, hmne⟩
      rcases List.mem_cons.mp hm with h1 | h1
      · exact absurd (by simpa using he) (h1 ▸ hmne)
      · exact ih acc ⟨m, h1, hmne⟩
    · rw [if_neg he]
      by_cases hm : (alGet acc (if pyLowerStr (n.lang.getD "") == "" then "und"
          else pyLowerStr (n.lang.getD ""))).isSome
      · rw [if_pos hm]
        rcases byLangAux_ext ns acc with ⟨ext, hext⟩
        rw [hext]
        have hacc : acc ≠ [] := by
          intro hnil
          rw [hnil] at hm
          simp [alGet, List.find?] at hm
        intro hcon
        exact hacc (List.append_eq_nil.mp hcon).1
      · rw [if_neg hm]
        rcases byLangAux_ext ns (acc ++ [_]) with ⟨ext, hext⟩
        rw [hext]
        intro hcon
        have := (List.append_eq_nil.mp hcon).1
        exact absurd this (by simp)

/-- C10.  `preferred_text` ignores empty or whitespace-only nodes; among
nodes with the same effective tag the earliest non-empty text wins; a node
without an `xml:lang` attribute is bucketed under `"und"`; the languages
en, fr, de, lb are tried in that fixed order before the first registered
text of any language; and the supplied default is returned exactly when
every node's text is empty or whitespace-only. -/
theorem C10_preferred_text :
    (∀ (n : TextNode) (ns : List TextNode) (d : Option String),
      pyStrip (n.text.getD "") = "" →
      preferred_text (n :: ns) d = preferred_text ns d) ∧
    (∀ (nodes : List TextNode) (l : String),
      alGet (byLangAux nodes []) l =
        (nodes.find? (fun n => !(pyStrip (n.text.getD "") == "") &&
          (nodeTag n == l))).map (fun n => pyStrip (n.text.getD ""))) ∧
    (∀ n : TextNode, n.lang = none → nodeTag n = "und") ∧
    (∀ (nodes : List TextNode) (d : Option String),
      (∀ t, alGet (byLangAux nodes []) "en" = some t →
        preferred_text nodes d = some t) ∧
      (alGet (byLangAux nodes []) "en" = none →
        ∀ t, alGet (byLangAux nodes []) "fr" = some t →
        preferred_text nodes d = some t) ∧
      (alGet (byLangAux nodes []) "en" = none →
        alGet (byLangAux nodes []) "fr" = none →
        ∀ t, alGet (byLangAux nodes []) "de" = some t →
        preferred_text nodes d = some t) ∧
      (alGet (byLangAux nodes []) "en" = none →
        alGet (byLangAux nodes []) "fr" = none →
        alGet (byLangAux nodes []) "de" = none →
        ∀ t, alGet (byLangAux nodes []) "lb" = some t →
        preferred_text nodes d = some t) ∧
      (alGet (byLangAux nodes []) "en" = none →
        alGet (byLangAux nodes []) "fr" = none →
        alGet (byLangAux nodes []) "de" = none →
        alGet (byLangAux nodes []) "lb" = none →
        ∀ l t rest, byLangAux nodes [] = (l, t) :: rest →
        preferred_text nodes d = some t)) ∧
    (∀ (nodes : List TextNode) (d : Option String),
      (∀ n ∈ nodes, pyStrip (n.text.getD "") = "") →
      preferred_text nodes d = d) ∧
    (∀ (nodes : List TextNode) (d : Option String),
      (∃ n ∈ nodes, ¬ pyStrip (n.text.getD "") = "") →
      preferred_text nodes d = preferred_text nodes none ∧
        (preferred_text nodes none).isSome = true) := by
  have hunfold : ∀ (nodes : List TextNode) (d : Option String), nodes ≠ [] →
      preferred_text nodes d =
        match firstLangIn LANG_PRIORITY (byLangAux nodes []) with
        | some v => some v
        | none =>
          match (byLangAux nodes []).head? with
          | some p => some p.2
          | none => d := by
    intro nodes d hne
    unfold preferred_text
    rw [if_neg (by simpa using hne)]
  have hflang : ∀ (b : List (String × String)),
      firstLangIn LANG_PRIORITY b =
        match alGet b "en" with
        | some v => some v
        | none =>
          match alGet b "fr" with
          | some v => some v
          | none =>
            match alGet b "de" with
            | some v => some v
            | none =>
              match alGet b "lb" with
              | some v => some v
              | none => none := by
    intro b
    cases h1 : alGet b "en" <;> cases h2 : alGet b "fr" <;>
      cases h3 : alGet b "de" <;> cases h4 : alGet b "lb" <;>
      simp [LANG_PRIORITY, firstLangIn, h1, h2, h3, h4]
  refine ⟨?_, ?_, ?_, ?_, ?_, ?_⟩
  · intro n ns d he
    have hb : byLangAux (n :: ns) [] = byLangAux ns [] := by
      simp only [byLangAux]
      rw [if_pos (by simpa using he)]
    cases ns with
    | nil =>
      rw [hunfold (n :: []) d (by simp)]
      rw [hb]
      rfl
    | cons m ms =>
      rw [hunfold (n :: m :: ms) d (by simp), hunfold (m :: ms) d (by simp), hb]
  · intro nodes l
    rw [byLang_get nodes [] l]
    rfl
  · intro n h
    simp [nodeTag, h, pyLowerStr, String.mk]
  · intro nodes d
    have hne : ∀ v l, alGet (byLangAux nodes []) l = some v → nodes ≠ [] := by
      intro v l h hnil
      rw [hnil] at h
      simp [byLangAux, alGet, List.find?] at h
    refine ⟨?_, ?_, ?_, ?_, ?_⟩
    · intro t h
      rw [hunfold nodes d (hne t "en" h), hflang, h]
    · intro h1 t h
      rw [hunfold nodes d (hne t "fr" h), hflang, h1, h]
    · intro h1 h2 t h
      rw [hunfold nodes d (hne t "de" h), hflang, h1, h2, h]
    · intro h1 h2 h3 t h
      rw [hunfold nodes d (hne t "lb" h), hflang, h1, h2, h3, h]
    · intro h1 h2 h3 h4 l t rest hb
      have hnodes : nodes ≠ [] := by
        intro hnil
        rw [hnil] at hb
        simp [byLangAux] at hb
      rw [hunfold nodes d hnodes, hflang, h1, h2, h3, h4, hb]
      rfl
  · intro nodes d hall
    cases nodes with
    | nil => rfl
    | cons n ns =>
      rw [hunfold (n :: ns) d (by simp)]
      rw [byLang_empty_of_all_empty (n :: ns) [] hall]
      rfl
  · intro nodes d hex
    have hnodes : nodes ≠ [] := by
      rintro rfl
      simp at hex
    have hbne : byLangAux nodes [] ≠ [] := byLang_ne_nil_of_nonempty nodes [] hex
    rw [hunfold nodes d hnodes, hunfold nodes none hnodes]
    cases hf : firstLangIn LANG_PRIORITY (byLangAux nodes []) with
    | some v => exact ⟨rfl, rfl⟩
    | none =>
      cases hh : (byLangAux nodes []).head? with
      | none => exact absurd (List.head?_eq_none_iff.mp hh) hbne
      | some p => exact ⟨rfl, rfl⟩

/-- C10 witness: the theorem instantiated at concrete node lists. -/
theorem C10_preferred_text_witness :
    (pyStrip ((some "  " : Option String).getD "") = "" ∧
      preferred_text [⟨some "  ", some "en"⟩, ⟨some "bonjour", some "fr"⟩] (some "x") =
        preferred_text [⟨some "bonjour", some "fr"⟩] (some "x")) ∧
    alGet (byLangAux [⟨some "first", some "IT"⟩, ⟨some "second", some "it"⟩] []) "it" =
      some "first" ∧
    nodeTag ⟨some "t", none⟩ = "und" ∧
    ((∀ n ∈ ([⟨some " ", none⟩] : List TextNode), pyStrip (n.text.getD "") = "") ∧
      preferred_text [⟨some " ", none⟩] (some "dflt") = some "dflt") := by
  refine ⟨⟨by decide, ?_⟩, ?_, ?_, ⟨by decide, ?_⟩⟩
  · exact C10_preferred_text.1 ⟨some "  ", some "en"⟩ [⟨some "bonjour", some "fr"⟩]
      (some "x") (by decide)
  · rw [C10_preferred_text.2.1 [⟨some "first", some "IT"⟩, ⟨some "second", some "it"⟩] "it"]
    decide
  · exact C10_preferred_text.2.2.1 ⟨some "t", none⟩ rfl
  · exact C10_preferred_text.2.2.2.2.1 [⟨some " ", none⟩] (some "dflt") (by decide)

/-- C5 counterexample: the claim predicts that an observation whose raw
value is non-numeric is discarded before key decoding and that processing
of the dataset continues; on the JSON pipeline, `float(raw_value)` is only
applied after the key has been decoded, the raised `ValueError` aborts the
dataset, and even the valid observation of the same payload is rolled
back. -/
theorem C5_counterexample :
    ingest emptyDB "DS" payloadNonNumeric =
      .error "ValueError: could not convert to float" ∧
    ingestCommit emptyDB "DS" payloadNonNumeric = emptyDB ∧
    (ingestCommit emptyDB "DS" payloadNonNumeric).observations.length = 0 := by
  exact ⟨rfl, rfl, rfl⟩

/-- C5 (amended).  In the XML pipeline an observation with a missing or
non-numeric raw value is discarded before its key is read (the outcome does
not even depend on the key) and processing continues with the remaining
observations.  In the JSON pipeline only a missing value (empty row or JSON
null) is discarded before decoding; a non-numeric value on a decodable key
instead raises after decoding, aborting the dataset. -/
theorem C5_value_discard :
    (∀ (dtId : Nat) (dl : List (String × Nat)) (obs : XmlObs)
      (rest : List XmlObs) (db : DB) (cl : List (String × List (String × Nat))),
      (obs.obsValue = none ∨ obs.obsValue = some none ∨
        (∃ xv, obs.obsValue = some (some xv) ∧ xv.floatOk = false)) →
      processXmlObs dtId dl obs db cl = (db, cl) ∧
      (∀ kvs, processXmlObs dtId dl { obs with keyValues := kvs } db cl = (db, cl)) ∧
      xmStoreObservations dtId dl (obs :: rest) db cl =
        xmStoreObservations dtId dl rest db cl) ∧
    (∀ (dtId : Nat) (dl : List (String × Nat)) (order : List String)
      (vc : List (String × List String)) (key : String) (row : List JVal)
      (db : DB) (cl : List (String × List (String × Nat))),
      (row = [] ∨ ∃ rest, row = JVal.jnull :: rest) →
      processEntry dtId dl order vc (key, row) db cl = .ok (db, cl)) ∧
    (∀ (dtId : Nat) (dl : List (String × Nat)) (order : List String)
      (vc : List (String × List String)) (key : String) (rv : JVal)
      (rest : List JVal) (db : DB) (cl : List (String × List (String × Nat)))
      (dm : List (String × String)),
      rv ≠ JVal.jnull → pyFloatOk rv = false →
      decodeLoop order vc (repairIndices order.length (pySplitColon key)) 0 [] =
        .ok (some dm) →
      processEntry dtId dl order vc (key, rv :: rest) db cl =
        .error "ValueError: could not convert to float") := by
  refine ⟨?_, ?_, ?_⟩
  · intro dtId dl obs rest db cl hbad
    have hproc : ∀ kvs, processXmlObs dtId dl { obs with keyValues := kvs } db cl =
        (db, cl) := by
      intro kvs
      rcases hbad with h | h | ⟨xv, h, hfo⟩ <;>
        simp only [processXmlObs, h]
      rw [if_neg (by simp [hfo])]
    have hobs : { obs with keyValues := obs.keyValues } = obs := rfl
    refine ⟨by rw [← hobs]; exact hproc obs.keyValues, hproc, ?_⟩
    simp only [xmStoreObservations]
    rw [show processXmlObs dtId dl obs db cl = (db, cl) from by
      rw [← hobs]; exact hproc obs.keyValues]
  · intro dtId dl order vc key row db cl hmiss
    rcases hmiss with h | ⟨rest, h⟩ <;> subst h <;> simp [processEntry]
  · intro dtId dl order vc key rv rest db cl dm hnn hfo hdec
    simp only [processEntry]
    rw [if_neg hnn]
    simp only [bind, Except.bind]
    rw [hdec]
    show (if pyFloatOk rv = true then
        persistLinks dtId db.nextId dl dm
          { db with
            observations := db.observations ++
              [{ id := db.nextId, value := rv,
                 time_period := alGet dm "TIME_PERIOD", data_table_id := dtId }],
            nextId := db.nextId + 1 } cl
      else Except.error "ValueError: could not convert to float") =
      Except.error "ValueError: could not convert to float"
    rw [if_neg (by simp [hfo])]

/-- C5 witness: the amended theorem instantiated at concrete observations. -/
theorem C5_value_discard_witness :
    ((XmlObs.mk (some (some ⟨"abc", false⟩)) [(some "SEX", some "F")]).obsValue = none ∨
      (XmlObs.mk (some (some ⟨"abc", false⟩)) [(some "SEX", some "F")]).obsValue = some none ∨
      (∃ xv, (XmlObs.mk (some (some ⟨"abc", false⟩))
          [(some "SEX", some "F")]).obsValue = some (some xv) ∧ xv.floatOk = false)) ∧
    processXmlObs 0 [] (XmlObs.mk (some (some ⟨"abc", false⟩))
      [(some "SEX", some "F")]) emptyDB [] = (emptyDB, []) ∧
    (([] : List JVal) = [] ∨ ∃ rest, ([] : List JVal) = JVal.jnull :: rest) ∧
    processEntry 0 [] ["SEX"] [("SEX", ["F", "M"])] ("0", ([] : List JVal))
      emptyDB [] = .ok (emptyDB, []) ∧
    (JVal.jstr "abc" false ≠ JVal.jnull ∧ pyFloatOk (JVal.jstr "abc" false) = false ∧
      processEntry 0 [] ["SEX"] [("SEX", ["F", "M"])]
        ("1", [JVal.jstr "abc" false]) emptyDB [] =
        .error "ValueError: could not convert to float") := by
  refine ⟨Or.inr (Or.inr ⟨⟨"abc", false⟩, rfl, rfl⟩), ?_, Or.inl rfl, ?_, ?_⟩
  · exact (C5_value_discard.1 0 [] (XmlObs.mk (some (some ⟨"abc", false⟩))
      [(some "SEX", some "F")]) [] emptyDB []
      (Or.inr (Or.inr ⟨⟨"abc", false⟩, rfl, rfl⟩))).1
  · exact C5_value_discard.2.1 0 [] ["SEX"] [("SEX", ["F", "M"])] "0" [] emptyDB []
      (Or.inl rfl)
  · exact ⟨by decide, rfl,
      C5_value_discard.2.2 0 [] ["SEX"] [("SEX", ["F", "M"])] "1"
        (JVal.jstr "abc" false) [] emptyDB [] [("SEX", "M")]
        (by decide) rfl (by rfl)⟩

/-! ## Update-function lemmas -/

theorem ucl_proj (db : DB) (i : Nat) (l : String) :
    (updateCategoryLabels db i l).datatables = db.datatables ∧
    (updateCategoryLabels db i l).dimensions = db.dimensions ∧
    (updateCategoryLabels db i l).observations = db.observations ∧
    (updateCategoryLabels db i l).odvs = db.odvs ∧
    (updateCategoryLabels db i l).nextId = db.nextId :=
  ⟨rfl, rfl, rfl, rfl, rfl⟩

theorem ucl_fun_pres (i : Nat) (l : String) (c : CategoryRow) :
    ((fun c => if c.id == i then { c with name := l, label := l } else c) c).id = c.id ∧
    ((fun c => if c.id == i then { c with name := l, label := l } else c) c).dimension_id = c.dimension_id ∧
    ((fun c => if c.id == i then { c with name := l, label := l } else c) c).data_table_id = c.data_table_id ∧
    ((fun c => if c.id == i then { c with name := l, label := l } else c) c).code = c.code ∧
    ((fun c => if c.id == i then { c with name := l, label := l } else c) c).parent_id = c.parent_id := by
  by_cases h : c.id == i <;> simp [h]

theorem ucl_cats (db : DB) (i : Nat) (l : String) :
    (updateCategoryLabels db i l).categories =
      db.categories.map (fun c => if c.id == i then { c with name := l, label := l } else c) :=
  rfl

theorem ucl_survive (db : DB) (i : Nat) (l : String) :
    ∀ c ∈ db.categories, ∃ c' ∈ (updateCategoryLabels db i l).categories,
      c'.id = c.id ∧ c'.dimension_id = c.dimension_id ∧
      c'.data_table_id = c.data_table_id ∧ c'.code = c.code ∧
      c'.parent_id = c.parent_id := by
  intro c hc
  refine ⟨(fun c => if c.id == i then { c with name := l, label := l } else c) c,
    by rw [ucl_cats]; exact List.mem_map_of_mem _ hc, ?_⟩
  rcases ucl_fun_pres i l c with ⟨h1, h2, h3, h4, h5⟩
  exact ⟨h1, h2, h3, h4, h5⟩

theorem ucl_prov (db : DB) (i : Nat) (l : String) :
    ∀ c ∈ (updateCategoryLabels db i l).categories, ∃ c0 ∈ db.categories,
      c.id = c0.id ∧ c.dimension_id = c0.dimension_id ∧
      c.data_table_id = c0.data_table_id ∧ c.code = c0.code ∧
      c.parent_id = c0.parent_id := by
  intro c hc
  rw [ucl_cats] at hc
  rcases List.mem_map.mp hc with ⟨c0, hc0, he⟩
  rcases ucl_fun_pres i l c0 with ⟨h1, h2, h3, h4, h5⟩
  exact ⟨c0, hc0, by rw [← he]; exact h1, by rw [← he]; exact h2,
    by rw [← he]; exact h3, by rw [← he]; exact h4, by rw [← he]; exact h5⟩

theorem ucl_catsOk (db : DB) (i : Nat) (l : String) (h : CatsOk db) :
    CatsOk (updateCategoryLabels db i l) := by
  unfold CatsOk at h ⊢
  rw [ucl_cats]
  apply List.Pairwise.map _ _ h
  intro a b hab hcon
  rcases ucl_fun_pres i l a with ⟨_, ha2, _, ha4, _⟩
  rcases ucl_fun_pres i l b with ⟨_, hb2, _, hb4, _⟩
  exact hab ⟨by rw [← ha2, ← hb2]; exact hcon.1, by rw [← ha4, ← hb4]; exact hcon.2⟩

theorem ucl_len (db : DB) (i : Nat) (l : String) :
    (updateCategoryLabels db i l).categories.length = db.categories.length := by
  rw [ucl_cats, List.length_map]

theorem ucl_ids (db : DB) (i : Nat) (l : String) :
    (updateCategoryLabels db i l).categories.map (fun c => c.id) =
      db.categories.map (fun c => c.id) := by
  rw [ucl_cats, List.map_map]
  apply List.map_congr_left
  intro c _
  exact (ucl_fun_pres i l c).1

theorem ucl_idsOk (db : DB) (i : Nat) (l : String) (h : IdsOk db) :
    IdsOk (updateCategoryLabels db i l) := by
  rcases h with ⟨h1, h2, h3, h4, h5, h6, h7, h8⟩
  rcases ucl_proj db i l with ⟨p1, p2, p3, p4, p5⟩
  refine ⟨by rw [p1, p5]; exact h1, by rw [p2, p5]; exact h2, ?_,
    by rw [p3, p5]; exact h4, by rw [p1]; exact h5, by rw [p2]; exact h6,
    by rw [ucl_ids]; exact h7, by rw [p3]; exact h8⟩
  intro c hc
  rcases ucl_prov db i l c hc with ⟨c0, hc0, he, _⟩
  rw [p5, he]
  exact h3 c0 hc0

theorem ucl_coh (db : DB) (i : Nat) (l : String)
    (h : ∀ c ∈ db.categories, ∃ d ∈ db.dimensions,
      c.dimension_id = d.id ∧ c.data_table_id = d.data_table_id) :
    ∀ c ∈ (updateCategoryLabels db i l).categories,
      ∃ d ∈ (updateCategoryLabels db i l).dimensions,
        c.dimension_id = d.id ∧ c.data_table_id = d.data_table_id := by
  intro c hc
  rcases ucl_prov db i l c hc with ⟨c0, hc0, _, he2, he3, _⟩
  rcases h c0 hc0 with ⟨d, hd, hd1, hd2⟩
  exact ⟨d, by rw [(ucl_proj db i l).2.1]; exact hd,
    by rw [he2]; exact hd1, by rw [he3]; exact hd2⟩

theorem storeCats_cons_none (dtId dimId : Nat) (dimCode : String) (v : NormValue)
    (vs : List NormValue) (db : DB) (catMap : List (String × Nat))
    (codes : List String) (pending : List (String × Nat × String))
    (h : db.categories.filter
      (fun c => c.dimension_id == dimId && c.code == v.code) = []) :
    storeCats dtId dimId dimCode (v :: vs) db catMap codes pending =
      storeCats dtId dimId dimCode vs
        { db with
          categories := db.categories ++
            [{ id := db.nextId, code := v.code,
               name := if v.label == "" then v.code else v.label,
               label := if v.label == "" then v.code else v.label,
               data_table_id := dtId, dimension_id := dimId, parent_id := none }],
          nextId := db.nextId + 1 }
        (alInsert catMap v.code db.nextId) (codes ++ [v.code])
        (if pyTruthy v.parent_code then
          pending ++ [(dimCode, db.nextId, v.parent_code.getD "")]
         else pending) := by
  have hoon : one_or_none db.categories
      (fun c => c.dimension_id == dimId && c.code == v.code) = .ok none := by
    unfold one_or_none
    rw [h]
  simp only [storeCats, bind, Except.bind, hoon]

theorem storeCats_cons_some (dtId dimId : Nat) (dimCode : String) (v : NormValue)
    (vs : List NormValue) (db : DB) (catMap : List (String × Nat))
    (codes : List String) (pending : List (String × Nat × String))
    (c0 : CategoryRow)
    (h : db.categories.filter
      (fun c => c.dimension_id == dimId && c.code == v.code) = [c0]) :
    storeCats dtId dimId dimCode (v :: vs) db catMap codes pending =
      storeCats dtId dimId dimCode vs
        (updateCategoryLabels db c0.id (if v.label == "" then v.code else v.label))
        (alInsert catMap v.code c0.id) (codes ++ [v.code])
        (if pyTruthy v.parent_code then
          pending ++ [(dimCode, c0.id, v.parent_code.getD "")]
         else pending) := by
  have hoon : one_or_none db.categories
      (fun c => c.dimension_id == dimId && c.code == v.code) = .ok (some c0) := by
    unfold one_or_none
    rw [h]
  simp only [storeCats, bind, Except.bind, hoon]

theorem dim_dt_unique (db : DB) (hids : IdsOk db) (dimId dtId : Nat)
    (hdim : ∃ d ∈ db.dimensions, d.id = dimId ∧ d.data_table_id = dtId)
    (hcoh : CatDimCoh db) :
    ∀ c ∈ db.categories, c.dimension_id = dimId → c.data_table_id = dtId := by
  intro c hc hcd
  rcases hdim with ⟨d, hd, hd1, hd2⟩
  rcases hcoh c hc with ⟨d', hd', hd'1, hd'2⟩
  have hde : d' = d := by
    apply List.inj_on_of_nodup_map hids.2.2.2.2.2.1 hd' hd
    show d'.id = d.id
    rw [hd1, ← hd'1, hcd]
  rw [hd'2, hde, hd2]

theorem idsOk_append_cat (db : DB) (newCat : CategoryRow) (h : IdsOk db)
    (hid : newCat.id = db.nextId) :
    IdsOk { db with categories := db.categories ++ [newCat],
                    nextId := db.nextId + 1 } := by
  rcases h with ⟨i1, i2, i3, i4, i5, i6, i7, i8⟩
  refine ⟨fun t ht => Nat.lt_succ_of_lt (i1 t ht),
    fun d hd => Nat.lt_succ_of_lt (i2 d hd), ?_,
    fun o ho => Nat.lt_succ_of_lt (i4 o ho), i5, i6, ?_, i8⟩
  · intro c hc
    rcases List.mem_append.mp hc with h1 | h1
    · exact Nat.lt_succ_of_lt (i3 c h1)
    · rw [List.mem_singleton.mp h1, hid]
      exact Nat.lt_succ_self _
  · show ((db.categories ++ [newCat]).map (fun c => c.id)).Nodup
    rw [List.map_append]
    rw [List.nodup_append]
    refine ⟨i7, by simp, ?_⟩
    intro a ha hb
    have hlt : a < db.nextId := by
      rcases List.mem_map.mp ha with ⟨c, hc, he⟩
      rw [← he]
      exact i3 c hc
    have : a = newCat.id := by simpa using hb
    rw [this, hid] at hlt
    exact absurd hlt (Nat.lt_irrefl _)

theorem storeCats_main (dtId dimId : Nat) (dimCode : String) :
    ∀ (vs : List NormValue) (db : DB) (catMap : List (String × Nat))
      (codes : List String) (pending : List (String × Nat × String)),
      CatsOk db → CatDimCoh db → IdsOk db →
      (∃ d ∈ db.dimensions, d.id = dimId ∧ d.data_table_id = dtId) →
      ∃ db' cm' cd' pd',
        storeCats dtId dimId dimCode vs db catMap codes pending =
          .ok (db', cm', cd', pd') ∧
        SCPost dtId dimId dimCode vs db catMap codes pending db' cm' cd' pd' := by
  intro vs
  induction vs with
  | nil =>
    intro db catMap codes pending hcat hcoh hids _
    refine ⟨db, catMap, codes, pending, rfl, ?_⟩
    exact {
      dts := rfl, dims := rfl, obs := rfl, odvs := rfl,
      nid := le_refl _,
      codesEq := by simp,
      catProv := fun c hc => Or.inl ⟨c, hc, rfl, rfl, rfl, rfl, rfl⟩,
      catsSurvive := fun c hc => ⟨c, hc, rfl, rfl, rfl, rfl, rfl⟩,
      catsOk := hcat, idsOk := hids, coh := hcoh,
      cmSpec := fun v hv => absurd hv (List.not_mem_nil v),
      cmProv := fun x cid h => Or.inl h,
      cmDom := fun x h => Or.inl h,
      cmStable := fun x cid h _ => h,
      pendSpec := ⟨[], by simp, fun e he => absurd he (List.not_mem_nil e),
        fun v hv => absurd hv (List.not_mem_nil v)⟩,
      satLen := fun _ => rfl }
  | cons v vs ih =>
    intro db catMap codes pending hcat hcoh hids hdim
    have hdt : ∀ c ∈ db.categories, c.dimension_id = dimId →
        c.data_table_id = dtId := dim_dt_unique db hids dimId dtId hdim hcoh
    have hle1 : (db.categories.filter
        (fun c => c.dimension_id == dimId && c.code == v.code)).length ≤ 1 := by
      apply filter_length_le_one hcat
      intro a b hpa hpb hR
      simp only [Bool.and_eq_true, beq_iff_eq] at hpa hpb
      exact hR ⟨hpa.1.trans hpb.1.symm, hpa.2.trans hpb.2.symm⟩
    cases hf : db.categories.filter
        (fun c => c.dimension_id == dimId && c.code == v.code) with
    | cons c0 t =>
      have ht : t = [] := by
        rw [hf] at hle1
        cases t with
        | nil => rfl
        | cons x s => simp at hle1
      subst ht
      have hc0 := List.mem_filter.mp (hf ▸ List.mem_cons_self c0 [])
      have hc0dim : c0.dimension_id = dimId := by
        have := hc0.2
        simp only [Bool.and_eq_true, beq_iff_eq] at this
        exact this.1
      have hc0code : c0.code = v.code := by
        have := hc0.2
        simp only [Bool.and_eq_true, beq_iff_eq] at this
        exact this.2
      have hc0dt : c0.data_table_id = dtId := hdt c0 hc0.1 hc0dim
      set label := if v.label == "" then v.code else v.label with hlabel
      set db2 := updateCategoryLabels db c0.id label with hdb2
      have hdims2 : db2.dimensions = db.dimensions := (ucl_proj db c0.id label).2.1
      have hnid2 : db2.nextId = db.nextId := (ucl_proj db c0.id label).2.2.2.2
      have hcat2 : CatsOk db2 := ucl_catsOk db c0.id label hcat
      have hcoh2 : CatDimCoh db2 := ucl_coh db c0.id label hcoh
      have hids2 : IdsOk db2 := ucl_idsOk db c0.id label hids
      have hdim2 : ∃ d ∈ db2.dimensions, d.id = dimId ∧ d.data_table_id = dtId := by
        rw [hdims2]; exact hdim
      rcases ih db2 (alInsert catMap v.code c0.id) (codes ++ [v.code])
          (if pyTruthy v.parent_code then
            pending ++ [(dimCode, c0.id, v.parent_code.getD "")] else pending)
          hcat2 hcoh2 hids2 hdim2 with ⟨db', cm', cd', pd', heq, post⟩
      have hc0in2 : ∃ c ∈ db2.categories, c.id = c0.id ∧
          c.dimension_id = dimId ∧ c.data_table_id = dtId ∧ c.code = v.code := by
        rcases ucl_survive db c0.id label c0 hc0.1 with ⟨c', hc', e1, e2, e3, e4, _⟩
        exact ⟨c', hc', e1, by rw [e2]; exact hc0dim, by rw [e3]; exact hc0dt,
          by rw [e4]; exact hc0code⟩
      have hcmv : alGet cm' v.code = some c0.id := by
        apply post.cmStable v.code c0.id (alGet_alInsert_self _ _ _)
        rcases hc0in2 with ⟨c, hc, e1, e2, _, e4⟩
        exact ⟨c, hc, e1, e2, e4⟩
      have hc0fin : ∃ c ∈ db'.categories, c.id = c0.id ∧
          c.dimension_id = dimId ∧ c.data_table_id = dtId ∧ c.code = v.code := by
        rcases hc0in2 with ⟨c, hc, e1, e2, e3, e4⟩
        rcases post.catsSurvive c hc with ⟨c'', hc'', f1, f2, f3, f4, _⟩
        exact ⟨c'', hc'', f1.trans e1, f2.trans e2, f3.trans e3, f4.trans e4⟩
      refine ⟨db', cm', cd', pd', ?_, ?_⟩
      · rw [storeCats_cons_some dtId dimId dimCode v vs db catMap codes pending c0 hf]
        exact heq
      refine {
        dts := post.dts.trans (ucl_proj db c0.id label).1,
        dims := post.dims.trans hdims2,
        obs := post.obs.trans (ucl_proj db c0.id label).2.2.1,
        odvs := post.odvs.trans (ucl_proj db c0.id label).2.2.2.1,
        nid := by rw [← hnid2]; exact post.nid,
        codesEq := by rw [post.codesEq]; simp,
        catProv := ?_, catsSurvive := ?_,
        catsOk := post.catsOk, idsOk := post.idsOk, coh := post.coh,
        cmSpec := ?_, cmProv := ?_, cmDom := ?_, cmStable := ?_,
        pendSpec := ?_, satLen := ?_ }
      · intro c hc
        rcases post.catProv c hc with h1 | h1
        · rcases h1 with ⟨cmid, hcmid, e1, e2, e3, e4, e5⟩
          rcases ucl_prov db c0.id label cmid hcmid with ⟨c00, hc00, f1, f2, f3, f4, f5⟩
          exact Or.inl ⟨c00, hc00, e1.trans f1, e2.trans f2, e3.trans f3,
            e4.trans f4, e5.trans f5⟩
        · rcases h1 with ⟨e1, e2, e3, e4, e5⟩
          exact Or.inr ⟨e1, e2, List.mem_cons_of_mem _ e3, by rw [← hnid2]; exact e4, e5⟩
      · intro c hc
        rcases ucl_survive db c0.id label c hc with ⟨c2, hc2, e1, e2, e3, e4, e5⟩
        rcases post.catsSurvive c2 hc2 with ⟨c3, hc3, f1, f2, f3, f4, f5⟩
        exact ⟨c3, hc3, f1.trans e1, f2.trans e2, f3.trans e3, f4.trans e4, f5.trans e5⟩
      · intro u hu
        rcases List.mem_cons.mp hu with h1 | h1
        · subst h1
          exact ⟨c0.id, hcmv, hc0fin⟩
        · exact post.cmSpec u h1
      · intro x cid hx
        rcases post.cmProv x cid hx with h1 | h1
        · by_cases hxv : x = v.code
          · subst hxv
            rw [alGet_alInsert_self] at h1
            have hcc : cid = c0.id := (Option.some.inj h1).symm
            subst hcc
            rcases hc0fin with ⟨c, hc, e1, e2, e3, e4⟩
            exact Or.inr ⟨c, hc, e1, e2, e3, e4⟩
          · rw [alGet_alInsert_ne _ _ _ _ hxv] at h1
            exact Or.inl h1
        · exact Or.inr h1
      · intro x hx
        rcases post.cmDom x hx with h1 | h1
        · by_cases hxv : x = v.code
          · subst hxv
            exact Or.inr (List.mem_map.mpr ⟨v, List.mem_cons_self v vs, rfl⟩)
          · rw [alGet_alInsert_ne _ _ _ _ hxv] at h1
            exact Or.inl h1
        · rcases List.mem_map.mp h1 with ⟨u, hu, huc⟩
          exact Or.inr (List.mem_map.mpr ⟨u, List.mem_cons_of_mem v hu, huc⟩)
      · intro x cid hx hcons
        by_cases hxv : x = v.code
        · subst hxv
          rcases hcons with ⟨c, hc, e1, e2, e3⟩
          have hcfil : c ∈ db.categories.filter
              (fun c => c.dimension_id == dimId && c.code == v.code) := by
            rw [List.mem_filter]
            exact ⟨hc, by simp [e2, e3]⟩
          rw [hf] at hcfil
          have hcc0 : c = c0 := List.mem_singleton.mp hcfil
          have : cid = c0.id := by rw [← e1, hcc0]
          rw [this]
          exact hcmv
        · apply post.cmStable x cid
          · rw [alGet_alInsert_ne _ _ _ _ hxv]
            exact hx
          · rcases hcons with ⟨c, hc, e1, e2, e3⟩
            rcases ucl_survive db c0.id label c hc with ⟨c2, hc2, f1, f2, f3, f4, f5⟩
            exact ⟨c2, hc2, f1.trans e1, f2.trans e2, f4.trans e3⟩
      · rcases post.pendSpec with ⟨np2, hnp2, hA, hB⟩
        by_cases htr : pyTruthy v.parent_code = true
        · rw [if_pos htr] at hnp2
          refine ⟨(dimCode, c0.id, v.parent_code.getD "") :: np2,
            by rw [hnp2]; simp, ?_, ?_⟩
          · intro e he
            rcases List.mem_cons.mp he with h1 | h1
            · subst h1
              exact ⟨rfl, v, List.mem_cons_self v vs, htr, rfl, hcmv⟩
            · rcases hA e h1 with ⟨g1, u, hu, g2, g3, g4⟩
              exact ⟨g1, u, List.mem_cons_of_mem v hu, g2, g3, g4⟩
          · intro u hu htru
            rcases List.mem_cons.mp hu with h1 | h1
            · subst h1
              exact ⟨c0.id, hcmv, List.mem_cons_self _ _⟩
            · rcases hB u h1 htru with ⟨cid, g1, g2⟩
              exact ⟨cid, g1, List.mem_cons_of_mem _ g2⟩
        · rw [if_neg htr] at hnp2
          refine ⟨np2, hnp2, ?_, ?_⟩
          · intro e he
            rcases hA e he with ⟨g1, u, hu, g2, g3, g4⟩
            exact ⟨g1, u, List.mem_cons_of_mem v hu, g2, g3, g4⟩
          · intro u hu htru
            rcases List.mem_cons.mp hu with h1 | h1
            · subst h1
              exact absurd htru htr
            · rcases hB u h1 htru with ⟨cid, g1, g2⟩
              exact ⟨cid, g1, g2⟩
      · intro hsat
        have hsat2 : ∀ u ∈ vs, catSat db2 dimId u.code := by
          intro u hu
          rcases hsat u (List.mem_cons_of_mem v hu) with ⟨c, hc, e1, e2⟩
          rcases ucl_survive db c0.id label c hc with ⟨c2, hc2, _, f2, _, f4, _⟩
          exact ⟨c2, hc2, f2.trans e1, f4.trans e2⟩
        rw [post.satLen hsat2, ucl_len]
    | nil =>
      have hnone := List.filter_eq_nil_iff.mp hf
      set label := if v.label == "" then v.code else v.label with hlabel
      set newCat : CategoryRow :=
        { id := db.nextId, code := v.code, name := label, label := label,
          data_table_id := dtId, dimension_id := dimId, parent_id := none }
        with hnewCat
      set db2 : DB := ({ db with categories := db.categories ++ [newCat], nextId := db.nextId + 1 } : DB) with hdb2
      have hmem2 : newCat ∈ db2.categories :=
        List.mem_append.mpr (Or.inr (List.mem_singleton.mpr rfl))
      have hcat2 : CatsOk db2 := by
        unfold CatsOk
        show (db.categories ++ [newCat]).Pairwise _
        rw [List.pairwise_append]
        refine ⟨hcat, List.pairwise_singleton _ _, ?_⟩
        intro a ha b hb
        rw [List.mem_singleton.mp hb]
        intro hcon
        apply hnone a ha
        simp only [Bool.and_eq_true, beq_iff_eq]
        exact ⟨hcon.1, hcon.2⟩
      have hcoh2 : CatDimCoh db2 := by
        intro c hc
        rcases List.mem_append.mp hc with h1 | h1
        · rcases hcoh c h1 with ⟨d, hd, e1, e2⟩
          exact ⟨d, hd, e1, e2⟩
        · rw [List.mem_singleton.mp h1]
          rcases hdim with ⟨d, hd, e1, e2⟩
          exact ⟨d, hd, by rw [e1], by rw [e2]⟩
      have hids2 : IdsOk db2 := idsOk_append_cat db newCat hids rfl
      have hdim2 : ∃ d ∈ db2.dimensions, d.id = dimId ∧ d.data_table_id = dtId := hdim
      rcases ih db2 (alInsert catMap v.code db.nextId) (codes ++ [v.code])
          (if pyTruthy v.parent_code then
            pending ++ [(dimCode, db.nextId, v.parent_code.getD "")] else pending)
          hcat2 hcoh2 hids2 hdim2 with ⟨db', cm', cd', pd', heq, post⟩
      have hcmv : alGet cm' v.code = some db.nextId := by
        apply post.cmStable v.code db.nextId (alGet_alInsert_self _ _ _)
        exact ⟨newCat, hmem2, rfl, rfl, rfl⟩
      have hcNewFin : ∃ c ∈ db'.categories, c.id = db.nextId ∧
          c.dimension_id = dimId ∧ c.data_table_id = dtId ∧ c.code = v.code := by
        rcases post.catsSurvive newCat hmem2 with ⟨c'', hc'', f1, f2, f3, f4, _⟩
        exact ⟨c'', hc'', f1, f2, f3, f4⟩
      refine ⟨db', cm', cd', pd', ?_, ?_⟩
      · rw [storeCats_cons_none dtId dimId dimCode v vs db catMap codes pending hf]
        exact heq
      refine {
        dts := post.dts, dims := post.dims, obs := post.obs, odvs := post.odvs,
        nid := le_trans (Nat.le_succ _) post.nid,
        codesEq := by rw [post.codesEq]; simp,
        catProv := ?_, catsSurvive := ?_,
        catsOk := post.catsOk, idsOk := post.idsOk, coh := post.coh,
        cmSpec := ?_, cmProv := ?_, cmDom := ?_, cmStable := ?_,
        pendSpec := ?_, satLen := ?_ }
      · intro c hc
        rcases post.catProv c hc with h1 | h1
        · rcases h1 with ⟨cmid, hcmid, e1, e2, e3, e4, e5⟩
          rcases List.mem_append.mp hcmid with h2 | h2
          · exact Or.inl ⟨cmid, h2, e1, e2, e3, e4, e5⟩
          · rw [List.mem_singleton.mp h2] at e1 e2 e3 e4 e5
            exact Or.inr ⟨e2, e3, by rw [e4]; exact List.mem_cons_self _ _,
              le_of_eq e1.symm, e5⟩
        · rcases h1 with ⟨e1, e2, e3, e4, e5⟩
          exact Or.inr ⟨e1, e2, List.mem_cons_of_mem _ e3,
            le_trans (Nat.le_succ _) e4, e5⟩
      · intro c hc
        exact post.catsSurvive c (List.mem_append.mpr (Or.inl hc))
      · intro u hu
        rcases List.mem_cons.mp hu with h1 | h1
        · subst h1
          exact ⟨db.nextId, hcmv, hcNewFin⟩
        · exact post.cmSpec u h1
      · intro x cid hx
        rcases post.cmProv x cid hx with h1 | h1
        · by_cases hxv : x = v.code
          · subst hxv
            rw [alGet_alInsert_self] at h1
            have hcc : cid = db.nextId := (Option.some.inj h1).symm
            subst hcc
            rcases hcNewFin with ⟨c, hc, e1, e2, e3, e4⟩
            exact Or.inr ⟨c, hc, e1, e2, e3, e4⟩
          · rw [alGet_alInsert_ne _ _ _ _ hxv] at h1
            exact Or.inl h1
        · exact Or.inr h1
      · intro x hx
        rcases post.cmDom x hx with h1 | h1
        · by_cases hxv : x = v.code
          · subst hxv
            exact Or.inr (List.mem_map.mpr ⟨v, List.mem_cons_self v vs, rfl⟩)
          · rw [alGet_alInsert_ne _ _ _ _ hxv] at h1
            exact Or.inl h1
        · rcases List.mem_map.mp h1 with ⟨u, hu, huc⟩
          exact Or.inr (List.mem_map.mpr ⟨u, List.mem_cons_of_mem v hu, huc⟩)
      · intro x cid hx hcons
        by_cases hxv : x = v.code
        · subst hxv
          rcases hcons with ⟨c, hc, _, e2, e3⟩
          exact absurd (by simp [e2, e3] : (fun c => c.dimension_id == dimId &&
            c.code == v.code) c = true) (hnone c hc)
        · apply post.cmStable x cid
          · rw [alGet_alInsert_ne _ _ _ _ hxv]
            exact hx
          · rcases hcons with ⟨c, hc, e1, e2, e3⟩
            exact ⟨c, List.mem_append.mpr (Or.inl hc), e1, e2, e3⟩
      · rcases post.pendSpec with ⟨np2, hnp2, hA, hB⟩
        by_cases htr : pyTruthy v.parent_code = true
        · rw [if_pos htr] at hnp2
          refine ⟨(dimCode, db.nextId, v.parent_code.getD "") :: np2,
            by rw [hnp2]; simp, ?_, ?_⟩
          · intro e he
            rcases List.mem_cons.mp he with h1 | h1
            · subst h1
              exact ⟨rfl, v, List.mem_cons_self v vs, htr, rfl, hcmv⟩
            · rcases hA e h1 with ⟨g1, u, hu, g2, g3, g4⟩
              exact ⟨g1, u, List.mem_cons_of_mem v hu, g2, g3, g4⟩
          · intro u hu htru
            rcases List.mem_cons.mp hu with h1 | h1
            · subst h1
              exact ⟨db.nextId, hcmv, List.mem_cons_self _ _⟩
            · rcases hB u h1 htru with ⟨cid, g1, g2⟩
              exact ⟨cid, g1, List.mem_cons_of_mem _ g2⟩
        · rw [if_neg htr] at hnp2
          refine ⟨np2, hnp2, ?_, ?_⟩
          · intro e he
            rcases hA e he with ⟨g1, u, hu, g2, g3, g4⟩
            exact ⟨g1, u, List.mem_cons_of_mem v hu, g2, g3, g4⟩
          · intro u hu htru
            rcases List.mem_cons.mp hu with h1 | h1
            · subst h1
              exact absurd htru htr
            · exact hB u h1 htru
      · intro hsat
        exfalso
        rcases hsat v (List.mem_cons_self v vs) with ⟨c, hc, e1, e2⟩
        exact absurd (by simp [e1, e2] : (fun c => c.dimension_id == dimId &&
          c.code == v.code) c = true) (hnone c hc)

/-! ## Lemmas toward `storeDims` -/

theorem alGet_isSome_alInsert {α : Type} (l : List (String × α)) (k k' : String)
    (v : α) (h : (alGet l k').isSome = true) :
    (alGet (alInsert l k v) k').isSome = true := by
  by_cases he : k' = k
  · subst he
    rw [alGet_alInsert_self]
    rfl
  · rw [alGet_alInsert_ne _ _ _ _ he]
    exact h

theorem foldl_alInsert_notin :
    ∀ (metas : List NormDim) (vc : List (String × List String)) (code : String),
      code ∉ metas.map (fun m => m.code) →
      alGet (metas.foldl
        (fun a m => alInsert a m.code (m.values.map (fun v => v.code))) vc) code =
        alGet vc code := by
  intro metas
  induction metas with
  | nil => intro vc code _; rfl
  | cons m rest ih =>
    intro vc code hnot
    simp only [List.map, List.mem_cons] at hnot
    push_neg at hnot
    simp only [List.foldl]
    rw [ih _ code (by simpa using hnot.2)]
    exact alGet_alInsert_ne _ _ _ _ hnot.1

theorem foldl_alInsert_get :
    ∀ (metas : List NormDim) (vc : List (String × List String)) (m : NormDim),
      m ∈ metas → (metas.map (fun m => m.code)).Nodup →
      alGet (metas.foldl
        (fun a m => alInsert a m.code (m.values.map (fun v => v.code))) vc) m.code =
        some (m.values.map (fun v => v.code)) := by
  intro metas
  induction metas with
  | nil => intro vc m hm; simp at hm
  | cons m0 rest ih =>
    intro vc m hm hnd
    simp only [List.map, List.nodup_cons] at hnd
    rcases List.mem_cons.mp hm with h1 | h1
    · subst h1
      simp only [List.foldl]
      rw [foldl_alInsert_notin rest _ m.code hnd.1]
      exact alGet_alInsert_self _ _ _
    · simp only [List.foldl]
      exact ih _ m h1 hnd.2

theorem pairwise_key_unique {α : Type} {R : α → α → Prop} :
    ∀ (l : List α), l.Pairwise R → (∀ a b, R a b → R b a) →
      ∀ a ∈ l, ∀ b ∈ l, ¬ R a b → a = b := by
  intro l
  induction l with
  | nil => intro _ _ a ha; simp at ha
  | cons x t ih =>
    intro hp hsym a ha b hb hnR
    rcases List.pairwise_cons.mp hp with ⟨hx, ht⟩
    rcases List.mem_cons.mp ha with h1 | h1 <;> rcases List.mem_cons.mp hb with h2 | h2
    · rw [h1, h2]
    · subst h1; exact absurd (hx b h2) hnR
    · subst h2; exact absurd (hsym _ _ (hx a h1)) hnR
    · exact ih ht hsym a h1 b h2 hnR

theorem catsOk_unique {db : DB} (h : CatsOk db) :
    ∀ c1 ∈ db.categories, ∀ c2 ∈ db.categories,
      c1.dimension_id = c2.dimension_id → c1.code = c2.code → c1 = c2 := by
  intro c1 h1 c2 h2 he1 he2
  exact pairwise_key_unique db.categories h
    (fun a b hab hcon => hab ⟨hcon.1.symm, hcon.2.symm⟩)
    c1 h1 c2 h2 (fun hR => hR ⟨he1, he2⟩)

theorem dimsOk_unique {db : DB} (h : DimsOk db) :
    ∀ d1 ∈ db.dimensions, ∀ d2 ∈ db.dimensions,
      d1.data_table_id = d2.data_table_id → d1.code = d2.code → d1 = d2 := by
  intro d1 h1 d2 h2 he1 he2
  exact pairwise_key_unique db.dimensions h
    (fun a b hab hcon => hab ⟨hcon.1.symm, hcon.2.symm⟩)
    d1 h1 d2 h2 (fun hR => hR ⟨he1, he2⟩)

theorem idsOk_append_dim (db : DB) (newDim : DimensionRow) (h : IdsOk db)
    (hid : newDim.id = db.nextId) :
    IdsOk { db with dimensions := db.dimensions ++ [newDim],
                    nextId := db.nextId + 1 } := by
  rcases h with ⟨i1, i2, i3, i4, i5, i6, i7, i8⟩
  refine ⟨fun t ht => Nat.lt_succ_of_lt (i1 t ht), ?_,
    fun c hc => Nat.lt_succ_of_lt (i3 c hc),
    fun o ho => Nat.lt_succ_of_lt (i4 o ho), i5, ?_, i7, i8⟩
  · intro d hd
    rcases List.mem_append.mp hd with h1 | h1
    · exact Nat.lt_succ_of_lt (i2 d h1)
    · rw [List.mem_singleton.mp h1, hid]
      exact Nat.lt_succ_self _
  · show ((db.dimensions ++ [newDim]).map (fun d => d.id)).Nodup
    rw [List.map_append, List.nodup_append]
    refine ⟨i6, by simp, ?_⟩
    intro a ha hb
    have hlt : a < db.nextId := by
      rcases List.mem_map.mp ha with ⟨d, hd, he⟩
      rw [← he]
      exact i2 d hd
    have : a = newDim.id := by simpa using hb
    rw [this, hid] at hlt
    exact absurd hlt (Nat.lt_irrefl _)

theorem storeDims_cons_none (dtId : Nat) (m : NormDim) (rest : List NormDim)
    (db : DB) (dl : List (String × Nat))
    (cl : List (String × List (String × Nat))) (ord : List String)
    (vc : List (String × List String)) (pend : List (String × Nat × String))
    (hf : db.dimensions.filter
      (fun d => d.data_table_id == dtId && d.code == m.code) = []) :
    storeDims dtId (m :: rest) db dl cl ord vc pend =
      (do
        let r ← storeCats dtId db.nextId m.code m.values
          ({ db with
             dimensions := db.dimensions ++
               [{ id := db.nextId, code := m.code, name := m.label,
                  label := m.label, position := m.position,
                  codelist_id := none, data_table_id := dtId }],
             nextId := db.nextId + 1 } : DB) [] [] pend
        storeDims dtId rest r.1 (alInsert dl m.code db.nextId)
          (alInsert cl m.code r.2.1) (ord ++ [m.code])
          (alInsert vc m.code r.2.2.1) r.2.2.2) := by
  have hoon : one_or_none db.dimensions
      (fun d => d.data_table_id == dtId && d.code == m.code) = .ok none := by
    unfold one_or_none
    rw [hf]
  simp only [storeDims, bind, Except.bind, hoon]

theorem storeDims_cons_some (dtId : Nat) (m : NormDim) (rest : List NormDim)
    (db : DB) (dl : List (String × Nat))
    (cl : List (String × List (String × Nat))) (ord : List String)
    (vc : List (String × List String)) (pend : List (String × Nat × String))
    (d0 : DimensionRow)
    (hf : db.dimensions.filter
      (fun d => d.data_table_id == dtId && d.code == m.code) = [d0]) :
    storeDims dtId (m :: rest) db dl cl ord vc pend =
      (do
        let r ← storeCats dtId d0.id m.code m.values db [] [] pend
        storeDims dtId rest r.1 (alInsert dl m.code d0.id)
          (alInsert cl m.code r.2.1) (ord ++ [m.code])
          (alInsert vc m.code r.2.2.1) r.2.2.2) := by
  have hoon : one_or_none db.dimensions
      (fun d => d.data_table_id == dtId && d.code == m.code) = .ok (some d0) := by
    unfold one_or_none
    rw [hf]
  simp only [storeDims, bind, Except.bind, hoon]

theorem storeDims_main (dtId : Nat) :
    ∀ (metas : List NormDim) (db : DB) (dl : List (String × Nat))
      (cl : List (String × List (String × Nat))) (ord : List String)
      (vc : List (String × List String)) (pend : List (String × Nat × String)),
      CatsOk db → DimsOk db → CatDimCoh db → IdsOk db →
      ∃ db' dl' cl' ord' vc' pd',
        storeDims dtId metas db dl cl ord vc pend =
          .ok (db', dl', cl', ord', vc', pd') ∧
        SDPost dtId metas db dl cl ord vc pend db' dl' cl' ord' vc' pd' := by
  intro metas
  induction metas with
  | nil =>
    intro db dl cl ord vc pend hcat hdims hcoh hids
    refine ⟨db, dl, cl, ord, vc, pend, rfl, ?_⟩
    exact {
      dts := rfl, obs := rfl, odvs := rfl, nid := le_refl _,
      ordEq := by simp, vcEq := rfl,
      dimsOk := hdims, catsOk := hcat, idsOk := hids, coh := hcoh,
      dimProv := ⟨[], by simp, fun d hd => absurd hd (List.not_mem_nil d)⟩,
      catsSurvive := fun c hc => ⟨c, hc, rfl, rfl, rfl, rfl, rfl⟩,
      catMeta := fun c hc => Or.inl ⟨c, hc, rfl, rfl, rfl, rfl, rfl⟩,
      satDims := fun m hm => absurd hm (List.not_mem_nil m),
      dlOk := fun h => h, clOk := fun h => h,
      clDom := fun _ _ h => Or.inl h,
      dlStable := fun _ _ h _ => h,
      untouched := fun _ _ => ⟨rfl, rfl⟩,
      completeNew := fun code hcode => absurd hcode (List.not_mem_nil code),
      pendProv := ⟨[], by simp, fun e he => absurd he (List.not_mem_nil e)⟩,
      pendCover := fun m hm => absurd hm (List.not_mem_nil m),
      pendDl := fun h => h,
      satLens := fun _ => ⟨rfl, rfl⟩ }
  | cons m rest ih =>
    intro db dl cl ord vc pend hcat hdims hcoh hids
    have hle1 : (db.dimensions.filter
        (fun d => d.data_table_id == dtId && d.code == m.code)).length ≤ 1 := by
      apply filter_length_le_one hdims
      intro a b hpa hpb hR
      simp only [Bool.and_eq_true, beq_iff_eq] at hpa hpb
      exact hR ⟨hpa.1.trans hpb.1.symm, hpa.2.trans hpb.2.symm⟩
    cases hf : db.dimensions.filter
        (fun d => d.data_table_id == dtId && d.code == m.code) with
    | cons d0 t =>
      have ht : t = [] := by
        rw [hf] at hle1
        cases t with
        | nil => rfl
        | cons x s => simp at hle1
      subst ht
      have hd0 := List.mem_filter.mp (hf ▸ List.mem_cons_self d0 [])
      have hd0dt : d0.data_table_id = dtId := by
        have := hd0.2
        simp only [Bool.and_eq_true, beq_iff_eq] at this
        exact this.1
      have hd0code : d0.code = m.code := by
        have := hd0.2
        simp only [Bool.and_eq_true, beq_iff_eq] at this
        exact this.2
      have hrow : ∃ d ∈ db.dimensions, d.id = d0.id ∧ d.data_table_id = dtId ∧
          d.code = m.code := ⟨d0, hd0.1, rfl, hd0dt, hd0code⟩
      rcases storeCats_main dtId d0.id m.code m.values db [] [] pend
          hcat hcoh hids ⟨d0, hd0.1, rfl, hd0dt⟩ with
        ⟨dbm, cm, cds, pd2, heqCats, scp⟩
      have hcds : cds = m.values.map (fun v => v.code) := by
        rw [scp.codesEq]; simp
      have hdimsOkm : DimsOk dbm := by
        unfold DimsOk
        rw [scp.dims]
        exact hdims
      rcases ih dbm (alInsert dl m.code d0.id) (alInsert cl m.code cm)
          (ord ++ [m.code]) (alInsert vc m.code cds) pd2
          scp.catsOk hdimsOkm scp.coh scp.idsOk with
        ⟨db', dl', cl', ord', vc', pd', heqIH, post⟩
      have hrowm : ∃ d ∈ dbm.dimensions, d.id = d0.id ∧ d.data_table_id = dtId ∧
          d.code = m.code := by
        rw [scp.dims]
        exact hrow
      have hdlfin : alGet dl' m.code = some d0.id := by
        apply post.dlStable m.code d0.id (alGet_alInsert_self _ _ _) hrowm
      have hdimfin : ∃ d ∈ db'.dimensions, d.id = d0.id ∧ d.data_table_id = dtId ∧
          d.code = m.code := by
        rcases post.dimProv with ⟨nd, hnd, _⟩
        rcases hrowm with ⟨d, hd, e1, e2, e3⟩
        exact ⟨d, by rw [hnd]; exact List.mem_append.mpr (Or.inl hd), e1, e2, e3⟩
      refine ⟨db', dl', cl', ord', vc', pd', ?_, ?_⟩
      · rw [storeDims_cons_some dtId m rest db dl cl ord vc pend d0 hf]
        simp only [bind, Except.bind, heqCats]
        exact heqIH
      refine {
        dts := post.dts.trans scp.dts,
        obs := post.obs.trans scp.obs,
        odvs := post.odvs.trans scp.odvs,
        nid := le_trans scp.nid post.nid,
        ordEq := by rw [post.ordEq]; simp,
        vcEq := by rw [post.vcEq, hcds]; rfl,
        dimsOk := post.dimsOk, catsOk := post.catsOk,
        idsOk := post.idsOk, coh := post.coh,
        dimProv := ?_, catsSurvive := ?_, catMeta := ?_, satDims := ?_,
        dlOk := ?_, clOk := ?_, clDom := ?_, dlStable := ?_, untouched := ?_,
        completeNew := ?_, pendProv := ?_, pendCover := ?_, pendDl := ?_,
        satLens := ?_ }
      · rcases post.dimProv with ⟨nd, hnd, hndf⟩
        refine ⟨nd, by rw [hnd, scp.dims], ?_⟩
        intro d hd
        rcases hndf d hd with ⟨e1, e2, e3⟩
        exact ⟨e1, List.mem_cons_of_mem _ e2,
          le_trans scp.nid (by rw [← (rfl : dbm.nextId = dbm.nextId)]; exact e3)⟩
      · intro c hc
        rcases scp.catsSurvive c hc with ⟨c2, hc2, e1, e2, e3, e4, e5⟩
        rcases post.catsSurvive c2 hc2 with ⟨c3, hc3, f1, f2, f3, f4, f5⟩
        exact ⟨c3, hc3, f1.trans e1, f2.trans e2, f3.trans e3, f4.trans e4,
          f5.trans e5⟩
      · intro c hc
        rcases post.catMeta c hc with h1 | h1
        · rcases h1 with ⟨c0, hc0, e1, e2, e3, e4, e5⟩
          rcases scp.catProv c0 hc0 with h2 | h2
          · rcases h2 with ⟨c00, hc00, f1, f2, f3, f4, f5⟩
            exact Or.inl ⟨c00, hc00, e1.trans f1, e2.trans f2, e3.trans f3,
              e4.trans f4, e5.trans f5⟩
          · rcases h2 with ⟨f1, f2, f3, f4, f5⟩
            refine Or.inr ⟨e3.trans f2, le_trans f4 (le_of_eq e1.symm),
              e5.trans f5, m, List.mem_cons_self m rest, by rw [e4]; exact f3, ?_⟩
            rcases hdimfin with ⟨d, hd, g1, g2, g3⟩
            exact ⟨d, hd, by rw [e2, f1]; exact g1, g2, g3⟩
        · rcases h1 with ⟨e1, e2, e3, m', hm', e4, d, hd, e5, e6, e7⟩
          exact Or.inr ⟨e1, le_trans scp.nid e2, e3, m',
            List.mem_cons_of_mem m hm', e4, d, hd, e5, e6, e7⟩
      · intro m' hm'
        rcases List.mem_cons.mp hm' with h1 | h1
        · subst h1
          rcases hdimfin with ⟨d, hd, g1, g2, g3⟩
          refine ⟨d, hd, g2, g3, ?_⟩
          intro v hv
          rcases scp.cmSpec v hv with ⟨cid, _, c, hc, e1, e2, _, e4⟩
          rcases post.catsSurvive c hc with ⟨c', hc', f1, f2, _, f4, _⟩
          exact ⟨c', hc', by rw [f2, e2]; omega, by rw [f4, e4]⟩
        · exact post.satDims m' h1
      · intro hdlok
        apply post.dlOk
        intro code did hcd
        by_cases hcm : code = m.code
        · subst hcm
          rw [alGet_alInsert_self] at hcd
          have : did = d0.id := (Option.some.inj hcd).symm
          subst this
          rcases hrowm with ⟨d, hd, e1, e2, e3⟩
          exact ⟨d, hd, e1, e2, e3⟩
        · rw [alGet_alInsert_ne _ _ _ _ hcm] at hcd
          rcases hdlok code did hcd with ⟨d, hd, e1, e2, e3⟩
          exact ⟨d, by rw [scp.dims]; exact hd, e1, e2, e3⟩
      · intro hclok
        apply post.clOk
        intro dc cmx hdc cc cid hcc
        by_cases hcm : dc = m.code
        · subst hcm
          rw [alGet_alInsert_self] at hdc
          have hcmx : cmx = cm := (Option.some.inj hdc).symm
          subst hcmx
          rcases scp.cmProv cc cid hcc with h1 | h1
          · simp [alGet, List.find?] at h1
          · rcases h1 with ⟨c, hc, e1, e2, e3, e4⟩
            refine ⟨c, hc, e1, e3, e4, ?_⟩
            intro did hdid
            rw [alGet_alInsert_self] at hdid
            rw [e2, (Option.some.inj hdid)]
        · rw [alGet_alInsert_ne _ _ _ _ hcm] at hdc
          rcases hclok dc cmx hdc cc cid hcc with ⟨c, hc, e1, e2, e3, e4⟩
          rcases scp.catsSurvive c hc with ⟨c', hc', f1, f2, f3, f4, _⟩
          refine ⟨c', hc', f1.trans e1, f3.trans e2, f4.trans e3, ?_⟩
          intro did hdid
          rw [alGet_alInsert_ne _ _ _ _ hcm] at hdid
          rw [f2]
          exact e4 did hdid
      · intro dc cmx hdc
        rcases post.clDom dc cmx hdc with h1 | h1
        · by_cases hcm : dc = m.code
          · subst hcm
            rw [alGet_alInsert_self] at h1
            have hcmx : cmx = cm := (Option.some.inj h1).symm
            subst hcmx
            refine Or.inr ⟨m, List.mem_cons_self m rest, rfl, ?_⟩
            intro cc hcc
            rcases scp.cmDom cc hcc with h2 | h2
            · simp [alGet, List.find?] at h2
            · exact h2
          · rw [alGet_alInsert_ne _ _ _ _ hcm] at h1
            exact Or.inl h1
        · rcases h1 with ⟨m2, hm2, g1, g2⟩
          exact Or.inr ⟨m2, List.mem_cons_of_mem m hm2, g1, g2⟩
      · intro code did hcd hcons
        have hconsm : ∃ d ∈ dbm.dimensions, d.id = did ∧ d.data_table_id = dtId ∧
            d.code = code := by
          rw [scp.dims]
          exact hcons
        by_cases hcm : code = m.code
        · subst hcm
          rcases hcons with ⟨d, hd, e1, e2, e3⟩
          have hdf : d ∈ db.dimensions.filter
              (fun d => d.data_table_id == dtId && d.code == m.code) := by
            rw [List.mem_filter]
            exact ⟨hd, by simp [e2, e3]⟩
          rw [hf] at hdf
          have hdd0 : d = d0 := List.mem_singleton.mp hdf
          have : did = d0.id := by rw [← e1, hdd0]
          subst this
          exact post.dlStable m.code d0.id (alGet_alInsert_self _ _ _) hrowm
        · apply post.dlStable code did _ hconsm
          rw [alGet_alInsert_ne _ _ _ _ hcm]
          exact hcd
      · intro code hcode
        simp only [List.map, List.mem_cons] at hcode
        push_neg at hcode
        rcases post.untouched code (by simpa using hcode.2) with ⟨u1, u2⟩
        exact ⟨by rw [u1, alGet_alInsert_ne _ _ _ _ hcode.1],
          by rw [u2, alGet_alInsert_ne _ _ _ _ hcode.1]⟩
      · intro code hcode
        by_cases hrest : code ∈ rest.map (fun m => m.code)
        · exact post.completeNew code hrest
        · have hcm : code = m.code := by
            simp only [List.map, List.mem_cons] at hcode
            rcases hcode with h1 | h1
            · exact h1
            · exact absurd h1 hrest
          subst hcm
          rcases post.untouched m.code hrest with ⟨u1, u2⟩
          refine ⟨⟨d0.id, by rw [u1]; exact alGet_alInsert_self _ _ _⟩,
            cm, by rw [u2]; exact alGet_alInsert_self _ _ _, ?_⟩
          intro cc hcc
          have hvcfin : alGet vc' m.code = some cds := by
            rw [post.vcEq, foldl_alInsert_notin rest _ m.code hrest]
            exact alGet_alInsert_self _ _ _
          rw [hvcfin] at hcc
          simp only [Option.getD] at hcc
          rw [hcds] at hcc
          rcases List.mem_map.mp hcc with ⟨v, hv, hvc⟩
          rcases scp.cmSpec v hv with ⟨cid, hcid, c, hc, e1, e2, e3, e4⟩
          rcases post.catsSurvive c hc with ⟨c', hc', f1, f2, f3, f4, _⟩
          refine ⟨cid, by rw [hvc] at hcid; exact hcid, c', hc', f1.trans e1,
            f3.trans e3, by rw [f4, e4, hvc], ?_⟩
          intro did hdid
          rw [u1, alGet_alInsert_self] at hdid
          rw [f2, e2, (Option.some.inj hdid)]
      · rcases scp.pendSpec with ⟨npH, hnpH, hA, _⟩
        rcases post.pendProv with ⟨npR, hnpR, hB⟩
        refine ⟨npH ++ npR, by rw [hnpR, hnpH, List.append_assoc], ?_⟩
        intro e he
        rcases List.mem_append.mp he with h1 | h1
        · rcases hA e h1 with ⟨g1, v, hv, g2, g3, g4⟩
          refine ⟨m, List.mem_cons_self m rest, g1, v, hv, g2, g3, ?_⟩
          rcases scp.cmProv v.code e.2.1 g4 with h2 | h2
          · simp [alGet, List.find?] at h2
          · rcases h2 with ⟨c, hc, e1, e2, e3, e4⟩
            rcases post.catsSurvive c hc with ⟨c', hc', f1, f2, _, f4, _⟩
            exact ⟨c', hc', f1.trans e1, f4.trans e4, d0.id, hdlfin,
              f2.trans e2⟩
        · rcases hB e h1 with ⟨m', hm', g1, v, hv, g2, g3, g4⟩
          exact ⟨m', List.mem_cons_of_mem m hm', g1, v, hv, g2, g3, g4⟩
      · intro m' hm' v hv htru
        rcases List.mem_cons.mp hm' with h1 | h1
        · subst h1
          rcases scp.pendSpec with ⟨npH, hnpH, _, hCov⟩
          rcases hCov v hv htru with ⟨cid, hcid, hmem⟩
          refine ⟨cid, ?_, ?_⟩
          · rcases post.pendProv with ⟨npR, hnpR, _⟩
            rw [hnpR, hnpH]
            exact List.mem_append.mpr (Or.inl (List.mem_append.mpr (Or.inr hmem)))
          · rcases scp.cmProv v.code cid hcid with h2 | h2
            · simp [alGet, List.find?] at h2
            · rcases h2 with ⟨c, hc, e1, e2, e3, e4⟩
              rcases post.catsSurvive c hc with ⟨c', hc', f1, f2, _, f4, _⟩
              exact ⟨c', hc', f1.trans e1, f4.trans e4, d0.id, hdlfin,
                f2.trans e2⟩
        · rcases post.pendCover m' h1 v hv htru with ⟨cid, hcid, hrest2⟩
          exact ⟨cid, hcid, hrest2⟩
      · intro hin
        apply post.pendDl
        intro e he
        rcases scp.pendSpec with ⟨npH, hnpH, hA, _⟩
        rw [hnpH] at he
        rcases List.mem_append.mp he with h1 | h1
        · exact alGet_isSome_alInsert _ _ _ _ (hin e h1)
        · rcases hA e h1 with ⟨g1, _⟩
          rw [g1, alGet_alInsert_self]
          rfl
      · intro hsat
        have hsatHead := hsat m (List.mem_cons_self m rest)
        rcases hsatHead with ⟨d, hd, e1, e2, e3⟩
        have hdd0 : d = d0 := by
          apply dimsOk_unique hdims d hd d0 hd0.1
          · rw [e1, hd0dt]
          · rw [e2, hd0code]
        have hcatlen : dbm.categories.length = db.categories.length := by
          apply scp.satLen
          intro v hv
          rcases e3 v hv with ⟨c, hc, g1, g2⟩
          exact ⟨c, hc, by rw [g1, hdd0], g2⟩
        have hsatRest : ∀ m' ∈ rest, SatDim dbm dtId m' := by
          intro m' hm'
          rcases hsat m' (List.mem_cons_of_mem m hm') with ⟨d', hd', g1, g2, g3⟩
          refine ⟨d', by rw [scp.dims]; exact hd', g1, g2, ?_⟩
          intro v hv
          rcases g3 v hv with ⟨c, hc, k1, k2⟩
          rcases scp.catsSurvive c hc with ⟨c', hc', f1, f2, _, f4, _⟩
          exact ⟨c', hc', f2.trans k1, f4.trans k2⟩
        rcases post.satLens hsatRest with ⟨l1, l2⟩
        constructor
        · rw [l1, scp.dims]
        · rw [l2, hcatlen]
    | nil =>
      have hnone := List.filter_eq_nil_iff.mp hf
      set newDim : DimensionRow :=
        { id := db.nextId, code := m.code, name := m.label, label := m.label,
          position := m.position, codelist_id := none, data_table_id := dtId }
        with hnewDim
      set db1 : DB := ({ db with dimensions := db.dimensions ++ [newDim], nextId := db.nextId + 1 } : DB) with hdb1
      have hmem1 : newDim ∈ db1.dimensions :=
        List.mem_append.mpr (Or.inr (List.mem_singleton.mpr rfl))
      have hdims1 : DimsOk db1 := by
        unfold DimsOk
        show (db.dimensions ++ [newDim]).Pairwise _
        rw [List.pairwise_append]
        refine ⟨hdims, List.pairwise_singleton _ _, ?_⟩
        intro a ha b hb
        rw [List.mem_singleton.mp hb]
        intro hcon
        apply hnone a ha
        simp only [Bool.and_eq_true, beq_iff_eq]
        exact ⟨hcon.1, hcon.2⟩
      have hcat1 : CatsOk db1 := hcat
      have hcoh1 : CatDimCoh db1 := by
        intro c hc
        rcases hcoh c hc with ⟨d, hd, e1, e2⟩
        exact ⟨d, List.mem_append.mpr (Or.inl hd), e1, e2⟩
      have hids1 : IdsOk db1 := idsOk_append_dim db newDim hids rfl
      rcases storeCats_main dtId db.nextId m.code m.values db1 [] [] pend
          hcat1 hcoh1 hids1 ⟨newDim, hmem1, rfl, rfl⟩ with
        ⟨dbm, cm, cds, pd2, heqCats, scp⟩
      have hcds : cds = m.values.map (fun v => v.code) := by
        rw [scp.codesEq]; simp
      have hdimsOkm : DimsOk dbm := by
        unfold DimsOk
        rw [scp.dims]
        exact hdims1
      rcases ih dbm (alInsert dl m.code db.nextId) (alInsert cl m.code cm)
          (ord ++ [m.code]) (alInsert vc m.code cds) pd2
          scp.catsOk hdimsOkm scp.coh scp.idsOk with
        ⟨db', dl', cl', ord', vc', pd', heqIH, post⟩
      have hrowm : ∃ d ∈ dbm.dimensions, d.id = db.nextId ∧
          d.data_table_id = dtId ∧ d.code = m.code := by
        rw [scp.dims]
        exact ⟨newDim, hmem1, rfl, rfl, rfl⟩
      have hdlfin : alGet dl' m.code = some db.nextId :=
        post.dlStable m.code db.nextId (alGet_alInsert_self _ _ _) hrowm
      have hdimfin : ∃ d ∈ db'.dimensions, d.id = db.nextId ∧
          d.data_table_id = dtId ∧ d.code = m.code := by
        rcases post.dimProv with ⟨nd, hnd, _⟩
        rcases hrowm with ⟨d, hd, e1, e2, e3⟩
        exact ⟨d, by rw [hnd]; exact List.mem_append.mpr (Or.inl hd), e1, e2, e3⟩
      refine ⟨db', dl', cl', ord', vc', pd', ?_, ?_⟩
      · rw [storeDims_cons_none dtId m rest db dl cl ord vc pend hf]
        simp only [bind, Except.bind, heqCats]
        exact heqIH
      refine {
        dts := post.dts.trans scp.dts,
        obs := post.obs.trans scp.obs,
        odvs := post.odvs.trans scp.odvs,
        nid := le_trans (Nat.le_succ _) (le_trans scp.nid post.nid),
        ordEq := by rw [post.ordEq]; simp,
        vcEq := by rw [post.vcEq, hcds]; rfl,
        dimsOk := post.dimsOk, catsOk := post.catsOk,
        idsOk := post.idsOk, coh := post.coh,
        dimProv := ?_, catsSurvive := ?_, catMeta := ?_, satDims := ?_,
        dlOk := ?_, clOk := ?_, clDom := ?_, dlStable := ?_, untouched := ?_,
        completeNew := ?_, pendProv := ?_, pendCover := ?_, pendDl := ?_,
        satLens := ?_ }
      · rcases post.dimProv with ⟨nd, hnd, hndf⟩
        refine ⟨newDim :: nd, ?_, ?_⟩
        · rw [hnd, scp.dims]
          show db1.dimensions ++ nd = db.dimensions ++ (newDim :: nd)
          show (db.dimensions ++ [newDim]) ++ nd = db.dimensions ++ (newDim :: nd)
          rw [List.append_assoc]
          rfl
        · intro d hd
          rcases List.mem_cons.mp hd with h1 | h1
          · rw [h1]
            exact ⟨rfl, List.mem_cons_self _ _, le_refl _⟩
          · rcases hndf d h1 with ⟨e1, e2, e3⟩
            exact ⟨e1, List.mem_cons_of_mem _ e2,
              le_trans (Nat.le_succ _) (le_trans scp.nid e3)⟩
      · intro c hc
        rcases scp.catsSurvive c (by exact hc) with ⟨c2, hc2, e1, e2, e3, e4, e5⟩
        rcases post.catsSurvive c2 hc2 with ⟨c3, hc3, f1, f2, f3, f4, f5⟩
        exact ⟨c3, hc3, f1.trans e1, f2.trans e2, f3.trans e3, f4.trans e4,
          f5.trans e5⟩
      · intro c hc
        rcases post.catMeta c hc with h1 | h1
        · rcases h1 with ⟨c0, hc0, e1, e2, e3, e4, e5⟩
          rcases scp.catProv c0 hc0 with h2 | h2
          · rcases h2 with ⟨c00, hc00, f1, f2, f3, f4, f5⟩
            exact Or.inl ⟨c00, hc00, e1.trans f1, e2.trans f2, e3.trans f3,
              e4.trans f4, e5.trans f5⟩
          · rcases h2 with ⟨f1, f2, f3, f4, f5⟩
            refine Or.inr ⟨e3.trans f2,
              le_trans (Nat.le_succ _) (le_trans f4 (le_of_eq e1.symm)),
              e5.trans f5, m, List.mem_cons_self m rest, by rw [e4]; exact f3, ?_⟩
            rcases hdimfin with ⟨d, hd, g1, g2, g3⟩
            exact ⟨d, hd, by rw [e2, f1]; exact g1, g2, g3⟩
        · rcases h1 with ⟨e1, e2, e3, m', hm', e4, d, hd, e5, e6, e7⟩
          exact Or.inr ⟨e1, le_trans (Nat.le_succ _) (le_trans scp.nid e2), e3,
            m', List.mem_cons_of_mem m hm', e4, d, hd, e5, e6, e7⟩
      · intro m' hm'
        rcases List.mem_cons.mp hm' with h1 | h1
        · subst h1
          rcases hdimfin with ⟨d, hd, g1, g2, g3⟩
          refine ⟨d, hd, g2, g3, ?_⟩
          intro v hv
          rcases scp.cmSpec v hv with ⟨cid, _, c, hc, e1, e2, _, e4⟩
          rcases post.catsSurvive c hc with ⟨c', hc', f1, f2, _, f4, _⟩
          exact ⟨c', hc', by rw [f2, e2]; omega, by rw [f4, e4]⟩
        · exact post.satDims m' h1
      · intro hdlok
        apply post.dlOk
        intro code did hcd
        by_cases hcm : code = m.code
        · subst hcm
          rw [alGet_alInsert_self] at hcd
          have : did = db.nextId := (Option.some.inj hcd).symm
          subst this
          rcases hrowm with ⟨d, hd, e1, e2, e3⟩
          exact ⟨d, hd, e1, e2, e3⟩
        · rw [alGet_alInsert_ne _ _ _ _ hcm] at hcd
          rcases hdlok code did hcd with ⟨d, hd, e1, e2, e3⟩
          refine ⟨d, ?_, e1, e2, e3⟩
          rw [scp.dims]
          exact List.mem_append.mpr (Or.inl hd)
      · intro hclok
        apply post.clOk
        intro dc cmx hdc cc cid hcc
        by_cases hcm : dc = m.code
        · subst hcm
          rw [alGet_alInsert_self] at hdc
          have hcmx : cmx = cm := (Option.some.inj hdc).symm
          subst hcmx
          rcases scp.cmProv cc cid hcc with h1 | h1
          · simp [alGet, List.find?] at h1
          · rcases h1 with ⟨c, hc, e1, e2, e3, e4⟩
            refine ⟨c, hc, e1, e3, e4, ?_⟩
            intro did hdid
            rw [alGet_alInsert_self] at hdid
            rw [e2, (Option.some.inj hdid)]
        · rw [alGet_alInsert_ne _ _ _ _ hcm] at hdc
          rcases hclok dc cmx hdc cc cid hcc with ⟨c, hc, e1, e2, e3, e4⟩
          rcases scp.catsSurvive c (by exact hc) with ⟨c', hc', f1, f2, f3, f4, _⟩
          refine ⟨c', hc', f1.trans e1, f3.trans e2, f4.trans e3, ?_⟩
          intro did hdid
          rw [alGet_alInsert_ne _ _ _ _ hcm] at hdid
          rw [f2]
          exact e4 did hdid
      · intro dc cmx hdc
        rcases post.clDom dc cmx hdc with h1 | h1
        · by_cases hcm : dc = m.code
          · subst hcm
            rw [alGet_alInsert_self] at h1
            have hcmx : cmx = cm := (Option.some.inj h1).symm
            subst hcmx
            refine Or.inr ⟨m, List.mem_cons_self m rest, rfl, ?_⟩
            intro cc hcc
            rcases scp.cmDom cc hcc with h2 | h2
            · simp [alGet, List.find?] at h2
            · exact h2
          · rw [alGet_alInsert_ne _ _ _ _ hcm] at h1
            exact Or.inl h1
        · rcases h1 with ⟨m2, hm2, g1, g2⟩
          exact Or.inr ⟨m2, List.mem_cons_of_mem m hm2, g1, g2⟩
      · intro code did hcd hcons
        rcases hcons with ⟨d, hd, e1, e2, e3⟩
        by_cases hcm : code = m.code
        · exfalso
          apply hnone d hd
          simp only [Bool.and_eq_true, beq_iff_eq]
          exact ⟨e2, by rw [e3, hcm]⟩
        · apply post.dlStable code did
          · rw [alGet_alInsert_ne _ _ _ _ hcm]
            exact hcd
          · refine ⟨d, ?_, e1, e2, e3⟩
            rw [scp.dims]
            exact List.mem_append.mpr (Or.inl hd)
      · intro code hcode
        simp only [List.map, List.mem_cons] at hcode
        push_neg at hcode
        rcases post.untouched code (by simpa using hcode.2) with ⟨u1, u2⟩
        exact ⟨by rw [u1, alGet_alInsert_ne _ _ _ _ hcode.1],
          by rw [u2, alGet_alInsert_ne _ _ _ _ hcode.1]⟩
      · intro code hcode
        by_cases hrest : code ∈ rest.map (fun m => m.code)
        · exact post.completeNew code hrest
        · have hcm : code = m.code := by
            simp only [List.map, List.mem_cons] at hcode
            rcases hcode with h1 | h1
            · exact h1
            · exact absurd h1 hrest
          subst hcm
          rcases post.untouched m.code hrest with ⟨u1, u2⟩
          refine ⟨⟨db.nextId, by rw [u1]; exact alGet_alInsert_self _ _ _⟩,
            cm, by rw [u2]; exact alGet_alInsert_self _ _ _, ?_⟩
          intro cc hcc
          have hvcfin : alGet vc' m.code = some cds := by
            rw [post.vcEq, foldl_alInsert_notin rest _ m.code hrest]
            exact alGet_alInsert_self _ _ _
          rw [hvcfin] at hcc
          simp only [Option.getD] at hcc
          rw [hcds] at hcc
          rcases List.mem_map.mp hcc with ⟨v, hv, hvc⟩
          rcases scp.cmSpec v hv with ⟨cid, hcid, c, hc, e1, e2, e3, e4⟩
          rcases post.catsSurvive c hc with ⟨c', hc', f1, f2, f3, f4, _⟩
          refine ⟨cid, by rw [hvc] at hcid; exact hcid, c', hc', f1.trans e1,
            f3.trans e3, by rw [f4, e4, hvc], ?_⟩
          intro did hdid
          rw [u1, alGet_alInsert_self] at hdid
          rw [f2, e2, (Option.some.inj hdid)]
      · rcases scp.pendSpec with ⟨npH, hnpH, hA, _⟩
        rcases post.pendProv with ⟨npR, hnpR, hB⟩
        refine ⟨npH ++ npR, by rw [hnpR, hnpH, List.append_assoc], ?_⟩
        intro e he
        rcases List.mem_append.mp he with h1 | h1
        · rcases hA e h1 with ⟨g1, v, hv, g2, g3, g4⟩
          refine ⟨m, List.mem_cons_self m rest, g1, v, hv, g2, g3, ?_⟩
          rcases scp.cmProv v.code e.2.1 g4 with h2 | h2
          · simp [alGet, List.find?] at h2
          · rcases h2 with ⟨c, hc, e1, e2, e3, e4⟩
            rcases post.catsSurvive c hc with ⟨c', hc', f1, f2, _, f4, _⟩
            exact ⟨c', hc', f1.trans e1, f4.trans e4, db.nextId, hdlfin,
              f2.trans e2⟩
        · rcases hB e h1 with ⟨m', hm', g1, v, hv, g2, g3, g4⟩
          exact ⟨m', List.mem_cons_of_mem m hm', g1, v, hv, g2, g3, g4⟩
      · intro m' hm' v hv htru
        rcases List.mem_cons.mp hm' with h1 | h1
        · subst h1
          rcases scp.pendSpec with ⟨npH, hnpH, _, hCov⟩
          rcases hCov v hv htru with ⟨cid, hcid, hmem⟩
          refine ⟨cid, ?_, ?_⟩
          · rcases post.pendProv with ⟨npR, hnpR, _⟩
            rw [hnpR, hnpH]
            exact List.mem_append.mpr (Or.inl (List.mem_append.mpr (Or.inr hmem)))
          · rcases scp.cmProv v.code cid hcid with h2 | h2
            · simp [alGet, List.find?] at h2
            · rcases h2 with ⟨c, hc, e1, e2, e3, e4⟩
              rcases post.catsSurvive c hc with ⟨c', hc', f1, f2, _, f4, _⟩
              exact ⟨c', hc', f1.trans e1, f4.trans e4, db.nextId, hdlfin,
                f2.trans e2⟩
        · exact post.pendCover m' h1 v hv htru
      · intro hin
        apply post.pendDl
        intro e he
        rcases scp.pendSpec with ⟨npH, hnpH, hA, _⟩
        rw [hnpH] at he
        rcases List.mem_append.mp he with h1 | h1
        · exact alGet_isSome_alInsert _ _ _ _ (hin e h1)
        · rcases hA e h1 with ⟨g1, _⟩
          rw [g1, alGet_alInsert_self]
          rfl
      · intro hsat
        exfalso
        rcases hsat m (List.mem_cons_self m rest) with ⟨d, hd, e1, e2, _⟩
        apply hnone d hd
        simp only [Bool.and_eq_true, beq_iff_eq]
        exact ⟨e1, e2⟩

theorem setp_proj (db : DB) (i pid : Nat) :
    (setCategoryParent db i pid).datatables = db.datatables ∧
    (setCategoryParent db i pid).dimensions = db.dimensions ∧
    (setCategoryParent db i pid).observations = db.observations ∧
    (setCategoryParent db i pid).odvs = db.odvs ∧
    (setCategoryParent db i pid).nextId = db.nextId :=
  ⟨rfl, rfl, rfl, rfl, rfl⟩

theorem setp_fun_pres (i pid : Nat) (c : CategoryRow) :
    ((fun c => if c.id == i then { c with parent_id := some pid } else c) c).id = c.id ∧
    ((fun c => if c.id == i then { c with parent_id := some pid } else c) c).dimension_id = c.dimension_id ∧
    ((fun c => if c.id == i then { c with parent_id := some pid } else c) c).data_table_id = c.data_table_id ∧
    ((fun c => if c.id == i then { c with parent_id := some pid } else c) c).code = c.code := by
  by_cases h : c.id == i <;> simp [h]

theorem setp_cats (db : DB) (i pid : Nat) :
    (setCategoryParent db i pid).categories =
      db.categories.map (fun c => if c.id == i then { c with parent_id := some pid } else c) :=
  rfl

theorem setp_survive (db : DB) (i pid : Nat) :
    ∀ c ∈ db.categories, ∃ c' ∈ (setCategoryParent db i pid).categories,
      c'.id = c.id ∧ c'.dimension_id = c.dimension_id ∧
      c'.data_table_id = c.data_table_id ∧ c'.code = c.code := by
  intro c hc
  refine ⟨(fun c => if c.id == i then { c with parent_id := some pid } else c) c,
    by rw [setp_cats]; exact List.mem_map_of_mem _ hc, ?_⟩
  rcases setp_fun_pres i pid c with ⟨h1, h2, h3, h4⟩
  exact ⟨h1, h2, h3, h4⟩

theorem setp_prov (db : DB) (i pid : Nat) :
    ∀ c ∈ (setCategoryParent db i pid).categories, ∃ c0 ∈ db.categories,
      c.id = c0.id ∧ c.dimension_id = c0.dimension_id ∧
      c.data_table_id = c0.data_table_id ∧ c.code = c0.code := by
  intro c hc
  rw [setp_cats] at hc
  rcases List.mem_map.mp hc with ⟨c0, hc0, he⟩
  rcases setp_fun_pres i pid c0 with ⟨h1, h2, h3, h4⟩
  exact ⟨c0, hc0, by rw [← he]; exact h1, by rw [← he]; exact h2,
    by rw [← he]; exact h3, by rw [← he]; exact h4⟩

theorem setp_catsOk (db : DB) (i pid : Nat) (h : CatsOk db) :
    CatsOk (setCategoryParent db i pid) := by
  unfold CatsOk at h ⊢
  rw [setp_cats]
  apply List.Pairwise.map _ _ h
  intro a b hab hcon
  rcases setp_fun_pres i pid a with ⟨_, ha2, _, ha4⟩
  rcases setp_fun_pres i pid b with ⟨_, hb2, _, hb4⟩
  exact hab ⟨by rw [← ha2, ← hb2]; exact hcon.1, by rw [← ha4, ← hb4]; exact hcon.2⟩

theorem setp_len (db : DB) (i pid : Nat) :
    (setCategoryParent db i pid).categories.length = db.categories.length := by
  rw [setp_cats, List.length_map]

theorem setp_ids (db : DB) (i pid : Nat) :
    (setCategoryParent db i pid).categories.map (fun c => c.id) =
      db.categories.map (fun c => c.id) := by
  rw [setp_cats, List.map_map]
  apply List.map_congr_left
  intro c _
  exact (setp_fun_pres i pid c).1

theorem setp_idsOk (db : DB) (i pid : Nat) (h : IdsOk db) :
    IdsOk (setCategoryParent db i pid) := by
  rcases h with ⟨h1, h2, h3, h4, h5, h6, h7, h8⟩
  rcases setp_proj db i pid with ⟨p1, p2, p3, p4, p5⟩
  refine ⟨by rw [p1, p5]; exact h1, by rw [p2, p5]; exact h2, ?_,
    by rw [p3, p5]; exact h4, by rw [p1]; exact h5, by rw [p2]; exact h6,
    by rw [setp_ids]; exact h7, by rw [p3]; exact h8⟩
  intro c hc
  rcases setp_prov db i pid c hc with ⟨c0, hc0, he, _⟩
  rw [p5, he]
  exact h3 c0 hc0

theorem setp_coh (db : DB) (i pid : Nat) (h : CatDimCoh db) :
    CatDimCoh (setCategoryParent db i pid) := by
  intro c hc
  rcases setp_prov db i pid c hc with ⟨c0, hc0, _, f2, f3, _⟩
  rcases h c0 hc0 with ⟨d, hd, hd1, hd2⟩
  exact ⟨d, by rw [(setp_proj db i pid).2.1]; exact hd,
    by rw [f2]; exact hd1, by rw [f3]; exact hd2⟩

theorem setp_mem_of_ne (db : DB) (i pid : Nat) :
    ∀ c ∈ db.categories, c.id ≠ i → c ∈ (setCategoryParent db i pid).categories := by
  intro c hc hne
  rw [setp_cats]
  have h2 := List.mem_map_of_mem
    (fun c : CategoryRow => if c.id == i then { c with parent_id := some pid } else c) hc
  have he : (fun c : CategoryRow =>
      if c.id == i then { c with parent_id := some pid } else c) c = c := by
    simp [hne]
  rw [he] at h2
  exact h2

theorem setp_prov_ne (db : DB) (i pid : Nat) :
    ∀ c ∈ (setCategoryParent db i pid).categories, c.id ≠ i → c ∈ db.categories := by
  intro c hc hne
  rw [setp_cats] at hc
  rcases List.mem_map.mp hc with ⟨c0, hc0, he⟩
  by_cases h : (c0.id == i) = true
  · rw [if_pos h] at he
    have hid : c0.id = i := by simpa using h
    have : c.id = i := by rw [← he]; exact hid
    exact absurd this hne
  · rw [if_neg h] at he
    rw [← he]
    exact hc0

theorem setp_parent_set (db : DB) (i pid : Nat) :
    ∀ c ∈ (setCategoryParent db i pid).categories, c.id = i →
      c.parent_id = some pid := by
  intro c hc hid
  rw [setp_cats] at hc
  rcases List.mem_map.mp hc with ⟨c0, hc0, he⟩
  by_cases h : (c0.id == i) = true
  · rw [if_pos h] at he
    rw [← he]
  · rw [if_neg h] at he
    have hid0 : c0.id = i := by rw [he]; exact hid
    exact absurd (by simpa using hid0 : (c0.id == i) = true) h

theorem keyBisim_refl (db : DB) : KeyBisim db db :=
  ⟨fun c hc => ⟨c, hc, rfl, rfl, rfl, rfl⟩, fun c hc => ⟨c, hc, rfl, rfl, rfl, rfl⟩⟩

theorem keyBisim_setp (db0 db : DB) (i pid : Nat) (h : KeyBisim db0 db) :
    KeyBisim db0 (setCategoryParent db i pid) := by
  constructor
  · intro c hc
    rcases h.1 c hc with ⟨c2, hc2, f1, f2, f3, f4⟩
    rcases setp_survive db i pid c2 hc2 with ⟨c', hc', g1, g2, g3, g4⟩
    exact ⟨c', hc', g1.trans f1, g2.trans f2, g3.trans f3, g4.trans f4⟩
  · intro c' hc'
    rcases setp_prov db i pid c' hc' with ⟨c2, hc2, g1, g2, g3, g4⟩
    rcases h.2 c2 hc2 with ⟨c, hc, f1, f2, f3, f4⟩
    exact ⟨c, hc, g1.trans f1, g2.trans f2, g3.trans f3, g4.trans f4⟩

theorem parentResolve_ok (dl : List (String × Nat))
    (cl : List (String × List (String × Nat))) (db : DB)
    (e : String × Nat × String) (hdl : (alGet dl e.1).isSome = true)
    (hcat : CatsOk db) :
    ∃ po, parentResolve dl cl db e = .ok po := by
  cases hib : (alGet cl e.1).bind (fun m => alGet m e.2.2) with
  | some pid => exact ⟨some pid, by simp only [parentResolve, hib]⟩
  | none =>
    cases hdle : alGet dl e.1 with
    | none => rw [hdle] at hdl; simp at hdl
    | some dimId =>
      have hle : (db.categories.filter
          (fun c => c.dimension_id == dimId && c.code == e.2.2)).length ≤ 1 := by
        apply filter_length_le_one hcat
        intro a b hpa hpb hr
        simp only [Bool.and_eq_true, beq_iff_eq] at hpa hpb
        exact hr ⟨hpa.1.trans hpb.1.symm, hpa.2.trans hpb.2.symm⟩
      have hoon := one_or_none_eq_head db.categories
        (fun c => c.dimension_id == dimId && c.code == e.2.2) hle
      exact ⟨((db.categories.filter
          (fun c => c.dimension_id == dimId && c.code == e.2.2)).head?).map
          (fun c => c.id),
        by simp only [parentResolve, hib, hdle, hoon, bind, Except.bind, pure, Except.pure]⟩

theorem resolveParents_cons (dl : List (String × Nat))
    (cl : List (String × List (String × Nat))) (e : String × Nat × String)
    (rest : List (String × Nat × String)) (db : DB) (po : Option Nat)
    (h : parentResolve dl cl db e = .ok po) :
    resolveParents dl cl (e :: rest) db =
      resolveParents dl cl rest
        (match po with
         | some pid => setCategoryParent db e.2.1 pid
         | none => db) := by
  simp only [resolveParents, bind, Except.bind, h]
  cases po <;> rfl

theorem resolveParents_main (dl : List (String × Nat))
    (cl : List (String × List (String × Nat)))
    (pend : List (String × Nat × String)) :
    ∀ db, CatsOk db → (∀ e ∈ pend, (alGet dl e.1).isSome = true) →
    ∃ db', resolveParents dl cl pend db = .ok db' ∧ RPPost db db' := by
  induction pend with
  | nil =>
    intro db hcat _
    refine ⟨db, rfl, ?_⟩
    exact {
      dts := rfl, dims := rfl, obs := rfl, odvs := rfl,
      nid := rfl, len := rfl,
      surv := fun c hc => ⟨c, hc, rfl, rfl, rfl, rfl⟩,
      prov := fun c hc => ⟨c, hc, rfl, rfl, rfl, rfl⟩,
      catsOk := hcat, idsOk := fun h => h, coh := fun h => h }
  | cons e rest ih =>
    intro db hcat hdl
    rcases parentResolve_ok dl cl db e (hdl e (List.mem_cons_self e rest)) hcat with ⟨po, hpo⟩
    cases po with
    | none =>
      rcases ih db hcat (fun u hu => hdl u (List.mem_cons_of_mem e hu)) with ⟨db', hok, post⟩
      refine ⟨db', ?_, post⟩
      rw [resolveParents_cons dl cl e rest db none hpo]
      exact hok
    | some pid =>
      have hcat2 := setp_catsOk db e.2.1 pid hcat
      rcases ih (setCategoryParent db e.2.1 pid) hcat2
        (fun u hu => hdl u (List.mem_cons_of_mem e hu)) with ⟨db', hok, post⟩
      refine ⟨db', ?_, ?_⟩
      · rw [resolveParents_cons dl cl e rest db (some pid) hpo]
        exact hok
      · refine {
          dts := ?_, dims := ?_, obs := ?_, odvs := ?_, nid := ?_,
          len := ?_, surv := ?_, prov := ?_, catsOk := post.catsOk,
          idsOk := ?_, coh := ?_ }
        · exact post.dts.trans (setp_proj db e.2.1 pid).1
        · exact post.dims.trans (setp_proj db e.2.1 pid).2.1
        · exact post.obs.trans (setp_proj db e.2.1 pid).2.2.1
        · exact post.odvs.trans (setp_proj db e.2.1 pid).2.2.2.1
        · exact post.nid.trans (setp_proj db e.2.1 pid).2.2.2.2
        · exact post.len.trans (setp_len db e.2.1 pid)
        · intro c hc
          rcases setp_survive db e.2.1 pid c hc with ⟨c2, hc2, f1, f2, f3, f4⟩
          rcases post.surv c2 hc2 with ⟨c', hc', g1, g2, g3, g4⟩
          exact ⟨c', hc', g1.trans f1, g2.trans f2, g3.trans f3, g4.trans f4⟩
        · intro c' hc'
          rcases post.prov c' hc' with ⟨c2, hc2, g1, g2, g3, g4⟩
          rcases setp_prov db e.2.1 pid c2 hc2 with ⟨c0, hc0, f1, f2, f3, f4⟩
          exact ⟨c0, hc0, g1.trans f1, g2.trans f2, g3.trans f3, g4.trans f4⟩
        · intro h
          exact post.idsOk (setp_idsOk db e.2.1 pid h)
        · intro h
          exact post.coh (setp_coh db e.2.1 pid h)

theorem resolveParents_sets (dl : List (String × Nat))
    (cl : List (String × List (String × Nat))) (db0 : DB)
    (dc : String) (cidv : Nat) (X : String) (pid : Nat)
    (hres : ∀ dbk, KeyBisim db0 dbk → CatsOk dbk →
      parentResolve dl cl dbk (dc, cidv, X) = .ok (some pid)) :
    ∀ pend, ∀ db db', KeyBisim db0 db → CatsOk db →
      (∀ e ∈ pend, e.2.1 = cidv → e = (dc, cidv, X)) →
      resolveParents dl cl pend db = .ok db' →
      ((∃ e ∈ pend, e.2.1 = cidv) →
        ∀ c ∈ db'.categories, c.id = cidv → c.parent_id = some pid) ∧
      ((∀ e ∈ pend, e.2.1 ≠ cidv) →
        ∀ c ∈ db'.categories, c.id = cidv →
          ∃ c0 ∈ db.categories, c0.id = cidv ∧ c.parent_id = c0.parent_id) := by
  intro pend
  induction pend with
  | nil =>
    intro db db' _ _ _ hok
    simp only [resolveParents] at hok
    cases hok
    constructor
    · intro hex
      rcases hex with ⟨u, hu, _⟩
      exact absurd hu (List.not_mem_nil u)
    · intro _ c hc hcid
      exact ⟨c, hc, hcid, rfl⟩
  | cons e rest ih =>
    intro db db' hkb hcat h1 hok
    cases hpoE : parentResolve dl cl db e with
    | error s =>
      simp only [resolveParents, bind, Except.bind, hpoE] at hok
      cases hok
    | ok po =>
      rw [resolveParents_cons dl cl e rest db po hpoE] at hok
      by_cases he : e.2.1 = cidv
      · have heq : e = (dc, cidv, X) := h1 e (List.mem_cons_self e rest) he
        subst heq
        have hpo2 : po = some pid := by
          have h2 := hres db hkb hcat
          rw [hpoE] at h2
          exact Except.ok.inj h2
        subst hpo2
        have hok2 : resolveParents dl cl rest (setCategoryParent db cidv pid) = .ok db' := hok
        have hkb2 : KeyBisim db0 (setCategoryParent db cidv pid) :=
          keyBisim_setp db0 db cidv pid hkb
        have hcat2 : CatsOk (setCategoryParent db cidv pid) := setp_catsOk db cidv pid hcat
        have ih' := ih (setCategoryParent db cidv pid) db' hkb2 hcat2
          (fun u hu => h1 u (List.mem_cons_of_mem _ hu)) hok2
        constructor
        · intro _ c hc hcid
          by_cases hrest : ∃ u ∈ rest, u.2.1 = cidv
          · exact ih'.1 hrest c hc hcid
          · have hall : ∀ u ∈ rest, u.2.1 ≠ cidv := fun u hu hue => hrest ⟨u, hu, hue⟩
            rcases ih'.2 hall c hc hcid with ⟨c2, hc2, g1, g2⟩
            rw [g2]
            exact setp_parent_set db cidv pid c2 hc2 g1
        · intro hall
          exact absurd rfl (hall (dc, cidv, X) (List.mem_cons_self _ _))
      · cases po with
        | none =>
          have hok2 : resolveParents dl cl rest db = .ok db' := hok
          have ih' := ih db db' hkb hcat
            (fun u hu => h1 u (List.mem_cons_of_mem _ hu)) hok2
          constructor
          · intro hex c hc hcid
            rcases hex with ⟨u, hu, hue⟩
            rcases List.mem_cons.mp hu with h2 | h2
            · subst h2
              exact absurd hue he
            · exact ih'.1 ⟨u, h2, hue⟩ c hc hcid
          · intro hall
            exact ih'.2 (fun u hu => hall u (List.mem_cons_of_mem _ hu))
        | some pid2 =>
          have hok2 : resolveParents dl cl rest (setCategoryParent db e.2.1 pid2) =
              .ok db' := hok
          have ih' := ih (setCategoryParent db e.2.1 pid2) db'
            (keyBisim_setp db0 db e.2.1 pid2 hkb) (setp_catsOk db e.2.1 pid2 hcat)
            (fun u hu => h1 u (List.mem_cons_of_mem _ hu)) hok2
          constructor
          · intro hex c hc hcid
            rcases hex with ⟨u, hu, hue⟩
            rcases List.mem_cons.mp hu with h2 | h2
            · subst h2
              exact absurd hue he
            · exact ih'.1 ⟨u, h2, hue⟩ c hc hcid
          · intro hall c hc hcid
            rcases ih'.2 (fun u hu => hall u (List.mem_cons_of_mem _ hu)) c hc hcid with
              ⟨c2, hc2, g1, g2⟩
            refine ⟨c2, ?_, g1, g2⟩
            apply setp_prov_ne db e.2.1 pid2 c2 hc2
            intro h3
            exact he (by rw [← h3]; exact g1)

theorem resolveParents_keeps (dl : List (String × Nat))
    (cl : List (String × List (String × Nat))) (db0 : DB)
    (dc : String) (cidv : Nat) (X : String)
    (hres : ∀ dbk, KeyBisim db0 dbk → CatsOk dbk →
      parentResolve dl cl dbk (dc, cidv, X) = .ok none) :
    ∀ pend, ∀ db db', KeyBisim db0 db → CatsOk db →
      (∀ e ∈ pend, e.2.1 = cidv → e = (dc, cidv, X)) →
      resolveParents dl cl pend db = .ok db' →
      ∀ c ∈ db'.categories, c.id = cidv →
        ∃ c0 ∈ db.categories, c0.id = cidv ∧ c.parent_id = c0.parent_id := by
  intro pend
  induction pend with
  | nil =>
    intro db db' _ _ _ hok
    simp only [resolveParents] at hok
    cases hok
    intro c hc hcid
    exact ⟨c, hc, hcid, rfl⟩
  | cons e rest ih =>
    intro db db' hkb hcat h1 hok
    cases hpoE : parentResolve dl cl db e with
    | error s =>
      simp only [resolveParents, bind, Except.bind, hpoE] at hok
      cases hok
    | ok po =>
      rw [resolveParents_cons dl cl e rest db po hpoE] at hok
      by_cases he : e.2.1 = cidv
      · have heq : e = (dc, cidv, X) := h1 e (List.mem_cons_self e rest) he
        subst heq
        have hpo2 : po = none := by
          have h2 := hres db hkb hcat
          rw [hpoE] at h2
          exact Except.ok.inj h2
        subst hpo2
        have hok2 : resolveParents dl cl rest db = .ok db' := hok
        exact ih db db' hkb hcat (fun u hu => h1 u (List.mem_cons_of_mem _ hu)) hok2
      · cases po with
        | none =>
          exact ih db db' hkb hcat (fun u hu => h1 u (List.mem_cons_of_mem _ hu)) hok
        | some pid2 =>
          have hok2 : resolveParents dl cl rest (setCategoryParent db e.2.1 pid2) =
              .ok db' := hok
          have ih' := ih (setCategoryParent db e.2.1 pid2) db'
            (keyBisim_setp db0 db e.2.1 pid2 hkb) (setp_catsOk db e.2.1 pid2 hcat)
            (fun u hu => h1 u (List.mem_cons_of_mem _ hu)) hok2
          intro c hc hcid
          rcases ih' c hc hcid with ⟨c2, hc2, g1, g2⟩
          refine ⟨c2, ?_, g1, g2⟩
          apply setp_prov_ne db e.2.1 pid2 c2 hc2
          intro h3
          exact he (by rw [← h3]; exact g1)

theorem resolveParents_frame (dl : List (String × Nat))
    (cl : List (String × List (String × Nat))) (cidv : Nat) :
    ∀ pend, ∀ db db', (∀ e ∈ pend, e.2.1 ≠ cidv) →
      resolveParents dl cl pend db = .ok db' →
      ∀ c ∈ db'.categories, c.id = cidv →
        ∃ c0 ∈ db.categories, c0.id = cidv ∧ c.parent_id = c0.parent_id := by
  intro pend
  induction pend with
  | nil =>
    intro db db' _ hok
    simp only [resolveParents] at hok
    cases hok
    intro c hc hcid
    exact ⟨c, hc, hcid, rfl⟩
  | cons e rest ih =>
    intro db db' h1 hok
    cases hpoE : parentResolve dl cl db e with
    | error s =>
      simp only [resolveParents, bind, Except.bind, hpoE] at hok
      cases hok
    | ok po =>
      rw [resolveParents_cons dl cl e rest db po hpoE] at hok
      cases po with
      | none =>
        exact ih db db' (fun u hu => h1 u (List.mem_cons_of_mem _ hu)) hok
      | some pid2 =>
        have hok2 : resolveParents dl cl rest (setCategoryParent db e.2.1 pid2) =
            .ok db' := hok
        have ih' := ih (setCategoryParent db e.2.1 pid2) db'
          (fun u hu => h1 u (List.mem_cons_of_mem _ hu)) hok2
        intro c hc hcid
        rcases ih' c hc hcid with ⟨c2, hc2, g1, g2⟩
        refine ⟨c2, ?_, g1, g2⟩
        apply setp_prov_ne db e.2.1 pid2 c2 hc2
        intro h3
        apply h1 e (List.mem_cons_self e rest)
        rw [← h3]
        exact g1

theorem udt_proj (db : DB) (i : Nat) (nm : String) (ds : Option String) :
    (updateDatatableRow db i nm ds).dimensions = db.dimensions ∧
    (updateDatatableRow db i nm ds).categories = db.categories ∧
    (updateDatatableRow db i nm ds).observations = db.observations ∧
    (updateDatatableRow db i nm ds).odvs = db.odvs ∧
    (updateDatatableRow db i nm ds).nextId = db.nextId :=
  ⟨rfl, rfl, rfl, rfl, rfl⟩

theorem udt_fun_pres (i : Nat) (nm : String) (ds : Option String) (t : DataTableRow) :
    ((fun r => if r.id == i then { r with name := nm, description := ds } else r) t).id = t.id ∧
    ((fun r => if r.id == i then { r with name := nm, description := ds } else r) t).code = t.code := by
  by_cases h : t.id == i <;> simp [h]

theorem udt_dts (db : DB) (i : Nat) (nm : String) (ds : Option String) :
    (updateDatatableRow db i nm ds).datatables =
      db.datatables.map (fun r => if r.id == i then { r with name := nm, description := ds } else r) :=
  rfl

theorem udt_survive (db : DB) (i : Nat) (nm : String) (ds : Option String) :
    ∀ t ∈ db.datatables, ∃ t' ∈ (updateDatatableRow db i nm ds).datatables,
      t'.id = t.id ∧ t'.code = t.code := by
  intro t ht
  refine ⟨(fun r => if r.id == i then { r with name := nm, description := ds } else r) t,
    by rw [udt_dts]; exact List.mem_map_of_mem _ ht, ?_⟩
  rcases udt_fun_pres i nm ds t with ⟨h1, h2⟩
  exact ⟨h1, h2⟩

theorem udt_len (db : DB) (i : Nat) (nm : String) (ds : Option String) :
    (updateDatatableRow db i nm ds).datatables.length = db.datatables.length := by
  rw [udt_dts, List.length_map]

theorem udt_ids (db : DB) (i : Nat) (nm : String) (ds : Option String) :
    (updateDatatableRow db i nm ds).datatables.map (fun t => t.id) =
      db.datatables.map (fun t => t.id) := by
  rw [udt_dts, List.map_map]
  apply List.map_congr_left
  intro t _
  exact (udt_fun_pres i nm ds t).1

theorem udt_prov (db : DB) (i : Nat) (nm : String) (ds : Option String) :
    ∀ t ∈ (updateDatatableRow db i nm ds).datatables, ∃ t0 ∈ db.datatables,
      t.id = t0.id ∧ t.code = t0.code := by
  intro t ht
  rw [udt_dts] at ht
  rcases List.mem_map.mp ht with ⟨t0, ht0, he⟩
  rcases udt_fun_pres i nm ds t0 with ⟨h1, h2⟩
  exact ⟨t0, ht0, by rw [← he]; exact h1, by rw [← he]; exact h2⟩

theorem udt_dtsOk (db : DB) (i : Nat) (nm : String) (ds : Option String)
    (h : DTsOk db) : DTsOk (updateDatatableRow db i nm ds) := by
  unfold DTsOk at h ⊢
  rw [udt_dts]
  apply List.Pairwise.map _ _ h
  intro a b hab hcon
  rcases udt_fun_pres i nm ds a with ⟨_, ha2⟩
  rcases udt_fun_pres i nm ds b with ⟨_, hb2⟩
  exact hab (by rw [← ha2, ← hb2]; exact hcon)

theorem udt_idsOk (db : DB) (i : Nat) (nm : String) (ds : Option String)
    (h : IdsOk db) : IdsOk (updateDatatableRow db i nm ds) := by
  rcases h with ⟨h1, h2, h3, h4, h5, h6, h7, h8⟩
  rcases udt_proj db i nm ds with ⟨p1, p2, p3, p4, p5⟩
  refine ⟨?_, by rw [p1, p5]; exact h2, by rw [p2, p5]; exact h3,
    by rw [p3, p5]; exact h4, by rw [udt_ids]; exact h5, by rw [p1]; exact h6,
    by rw [p2]; exact h7, by rw [p3]; exact h8⟩
  intro t ht
  rcases udt_prov db i nm ds t ht with ⟨t0, ht0, he, _⟩
  rw [p5, he]
  exact h1 t0 ht0

theorem udt_mem_of_ne (db : DB) (i : Nat) (nm : String) (ds : Option String) :
    ∀ t ∈ db.datatables, t.id ≠ i → t ∈ (updateDatatableRow db i nm ds).datatables := by
  intro t ht hne
  rw [udt_dts]
  have h2 := List.mem_map_of_mem
    (fun r : DataTableRow => if r.id == i then { r with name := nm, description := ds } else r) ht
  have he : (fun r : DataTableRow =>
      if r.id == i then { r with name := nm, description := ds } else r) t = t := by
    simp [hne]
  rw [he] at h2
  exact h2

theorem udt_row (db : DB) (i : Nat) (nm : String) (ds : Option String)
    (t : DataTableRow) (ht : t ∈ db.datatables) (hid : t.id = i) :
    ({ t with name := nm, description := ds } : DataTableRow) ∈
      (updateDatatableRow db i nm ds).datatables := by
  rw [udt_dts]
  have h2 := List.mem_map_of_mem
    (fun r : DataTableRow => if r.id == i then { r with name := nm, description := ds } else r) ht
  have he : (fun r : DataTableRow =>
      if r.id == i then { r with name := nm, description := ds } else r) t =
      { t with name := nm, description := ds } := by
    simp [hid]
  rw [he] at h2
  exact h2

theorem dtsOk_unique {db : DB} (h : DTsOk db) :
    ∀ t1 ∈ db.datatables, ∀ t2 ∈ db.datatables, t1.code = t2.code → t1 = t2 := by
  intro t1 h1 t2 h2 he
  exact pairwise_key_unique db.datatables h
    (fun a b hab hcon => hab hcon.symm)
    t1 h1 t2 h2 (fun hR => hR he)

theorem idsOk_append_dt (db : DB) (newDt : DataTableRow) (h : IdsOk db)
    (hid : newDt.id = db.nextId) :
    IdsOk { db with datatables := db.datatables ++ [newDt],
                    nextId := db.nextId + 1 } := by
  rcases h with ⟨i1, i2, i3, i4, i5, i6, i7, i8⟩
  refine ⟨?_, fun d hd => Nat.lt_succ_of_lt (i2 d hd),
    fun c hc => Nat.lt_succ_of_lt (i3 c hc),
    fun o ho => Nat.lt_succ_of_lt (i4 o ho), ?_, i6, i7, i8⟩
  · intro t ht
    rcases List.mem_append.mp ht with h1 | h1
    · exact Nat.lt_succ_of_lt (i1 t h1)
    · rw [List.mem_singleton.mp h1, hid]
      exact Nat.lt_succ_self _
  · show ((db.datatables ++ [newDt]).map (fun t => t.id)).Nodup
    rw [List.map_append, List.nodup_append]
    refine ⟨i5, by simp, ?_⟩
    intro a ha hb
    have hlt : a < db.nextId := by
      rcases List.mem_map.mp ha with ⟨t, ht, he⟩
      rw [← he]
      exact i1 t ht
    have : a = newDt.id := by simpa using hb
    rw [this, hid] at hlt
    exact absurd hlt (Nat.lt_irrefl _)

theorem rp_satDim (db1 db2 : DB) (rp : RPPost db1 db2) (dtId : Nat) (m : NormDim)
    (h : SatDim db1 dtId m) : SatDim db2 dtId m := by
  rcases h with ⟨d, hd, h1, h2, h3⟩
  refine ⟨d, by rw [rp.dims]; exact hd, h1, h2, ?_⟩
  intro v hv
  rcases h3 v hv with ⟨c, hc, e1, e2⟩
  rcases rp.surv c hc with ⟨c', hc', _, f2, _, f4⟩
  exact ⟨c', hc', by rw [f2]; exact e1, by rw [f4]; exact e2⟩

theorem rp_dimLookup (db1 db2 : DB) (rp : RPPost db1 db2) (dtId : Nat)
    (dl : List (String × Nat)) (h : DimLookupOk db1 dtId dl) :
    DimLookupOk db2 dtId dl := by
  intro code did hget
  rcases h code did hget with ⟨d, hd, e1, e2, e3⟩
  exact ⟨d, by rw [rp.dims]; exact hd, e1, e2, e3⟩

theorem rp_catLookup (db1 db2 : DB) (rp : RPPost db1 db2) (dtId : Nat)
    (dl : List (String × Nat)) (cl : List (String × List (String × Nat)))
    (h : CatLookupOk db1 dtId dl cl) : CatLookupOk db2 dtId dl cl := by
  intro dc cm hdc cc cid hcc
  rcases h dc cm hdc cc cid hcc with ⟨c, hc, e1, e2, e3, e4⟩
  rcases rp.surv c hc with ⟨c', hc', f1, f2, f3, f4⟩
  refine ⟨c', hc', f1.trans e1, by rw [f3]; exact e2, f4.trans e3, ?_⟩
  intro did hdid
  rw [f2]
  exact e4 did hdid

theorem store_metadata_main (db : DB) (code : String) (p : Payload)
    (str0 : StructureMeta) (hstr : p.structures.head? = some str0)
    (hdts : DTsOk db) (hcat : CatsOk db) (hdims : DimsOk db)
    (hcoh : CatDimCoh db) (hids : IdsOk db) :
    ∃ r, store_metadata db code p = .ok r ∧ SMPost db code p r ∧
      ∃ stDb db1 pd',
        stDb.categories = db.categories ∧ stDb.dimensions = db.dimensions ∧
        db.nextId ≤ stDb.nextId ∧
        SDPost r.datatableId (metasOf p) stDb [] [] [] [] [] db1
          r.dimension_lookup r.category_lookup r.dimension_order
          r.dimension_value_codes pd' ∧
        resolveParents r.dimension_lookup r.category_lookup pd' db1 = .ok r.db := by
  have hname : smName code p =
      (prefer_text str0.names (some (pyOr str0.name code))).getD (pyOr str0.name code) := by
    unfold smName
    rw [hstr]
  have hdesc : smDesc p = prefer_text str0.descriptions str0.description := by
    unfold smDesc
    rw [hstr]
  have hmetas : buildDimensionMetadata str0.dimsObservation = metasOf p := by
    unfold metasOf
    rw [hstr]
  have hle : (db.datatables.filter (fun t => t.code == code)).length ≤ 1 := by
    apply filter_length_le_one hdts
    intro a b hpa hpb hr
    simp only [beq_iff_eq] at hpa hpb
    exact hr (hpa.trans hpb.symm)
  have hoon := one_or_none_eq_head db.datatables (fun t => t.code == code) hle
  cases hfnd : (db.datatables.filter (fun t => t.code == code)).head? with
  | some t =>
    rw [hfnd] at hoon
    have hts := one_or_none_ok_some hoon
    have ht : t ∈ db.datatables := hts.1
    have htc : t.code = code := by simpa using hts.2
    have hcat1 : CatsOk (updateDatatableRow db t.id ((prefer_text str0.names (some (pyOr str0.name code))).getD (pyOr str0.name code)) (prefer_text str0.descriptions str0.description)) := hcat
    have hdims1 : DimsOk (updateDatatableRow db t.id ((prefer_text str0.names (some (pyOr str0.name code))).getD (pyOr str0.name code)) (prefer_text str0.descriptions str0.description)) := hdims
    have hcoh1 : CatDimCoh (updateDatatableRow db t.id ((prefer_text str0.names (some (pyOr str0.name code))).getD (pyOr str0.name code)) (prefer_text str0.descriptions str0.description)) := hcoh
    have hids1 : IdsOk (updateDatatableRow db t.id ((prefer_text str0.names (some (pyOr str0.name code))).getD (pyOr str0.name code)) (prefer_text str0.descriptions str0.description)) := udt_idsOk db t.id ((prefer_text str0.names (some (pyOr str0.name code))).getD (pyOr str0.name code)) (prefer_text str0.descriptions str0.description) hids
    have hdts1 : DTsOk (updateDatatableRow db t.id ((prefer_text str0.names (some (pyOr str0.name code))).getD (pyOr str0.name code)) (prefer_text str0.descriptions str0.description)) := udt_dtsOk db t.id ((prefer_text str0.names (some (pyOr str0.name code))).getD (pyOr str0.name code)) (prefer_text str0.descriptions str0.description) hdts
    rcases storeDims_main t.id (metasOf p) (updateDatatableRow db t.id ((prefer_text str0.names (some (pyOr str0.name code))).getD (pyOr str0.name code)) (prefer_text str0.descriptions str0.description)) [] [] [] [] [] hcat1 hdims1 hcoh1 hids1 with
      ⟨db1, dl', cl', ord', vc', pd', hsd, sd⟩
    have hpend : ∀ e ∈ pd', (alGet dl' e.1).isSome = true :=
      sd.pendDl (fun e he => absurd he (List.not_mem_nil e))
    rcases resolveParents_main dl' cl' pd' db1 sd.catsOk hpend with ⟨db2, hrp, rp⟩
    have hmain : store_metadata db code p = .ok
        { db := db2, datatableId := t.id, dimension_lookup := dl',
          category_lookup := cl', dimension_order := ord',
          dimension_value_codes := vc' } := by
      simp only [store_metadata, hstr, bind, Except.bind, hoon, hmetas, hsd, hrp]

    refine ⟨_, hmain, ?_,
      ⟨(updateDatatableRow db t.id ((prefer_text str0.names (some (pyOr str0.name code))).getD (pyOr str0.name code)) (prefer_text str0.descriptions str0.description)),
        db1, pd', rfl, rfl, le_refl _, sd, hrp⟩⟩
    refine {
      obs := ?_, odvs := ?_, nid := ?_, ordEq := ?_, vcEq := sd.vcEq,
      dtsOk := ?_, dimsOk := ?_, catsOk := rp.catsOk, idsOk := rp.idsOk sd.idsOk,
      coh := rp.coh sd.coh, dtIdBound := ?_, dtRow := ?_, dtSurvive := ?_,
      dtFrame := ?_, dtNew := ?_, dtOld := ?_, satDims := ?_, complete := ?_,
      dlOk := ?_, clOk := ?_, satLens := ?_ }
    · show db2.observations = db.observations
      exact rp.obs.trans sd.obs
    · show db2.odvs = db.odvs
      exact rp.odvs.trans sd.odvs
    · show db.nextId ≤ db2.nextId
      exact le_trans sd.nid (le_of_eq rp.nid.symm)
    · show ord' = dimOrderOf p
      rw [sd.ordEq]
      rfl
    · show DTsOk db2
      unfold DTsOk
      rw [rp.dts, sd.dts]
      exact hdts1
    · show DimsOk db2
      unfold DimsOk
      rw [rp.dims]
      exact sd.dimsOk
    · show t.id < db2.nextId
      have hmem : ({ t with name := ((prefer_text str0.names (some (pyOr str0.name code))).getD (pyOr str0.name code)), description := (prefer_text str0.descriptions str0.description) } : DataTableRow) ∈ db1.datatables := by
        rw [sd.dts]
        exact udt_row db t.id ((prefer_text str0.names (some (pyOr str0.name code))).getD (pyOr str0.name code)) (prefer_text str0.descriptions str0.description) t ht rfl
      have hlt := sd.idsOk.1 _ hmem
      rw [rp.nid]
      exact hlt
    · refine ⟨({ t with name := ((prefer_text str0.names (some (pyOr str0.name code))).getD (pyOr str0.name code)), description := (prefer_text str0.descriptions str0.description) } : DataTableRow), ?_, rfl, htc, hname.symm, hdesc.symm⟩
      show _ ∈ db2.datatables
      rw [rp.dts, sd.dts]
      exact udt_row db t.id ((prefer_text str0.names (some (pyOr str0.name code))).getD (pyOr str0.name code)) (prefer_text str0.descriptions str0.description) t ht rfl
    · intro u hu
      rcases udt_survive db t.id ((prefer_text str0.names (some (pyOr str0.name code))).getD (pyOr str0.name code)) (prefer_text str0.descriptions str0.description) u hu with ⟨u', hu', e1, e2⟩
      refine ⟨u', ?_, e1, e2⟩
      show u' ∈ db2.datatables
      rw [rp.dts, sd.dts]
      exact hu'
    · intro u hu hne
      show u ∈ db2.datatables
      rw [rp.dts, sd.dts]
      exact udt_mem_of_ne db t.id ((prefer_text str0.names (some (pyOr str0.name code))).getD (pyOr str0.name code)) (prefer_text str0.descriptions str0.description) u hu hne
    · intro hall
      exact absurd htc (hall t ht)
    · intro t0 ht0 h0c
      have hteq : t = t0 := dtsOk_unique hdts t ht t0 ht0 (htc.trans h0c.symm)
      constructor
      · show db2.datatables.length = db.datatables.length
        rw [rp.dts, sd.dts]
        exact udt_len db t.id ((prefer_text str0.names (some (pyOr str0.name code))).getD (pyOr str0.name code)) (prefer_text str0.descriptions str0.description)
      · show t.id = t0.id
        rw [hteq]
    · intro m hm
      exact rp_satDim db1 db2 rp t.id m (sd.satDims m hm)
    · constructor
      · intro cc hcc
        have hcc' : cc ∈ ord' := hcc
        rw [sd.ordEq] at hcc'
        have hcc2 : cc ∈ (metasOf p).map (fun m => m.code) := by simpa using hcc'
        rcases (sd.completeNew cc hcc2).1 with ⟨did, hdid⟩
        show (alGet dl' cc).isSome = true
        rw [hdid]
        rfl
      · intro cc hcc cc2 hcc2
        have hcc' : cc ∈ ord' := hcc
        rw [sd.ordEq] at hcc'
        have hccm : cc ∈ (metasOf p).map (fun m => m.code) := by simpa using hcc'
        have hcc2' : cc2 ∈ (alGet vc' cc).getD [] := hcc2
        rcases (sd.completeNew cc hccm).2 with ⟨cm, hcm, hall⟩
        rcases hall cc2 hcc2' with ⟨cid, hcid, _⟩
        refine ⟨cm, hcm, ?_⟩
        rw [hcid]
        rfl
    · have h0 : DimLookupOk (updateDatatableRow db t.id ((prefer_text str0.names (some (pyOr str0.name code))).getD (pyOr str0.name code)) (prefer_text str0.descriptions str0.description)) t.id [] := by
        intro cde did hget
        simp [alGet, List.find?] at hget
      exact rp_dimLookup db1 db2 rp t.id dl' (sd.dlOk h0)
    · have h0 : CatLookupOk (updateDatatableRow db t.id ((prefer_text str0.names (some (pyOr str0.name code))).getD (pyOr str0.name code)) (prefer_text str0.descriptions str0.description)) t.id [] [] := by
        intro dc cm hdc
        simp [alGet, List.find?] at hdc
      exact rp_catLookup db1 db2 rp t.id dl' cl' (sd.clOk h0)
    · intro hsat
      have hsat1 : ∀ m ∈ metasOf p, SatDim (updateDatatableRow db t.id ((prefer_text str0.names (some (pyOr str0.name code))).getD (pyOr str0.name code)) (prefer_text str0.descriptions str0.description)) t.id m := hsat
      rcases sd.satLens hsat1 with ⟨l1, l2⟩
      constructor
      · show db2.dimensions.length = db.dimensions.length
        rw [rp.dims]
        exact l1
      · show db2.categories.length = db.categories.length
        rw [rp.len]
        exact l2
  | none =>
    rw [hfnd] at hoon
    have hnone := one_or_none_ok_none hoon
    have hcat1 : CatsOk ({ db with datatables := db.datatables ++ [({ id := db.nextId, code := code, name := ((prefer_text str0.names (some (pyOr str0.name code))).getD (pyOr str0.name code)), description := (prefer_text str0.descriptions str0.description), provider := none } : DataTableRow)], nextId := db.nextId + 1 } : DB) := hcat
    have hdims1 : DimsOk ({ db with datatables := db.datatables ++ [({ id := db.nextId, code := code, name := ((prefer_text str0.names (some (pyOr str0.name code))).getD (pyOr str0.name code)), description := (prefer_text str0.descriptions str0.description), provider := none } : DataTableRow)], nextId := db.nextId + 1 } : DB) := hdims
    have hcoh1 : CatDimCoh ({ db with datatables := db.datatables ++ [({ id := db.nextId, code := code, name := ((prefer_text str0.names (some (pyOr str0.name code))).getD (pyOr str0.name code)), description := (prefer_text str0.descriptions str0.description), provider := none } : DataTableRow)], nextId := db.nextId + 1 } : DB) := hcoh
    have hids1 : IdsOk ({ db with datatables := db.datatables ++ [({ id := db.nextId, code := code, name := ((prefer_text str0.names (some (pyOr str0.name code))).getD (pyOr str0.name code)), description := (prefer_text str0.descriptions str0.description), provider := none } : DataTableRow)], nextId := db.nextId + 1 } : DB) := idsOk_append_dt db ({ id := db.nextId, code := code, name := ((prefer_text str0.names (some (pyOr str0.name code))).getD (pyOr str0.name code)), description := (prefer_text str0.descriptions str0.description), provider := none } : DataTableRow) hids rfl
    have hdts1 : DTsOk ({ db with datatables := db.datatables ++ [({ id := db.nextId, code := code, name := ((prefer_text str0.names (some (pyOr str0.name code))).getD (pyOr str0.name code)), description := (prefer_text str0.descriptions str0.description), provider := none } : DataTableRow)], nextId := db.nextId + 1 } : DB) := by
      unfold DTsOk
      show (db.datatables ++ [({ id := db.nextId, code := code, name := ((prefer_text str0.names (some (pyOr str0.name code))).getD (pyOr str0.name code)), description := (prefer_text str0.descriptions str0.description), provider := none } : DataTableRow)]).Pairwise _
      rw [List.pairwise_append]
      refine ⟨hdts, List.pairwise_singleton _ _, ?_⟩
      intro a ha b hb
      have hb' : b = ({ id := db.nextId, code := code, name := ((prefer_text str0.names (some (pyOr str0.name code))).getD (pyOr str0.name code)), description := (prefer_text str0.descriptions str0.description), provider := none } : DataTableRow) := List.mem_singleton.mp hb
      rw [hb']
      have hane : a.code ≠ code := by simpa using hnone a ha
      exact hane
    rcases storeDims_main db.nextId (metasOf p) ({ db with datatables := db.datatables ++ [({ id := db.nextId, code := code, name := ((prefer_text str0.names (some (pyOr str0.name code))).getD (pyOr str0.name code)), description := (prefer_text str0.descriptions str0.description), provider := none } : DataTableRow)], nextId := db.nextId + 1 } : DB) [] [] [] [] [] hcat1 hdims1 hcoh1 hids1 with
      ⟨db1, dl', cl', ord', vc', pd', hsd, sd⟩
    have hpend : ∀ e ∈ pd', (alGet dl' e.1).isSome = true :=
      sd.pendDl (fun e he => absurd he (List.not_mem_nil e))
    rcases resolveParents_main dl' cl' pd' db1 sd.catsOk hpend with ⟨db2, hrp, rp⟩
    have hmain : store_metadata db code p = .ok
        { db := db2, datatableId := db.nextId, dimension_lookup := dl',
          category_lookup := cl', dimension_order := ord',
          dimension_value_codes := vc' } := by
      simp only [store_metadata, hstr, bind, Except.bind, hoon, hmetas, hsd, hrp]

    refine ⟨_, hmain, ?_,
      ⟨({ db with datatables := db.datatables ++ [({ id := db.nextId, code := code, name := ((prefer_text str0.names (some (pyOr str0.name code))).getD (pyOr str0.name code)), description := (prefer_text str0.descriptions str0.description), provider := none } : DataTableRow)], nextId := db.nextId + 1 } : DB),
        db1, pd', rfl, rfl, Nat.le_succ _, sd, hrp⟩⟩
    refine {
      obs := ?_, odvs := ?_, nid := ?_, ordEq := ?_, vcEq := sd.vcEq,
      dtsOk := ?_, dimsOk := ?_, catsOk := rp.catsOk, idsOk := rp.idsOk sd.idsOk,
      coh := rp.coh sd.coh, dtIdBound := ?_, dtRow := ?_, dtSurvive := ?_,
      dtFrame := ?_, dtNew := ?_, dtOld := ?_, satDims := ?_, complete := ?_,
      dlOk := ?_, clOk := ?_, satLens := ?_ }
    · show db2.observations = db.observations
      exact rp.obs.trans sd.obs
    · show db2.odvs = db.odvs
      exact rp.odvs.trans sd.odvs
    · show db.nextId ≤ db2.nextId
      exact le_trans (Nat.le_succ _) (le_trans sd.nid (le_of_eq rp.nid.symm))
    · show ord' = dimOrderOf p
      rw [sd.ordEq]
      rfl
    · show DTsOk db2
      unfold DTsOk
      rw [rp.dts, sd.dts]
      exact hdts1
    · show DimsOk db2
      unfold DimsOk
      rw [rp.dims]
      exact sd.dimsOk
    · show db.nextId < db2.nextId
      have hmem : ({ id := db.nextId, code := code, name := ((prefer_text str0.names (some (pyOr str0.name code))).getD (pyOr str0.name code)), description := (prefer_text str0.descriptions str0.description), provider := none } : DataTableRow) ∈ db1.datatables := by
        rw [sd.dts]
        exact List.mem_append_right _ (List.mem_singleton_self _)
      rw [rp.nid]
      exact sd.idsOk.1 _ hmem
    · refine ⟨({ id := db.nextId, code := code, name := ((prefer_text str0.names (some (pyOr str0.name code))).getD (pyOr str0.name code)), description := (prefer_text str0.descriptions str0.description), provider := none } : DataTableRow), ?_, rfl, rfl, hname.symm, hdesc.symm⟩
      show _ ∈ db2.datatables
      rw [rp.dts, sd.dts]
      exact List.mem_append_right _ (List.mem_singleton_self _)
    · intro u hu
      refine ⟨u, ?_, rfl, rfl⟩
      show u ∈ db2.datatables
      rw [rp.dts, sd.dts]
      exact List.mem_append_left _ hu
    · intro u hu _
      show u ∈ db2.datatables
      rw [rp.dts, sd.dts]
      exact List.mem_append_left _ hu
    · intro _
      constructor
      · show db2.datatables.length = db.datatables.length + 1
        rw [rp.dts, sd.dts]
        simp
      · rfl
    · intro t0 ht0 h0c
      exact absurd h0c (by simpa using hnone t0 ht0)
    · intro m hm
      exact rp_satDim db1 db2 rp db.nextId m (sd.satDims m hm)
    · constructor
      · intro cc hcc
        have hcc' : cc ∈ ord' := hcc
        rw [sd.ordEq] at hcc'
        have hcc2 : cc ∈ (metasOf p).map (fun m => m.code) := by simpa using hcc'
        rcases (sd.completeNew cc hcc2).1 with ⟨did, hdid⟩
        show (alGet dl' cc).isSome = true
        rw [hdid]
        rfl
      · intro cc hcc cc2 hcc2
        have hcc' : cc ∈ ord' := hcc
        rw [sd.ordEq] at hcc'
        have hccm : cc ∈ (metasOf p).map (fun m => m.code) := by simpa using hcc'
        have hcc2' : cc2 ∈ (alGet vc' cc).getD [] := hcc2
        rcases (sd.completeNew cc hccm).2 with ⟨cm, hcm, hall⟩
        rcases hall cc2 hcc2' with ⟨cid, hcid, _⟩
        refine ⟨cm, hcm, ?_⟩
        rw [hcid]
        rfl
    · have h0 : DimLookupOk ({ db with datatables := db.datatables ++ [({ id := db.nextId, code := code, name := ((prefer_text str0.names (some (pyOr str0.name code))).getD (pyOr str0.name code)), description := (prefer_text str0.descriptions str0.description), provider := none } : DataTableRow)], nextId := db.nextId + 1 } : DB) db.nextId [] := by
        intro cde did hget
        simp [alGet, List.find?] at hget
      exact rp_dimLookup db1 db2 rp db.nextId dl' (sd.dlOk h0)
    · have h0 : CatLookupOk ({ db with datatables := db.datatables ++ [({ id := db.nextId, code := code, name := ((prefer_text str0.names (some (pyOr str0.name code))).getD (pyOr str0.name code)), description := (prefer_text str0.descriptions str0.description), provider := none } : DataTableRow)], nextId := db.nextId + 1 } : DB) db.nextId [] [] := by
        intro dc cm hdc
        simp [alGet, List.find?] at hdc
      exact rp_catLookup db1 db2 rp db.nextId dl' cl' (sd.clOk h0)
    · intro hsat
      have hsat1 : ∀ m ∈ metasOf p, SatDim ({ db with datatables := db.datatables ++ [({ id := db.nextId, code := code, name := ((prefer_text str0.names (some (pyOr str0.name code))).getD (pyOr str0.name code)), description := (prefer_text str0.descriptions str0.description), provider := none } : DataTableRow)], nextId := db.nextId + 1 } : DB) db.nextId m := hsat
      rcases sd.satLens hsat1 with ⟨l1, l2⟩
      constructor
      · show db2.dimensions.length = db.dimensions.length
        rw [rp.dims]
        exact l1
      · show db2.categories.length = db.categories.length
        rw [rp.len]
        exact l2

theorem forall2_mem_left {α β : Type} {R : α → β → Prop} :
    ∀ {as2 : List α} {bs : List β}, List.Forall₂ R as2 bs →
      ∀ a ∈ as2, ∃ b ∈ bs, R a b := by
  intro as2 bs h
  induction h with
  | nil =>
    intro a ha
    exact absurd ha (List.not_mem_nil a)
  | cons hR hrest ih =>
    intro a ha
    rcases List.mem_cons.mp ha with h1 | h1
    · subst h1
      exact ⟨_, List.mem_cons_self _ _, hR⟩
    · rcases ih a h1 with ⟨b, hb, hRb⟩
      exact ⟨b, List.mem_cons_of_mem _ hb, hRb⟩

theorem decodeLoop_pairs (order : List String) (vc : List (String × List String))
    (idxs : List String) (dm' : List (String × String))
    (h : decodeLoop order vc idxs 0 [] = .ok (some dm')) :
    ∀ pr ∈ dm', pr.1 ∈ order ∧ pr.2 ∈ (alGet vc pr.1).getD [] := by
  rw [decodeLoop_eq_go] at h
  intro pr hpr
  rcases decodeGo_mem vc (order.drop 0) idxs [] dm' h pr hpr with h1 | h1
  · exact absurd h1 (List.not_mem_nil pr)
  · rcases h1 with ⟨ha, hb⟩
    rw [List.drop_zero] at ha
    exact ⟨ha, hb⟩

theorem decodeLoop_keys (order : List String) (vc : List (String × List String))
    (idxs : List String) (dm' : List (String × String))
    (h : decodeLoop order vc idxs 0 [] = .ok (some dm')) :
    (alKeys dm').Nodup := by
  rw [decodeLoop_eq_go] at h
  exact decodeGo_keys_nodup vc (order.drop 0) idxs [] dm' h (by simp [alKeys])

theorem dimLookup_inj {db : DB} {dtId : Nat} {dl : List (String × Nat)}
    (hdl : DimLookupOk db dtId dl) (hids : IdsOk db) :
    ∀ k1 k2 did, alGet dl k1 = some did → alGet dl k2 = some did → k1 = k2 := by
  intro k1 k2 did h1 h2
  rcases hdl k1 did h1 with ⟨d1, hd1, e1, _, e3⟩
  rcases hdl k2 did h2 with ⟨d2, hd2, f1, _, f3⟩
  have hdd : d1 = d2 :=
    List.inj_on_of_nodup_map hids.2.2.2.2.2.1 hd1 hd2 (e1.trans f1.symm)
  rw [← e3, ← f3, hdd]

theorem links_dims_nodup (dl : List (String × Nat))
    (hinj : ∀ k1 k2 did, alGet dl k1 = some did → alGet dl k2 = some did → k1 = k2) :
    ∀ (nl : List ODVRow) (dm : List (String × String)),
      List.Forall₂ (fun (l : ODVRow) (pr : String × String) =>
        alGet dl pr.1 = some l.dimension_id) nl dm →
      (alKeys dm).Nodup → (nl.map (fun l => l.dimension_id)).Nodup := by
  intro nl dm h
  induction h with
  | nil =>
    intro _
    simp
  | @cons a pr nl2 dm2 hR hrest ih =>
    intro hnd
    have hnd' : (pr.1 :: alKeys dm2).Nodup := hnd
    rcases List.nodup_cons.mp hnd' with ⟨hnotin, htail⟩
    rw [List.map_cons, List.nodup_cons]
    refine ⟨?_, ih htail⟩
    intro hmem
    rcases List.mem_map.mp hmem with ⟨l2, hl2, hl2e⟩
    rcases forall2_mem_left hrest l2 hl2 with ⟨pr2, hpr2, hR2⟩
    have hk : pr.1 = pr2.1 :=
      hinj pr.1 pr2.1 a.dimension_id hR (by rw [hl2e] at hR2; exact hR2)
    apply hnotin
    rw [hk]
    exact List.mem_map.mpr ⟨pr2, hpr2, rfl⟩

theorem persistLinks_main (dtId obsId : Nat) (dl : List (String × Nat)) :
    ∀ (dm : List (String × String)) (db : DB)
      (cl : List (String × List (String × Nat))),
      (∀ pr ∈ dm, (alGet dl pr.1).isSome = true ∧
        (alGet ((alGet cl pr.1).getD []) pr.2).isSome = true) →
      ∃ db', persistLinks dtId obsId dl dm db cl = .ok (db', cl) ∧
        PLPost obsId dl cl dm db db' := by
  intro dm
  induction dm with
  | nil =>
    intro db cl _
    refine ⟨db, rfl, ?_⟩
    exact {
      dts := rfl, dims := rfl, cats := rfl, obs := rfl, nid := le_refl _,
      links := ⟨[], by simp, rfl, fun l hl => absurd hl (List.not_mem_nil l),
        List.Forall₂.nil⟩ }
  | cons pr rest ih =>
    intro db cl hprs
    rcases hprs pr (List.mem_cons_self pr rest) with ⟨h1, h2⟩
    rcases Option.isSome_iff_exists.mp h1 with ⟨dimId, hdimId⟩
    rcases Option.isSome_iff_exists.mp h2 with ⟨cid, hcid⟩
    obtain ⟨k, cc⟩ := pr
    have heq : persistLinks dtId obsId dl ((k, cc) :: rest) db cl =
        persistLinks dtId obsId dl rest
          ({ db with odvs := db.odvs ++ [{ id := db.nextId, observation_id := obsId, dimension_id := dimId, category_id := cid }], nextId := db.nextId + 1 } : DB) cl := by
      simp only [persistLinks, hdimId, hcid]
    rcases ih ({ db with odvs := db.odvs ++ [{ id := db.nextId, observation_id := obsId, dimension_id := dimId, category_id := cid }], nextId := db.nextId + 1 } : DB) cl
      (fun u hu => hprs u (List.mem_cons_of_mem _ hu)) with ⟨db', hok, post⟩
    refine ⟨db', by rw [heq]; exact hok, ?_⟩
    refine {
      dts := post.dts, dims := post.dims, cats := post.cats, obs := post.obs,
      nid := le_trans (Nat.le_succ _) post.nid, links := ?_ }
    rcases post.links with ⟨nl', e1, e2, e3, e4⟩
    refine ⟨({ id := db.nextId, observation_id := obsId, dimension_id := dimId, category_id := cid } : ODVRow) :: nl', ?_, ?_, ?_, ?_⟩
    · rw [e1]
      show (db.odvs ++ [({ id := db.nextId, observation_id := obsId, dimension_id := dimId, category_id := cid } : ODVRow)]) ++ nl' = _
      simp
    · simp [e2]
    · intro l hl
      rcases List.mem_cons.mp hl with h | h
      · rw [h]
      · exact e3 l h
    · exact List.Forall₂.cons ⟨hdimId, hcid⟩ e4

theorem processEntry_main (dtId : Nat) (dl : List (String × Nat))
    (order : List String) (vc : List (String × List String))
    (e : String × List JVal) (db : DB) (cl : List (String × List (String × Nat)))
    (hlc : LookupComplete dl cl order vc)
    (res : DB × List (String × List (String × Nat)))
    (hok : processEntry dtId dl order vc e db cl = .ok res) :
    res.2 = cl ∧ PEPost dtId dl order vc e cl db res.1 := by
  obtain ⟨key, row⟩ := e
  cases row with
  | nil =>
    simp only [processEntry] at hok
    have hres : (db, cl) = res := Except.ok.inj hok
    rw [← hres]
    refine ⟨rfl, ?_⟩
    exact {
      dts := rfl, dims := rfl, cats := rfl, nid := le_refl _,
      out := ⟨rfl, rfl⟩ }
  | cons rawValue restRow =>
    simp only [processEntry] at hok
    by_cases hnull : rawValue = JVal.jnull
    · rw [if_pos hnull] at hok
      have hres : (db, cl) = res := Except.ok.inj hok
      rw [← hres]
      have hout : entryOutcome order vc (key, rawValue :: restRow) = none := by
        simp only [entryOutcome, if_pos hnull]
      refine ⟨rfl, ?_⟩
      refine { dts := rfl, dims := rfl, cats := rfl, nid := le_refl _, out := ?_ }
      rw [hout]
      exact ⟨rfl, rfl⟩
    · rw [if_neg hnull] at hok
      cases hdec : decodeLoop order vc
          (repairIndices order.length (pySplitColon key)) 0 [] with
      | error s =>
        simp only [bind, Except.bind, hdec] at hok
        cases hok
      | ok dmq =>
        simp only [bind, Except.bind, hdec] at hok
        cases dmq with
        | none =>
          have hres : (db, cl) = res := Except.ok.inj hok
          rw [← hres]
          have hout : entryOutcome order vc (key, rawValue :: restRow) = none := by
            simp only [entryOutcome, if_neg hnull, hdec]
          refine ⟨rfl, ?_⟩
          refine { dts := rfl, dims := rfl, cats := rfl, nid := le_refl _, out := ?_ }
          rw [hout]
          exact ⟨rfl, rfl⟩
        | some dm =>
          change (if pyFloatOk rawValue = true then
              persistLinks dtId db.nextId dl dm ({ db with observations := db.observations ++ [({ id := db.nextId, value := rawValue, time_period := alGet dm "TIME_PERIOD", data_table_id := dtId } : ObservationRow)], nextId := db.nextId + 1 } : DB) cl
            else Except.error "ValueError: could not convert to float") = Except.ok res at hok
          by_cases hfl : pyFloatOk rawValue = true
          · rw [if_pos hfl] at hok
            have hpairs : ∀ pr ∈ dm, (alGet dl pr.1).isSome = true ∧
                (alGet ((alGet cl pr.1).getD []) pr.2).isSome = true := by
              intro pr hpr
              rcases decodeLoop_pairs order vc _ dm hdec pr hpr with ⟨ho, hv⟩
              refine ⟨hlc.1 pr.1 ho, ?_⟩
              rcases hlc.2 pr.1 ho pr.2 hv with ⟨cm, hcm, hsome⟩
              rw [hcm]
              exact hsome
            rcases persistLinks_main dtId db.nextId dl dm ({ db with observations := db.observations ++ [({ id := db.nextId, value := rawValue, time_period := alGet dm "TIME_PERIOD", data_table_id := dtId } : ObservationRow)], nextId := db.nextId + 1 } : DB) cl hpairs with
              ⟨db', hok2, post⟩
            rw [hok2] at hok
            have hres : (db', cl) = res := Except.ok.inj hok
            rw [← hres]
            have hout : entryOutcome order vc (key, rawValue :: restRow) = some dm := by
              simp only [entryOutcome, if_neg hnull, hdec, if_pos hfl]
            refine ⟨rfl, ?_⟩
            refine {
              dts := post.dts, dims := post.dims, cats := post.cats,
              nid := le_trans (Nat.le_succ _) post.nid, out := ?_ }
            rw [hout]
            refine ⟨⟨({ id := db.nextId, value := rawValue, time_period := alGet dm "TIME_PERIOD", data_table_id := dtId } : ObservationRow), post.obs, rfl, rfl⟩, ?_, ?_⟩
            · rcases post.links with ⟨nl, e1, e2, e3, e4⟩
              exact ⟨nl, e1, e2, e3, e4⟩
            · exact lt_of_lt_of_le (Nat.lt_succ_self _) post.nid
          · rw [if_neg hfl] at hok
            cases hok

theorem entryOutcome_keys (order : List String) (vc : List (String × List String))
    (e : String × List JVal) (dm : List (String × String))
    (h : entryOutcome order vc e = some dm) : (alKeys dm).Nodup := by
  obtain ⟨k, row⟩ := e
  cases row with
  | nil =>
    have h2 : entryOutcome order vc (k, ([] : List JVal)) = none := by
      simp only [entryOutcome]
    rw [h2] at h
    exact Option.noConfusion h
  | cons rv rest =>
    by_cases hnull : rv = JVal.jnull
    · have h2 : entryOutcome order vc (k, rv :: rest) = none := by
        simp only [entryOutcome, if_pos hnull]
      rw [h2] at h
      exact Option.noConfusion h
    · cases hdec : decodeLoop order vc
          (repairIndices order.length (pySplitColon k)) 0 [] with
      | error s =>
        have h2 : entryOutcome order vc (k, rv :: rest) = none := by
          simp only [entryOutcome, if_neg hnull, hdec]
        rw [h2] at h
        exact Option.noConfusion h
      | ok dmq =>
        cases dmq with
        | none =>
          have h2 : entryOutcome order vc (k, rv :: rest) = none := by
            simp only [entryOutcome, if_neg hnull, hdec]
          rw [h2] at h
          exact Option.noConfusion h
        | some dm0 =>
          by_cases hfl : pyFloatOk rv = true
          · have h2 : entryOutcome order vc (k, rv :: rest) = some dm0 := by
              simp only [entryOutcome, if_neg hnull, hdec, if_pos hfl]
            rw [h2] at h
            have hdd : dm0 = dm := Option.some.inj h
            rw [← hdd]
            exact decodeLoop_keys order vc _ dm0 hdec
          · have h2 : entryOutcome order vc (k, rv :: rest) = none := by
              simp only [entryOutcome, if_neg hnull, hdec, if_neg hfl]
            rw [h2] at h
            exact Option.noConfusion h

theorem pe_keep (dtId : Nat) (dl : List (String × Nat)) (order : List String)
    (vc : List (String × List String)) (e : String × List JVal)
    (cl : List (String × List (String × Nat))) (db db2 : DB)
    (pe : PEPost dtId dl order vc e cl db db2)
    (hdl : DimLookupOk db dtId dl) (hcl : CatLookupOk db dtId dl cl)
    (hi : IdsOk db) (hc9 : C9Inv db) : IdsOk db2 ∧ C9Inv db2 := by
  have hoc := pe.out
  cases hout : entryOutcome order vc e with
  | none =>
    rw [hout] at hoc
    rcases hoc with ⟨ho, hv⟩
    constructor
    · rcases hi with ⟨i1, i2, i3, i4, i5, i6, i7, i8⟩
      refine ⟨?_, ?_, ?_, ?_, ?_, ?_, ?_, ?_⟩
      · intro t ht
        rw [pe.dts] at ht
        exact lt_of_lt_of_le (i1 t ht) pe.nid
      · intro d hd
        rw [pe.dims] at hd
        exact lt_of_lt_of_le (i2 d hd) pe.nid
      · intro c hc
        rw [pe.cats] at hc
        exact lt_of_lt_of_le (i3 c hc) pe.nid
      · intro o hoo
        rw [ho] at hoo
        exact lt_of_lt_of_le (i4 o hoo) pe.nid
      · rw [pe.dts]; exact i5
      · rw [pe.dims]; exact i6
      · rw [pe.cats]; exact i7
      · rw [ho]; exact i8
    · constructor
      · intro l hl
        rw [hv] at hl
        exact lt_of_lt_of_le (hc9.1 l hl) pe.nid
      · intro o hoo
        rw [ho] at hoo
        rcases hc9.2 o hoo with ⟨c1, c2, c3⟩
        refine ⟨by rw [hv]; exact c1, ?_, by rw [hv, pe.dims]; exact c3⟩
        intro l hl hle
        rw [hv] at hl
        rcases c2 l hl hle with ⟨d, hd, f1, f2, c, hc, g1, g2⟩
        exact ⟨d, by rw [pe.dims]; exact hd, f1, f2, c, by rw [pe.cats]; exact hc, g1, g2⟩
  | some dm =>
    rw [hout] at hoc
    rcases hoc with ⟨⟨o, ho, hoid, hodt⟩, ⟨nl, hv, hnlen, hnobs, hfa⟩, hlt⟩
    have hinj := dimLookup_inj hdl hi
    have hdmkeys := entryOutcome_keys order vc e dm hout
    have hnodup : (nl.map (fun l => l.dimension_id)).Nodup :=
      links_dims_nodup dl hinj nl dm
        (hfa.imp (fun _ _ hab => hab.1)) hdmkeys
    constructor
    · rcases hi with ⟨i1, i2, i3, i4, i5, i6, i7, i8⟩
      refine ⟨?_, ?_, ?_, ?_, ?_, ?_, ?_, ?_⟩
      · intro t ht
        rw [pe.dts] at ht
        exact lt_of_lt_of_le (i1 t ht) pe.nid
      · intro d hd
        rw [pe.dims] at hd
        exact lt_of_lt_of_le (i2 d hd) pe.nid
      · intro c hc
        rw [pe.cats] at hc
        exact lt_of_lt_of_le (i3 c hc) pe.nid
      · intro o2 ho2
        rw [ho] at ho2
        rcases List.mem_append.mp ho2 with h1 | h1
        · exact lt_of_lt_of_le (i4 o2 h1) pe.nid
        · rw [List.mem_singleton.mp h1, hoid]
          exact hlt
      · rw [pe.dts]; exact i5
      · rw [pe.dims]; exact i6
      · rw [pe.cats]; exact i7
      · rw [ho, List.map_append, List.nodup_append]
        refine ⟨i8, by simp, ?_⟩
        intro a ha hb
        have haup : a < db.nextId := by
          rcases List.mem_map.mp ha with ⟨o2, ho2, he⟩
          rw [← he]
          exact i4 o2 ho2
        have hao : a = o.id := by simpa using hb
        rw [hao, hoid] at haup
        exact absurd haup (Nat.lt_irrefl _)
    · constructor
      · intro l hl
        rw [hv] at hl
        rcases List.mem_append.mp hl with h1 | h1
        · exact lt_of_lt_of_le (hc9.1 l h1) pe.nid
        · rw [hnobs l h1]
          exact hlt
      · intro o2 ho2
        rw [ho] at ho2
        rcases List.mem_append.mp ho2 with hold | hnew
        · have hoidlt : o2.id < db.nextId := hi.2.2.2.1 o2 hold
          have hfilter : db2.odvs.filter (fun l => l.observation_id == o2.id) =
              db.odvs.filter (fun l => l.observation_id == o2.id) := by
            rw [hv, List.filter_append]
            have hnil : nl.filter (fun l => l.observation_id == o2.id) = [] := by
              apply List.filter_eq_nil_iff.mpr
              intro l hl hbe
              have h3 : l.observation_id = o2.id := by simpa using hbe
              have h4 := hnobs l hl
              rw [h3] at h4
              rw [h4] at hoidlt
              exact absurd hoidlt (Nat.lt_irrefl _)
            rw [hnil, List.append_nil]
          rcases hc9.2 o2 hold with ⟨c1, c2, c3⟩
          refine ⟨by rw [hfilter]; exact c1, ?_, by rw [hfilter, pe.dims]; exact c3⟩
          intro l hl hle
          rw [hv] at hl
          rcases List.mem_append.mp hl with h1 | h1
          · rcases c2 l h1 hle with ⟨d, hd, f1, f2, c, hc, g1, g2⟩
            exact ⟨d, by rw [pe.dims]; exact hd, f1, f2, c,
              by rw [pe.cats]; exact hc, g1, g2⟩
          · exfalso
            have h4 := hnobs l h1
            rw [hle] at h4
            rw [h4] at hoidlt
            exact absurd hoidlt (Nat.lt_irrefl _)
        · have ho2o : o2 = o := List.mem_singleton.mp hnew
          subst ho2o
          have hfilter : db2.odvs.filter (fun l => l.observation_id == o2.id) = nl := by
            rw [hv, List.filter_append]
            have h1 : db.odvs.filter (fun l => l.observation_id == o2.id) = [] := by
              apply List.filter_eq_nil_iff.mpr
              intro l hl hbe
              have h3 : l.observation_id = o2.id := by simpa using hbe
              have hlb := hc9.1 l hl
              rw [h3, hoid] at hlb
              exact absurd hlb (Nat.lt_irrefl _)
            have h2 : nl.filter (fun l => l.observation_id == o2.id) = nl := by
              apply List.filter_eq_self.mpr
              intro l hl
              simp [hnobs l hl, hoid]
            rw [h1, h2, List.nil_append]
          refine ⟨by rw [hfilter]; exact hnodup, ?_, ?_⟩
          · intro l hl hle
            rw [hv] at hl
            rcases List.mem_append.mp hl with h1 | h1
            · exfalso
              have hlb := hc9.1 l h1
              rw [hle, hoid] at hlb
              exact absurd hlb (Nat.lt_irrefl _)
            · rcases forall2_mem_left hfa l h1 with ⟨pr, hpr, hdlr, hclr⟩
              rcases hdl pr.1 l.dimension_id hdlr with ⟨d, hd, f1, f2, _⟩
              cases hclp : alGet cl pr.1 with
              | none =>
                rw [hclp] at hclr
                simp [alGet, List.find?, Option.getD] at hclr
              | some cm =>
                rw [hclp] at hclr
                have hclr2 : alGet cm pr.2 = some l.category_id := hclr
                rcases hcl pr.1 cm hclp pr.2 l.category_id hclr2 with
                  ⟨c, hc, g1, g2, g3, g4⟩
                exact ⟨d, by rw [pe.dims]; exact hd, f1, f2.trans hodt.symm, c,
                  by rw [pe.cats]; exact hc, g1, g2.trans hodt.symm⟩
          · rw [hfilter, pe.dims]
            have hsub : ∀ x ∈ nl.map (fun l => l.dimension_id),
                x ∈ (db.dimensions.filter
                  (fun d => d.data_table_id == o2.data_table_id)).map (fun d => d.id) := by
              intro x hx
              rcases List.mem_map.mp hx with ⟨l, hl, hle⟩
              rcases forall2_mem_left hfa l hl with ⟨pr, hpr, hdlr, _⟩
              rcases hdl pr.1 l.dimension_id hdlr with ⟨d, hd, f1, f2, _⟩
              refine List.mem_map.mpr ⟨d, ?_, by rw [f1, hle]⟩
              rw [List.mem_filter]
              exact ⟨hd, by simp [f2, hodt]⟩
            have hle2 := List.Subperm.length_le (List.Nodup.subperm hnodup hsub)
            rw [List.length_map, List.length_map] at hle2
            exact hle2

theorem soGo_main (dtId : Nat) (dl : List (String × Nat)) (order : List String)
    (vc : List (String × List String)) (cl : List (String × List (String × Nat)))
    (hlc : LookupComplete dl cl order vc) :
    ∀ (es : List (String × List JVal)) (db db' : DB),
      DimLookupOk db dtId dl → CatLookupOk db dtId dl cl →
      soGo dtId dl order vc es db cl = .ok db' →
      SOPost dtId dl order vc cl es db db' := by
  intro es
  induction es with
  | nil =>
    intro db db' _ _ hok
    simp only [soGo] at hok
    cases hok
    exact {
      dts := rfl, dims := rfl, cats := rfl,
      obsLen := by simp [entriesObsCount],
      odvLen := by simp [entriesLinkCount],
      nid := le_refl _, keep := fun h => h }
  | cons e rest ih =>
    intro db db' hdl hcl hok
    cases hpe : processEntry dtId dl order vc e db cl with
    | error s =>
      simp only [soGo, bind, Except.bind, hpe] at hok
      cases hok
    | ok res =>
      rcases processEntry_main dtId dl order vc e db cl hlc res hpe with ⟨hres2, pe⟩
      simp only [soGo, bind, Except.bind, hpe] at hok
      rw [hres2] at hok
      have hdl2 : DimLookupOk res.1 dtId dl := by
        intro k did h
        rcases hdl k did h with ⟨d, hd, f1, f2, f3⟩
        exact ⟨d, by rw [pe.dims]; exact hd, f1, f2, f3⟩
      have hcl2 : CatLookupOk res.1 dtId dl cl := by
        intro dc cm hdc cc cid hcc
        rcases hcl dc cm hdc cc cid hcc with ⟨c, hc, f1, f2, f3, f4⟩
        exact ⟨c, by rw [pe.cats]; exact hc, f1, f2, f3, f4⟩
      have ih' := ih res.1 db' hdl2 hcl2 hok
      have hoc := pe.out
      cases hout : entryOutcome order vc e with
      | none =>
        rw [hout] at hoc
        rcases hoc with ⟨ho, hv⟩
        refine {
          dts := ih'.dts.trans pe.dts, dims := ih'.dims.trans pe.dims,
          cats := ih'.cats.trans pe.cats, obsLen := ?_, odvLen := ?_,
          nid := le_trans pe.nid ih'.nid,
          keep := fun h =>
            ih'.keep (pe_keep dtId dl order vc e cl db res.1 pe hdl hcl h.1 h.2) }
        · have hcnt : entriesObsCount order vc (e :: rest) =
              entriesObsCount order vc rest := by
            simp [entriesObsCount, List.filter_cons, hout]
          rw [hcnt, ih'.obsLen, ho]
        · have hcnt : entriesLinkCount order vc (e :: rest) =
              entriesLinkCount order vc rest := by
            simp [entriesLinkCount, hout]
          rw [hcnt, ih'.odvLen, hv]
      | some dm =>
        rw [hout] at hoc
        rcases hoc with ⟨⟨o, ho, hoid, hodt⟩, ⟨nl, hv, hnlen, hnobs, hfa⟩, hlt⟩
        refine {
          dts := ih'.dts.trans pe.dts, dims := ih'.dims.trans pe.dims,
          cats := ih'.cats.trans pe.cats, obsLen := ?_, odvLen := ?_,
          nid := le_trans pe.nid ih'.nid,
          keep := fun h =>
            ih'.keep (pe_keep dtId dl order vc e cl db res.1 pe hdl hcl h.1 h.2) }
        · have hcnt : entriesObsCount order vc (e :: rest) =
              entriesObsCount order vc rest + 1 := by
            simp [entriesObsCount, List.filter_cons, hout]
          rw [hcnt, ih'.obsLen, ho]
          simp only [List.length_append, List.length_singleton]
          omega
        · have hcnt : entriesLinkCount order vc (e :: rest) =
              dm.length + entriesLinkCount order vc rest := by
            simp [entriesLinkCount, hout]
          rw [hcnt, ih'.odvLen, hv]
          simp only [List.length_append]
          omega

theorem store_observations_main (db : DB) (dtId : Nat) (dl : List (String × Nat))
    (cl : List (String × List (String × Nat))) (order : List String)
    (vc : List (String × List String)) (p : Payload) (db' : DB)
    (hlc : LookupComplete dl cl order vc)
    (hdl : DimLookupOk db dtId dl) (hcl : CatLookupOk db dtId dl cl)
    (hok : store_observations db dtId dl cl order vc p = .ok db') :
    SOPost dtId dl order vc cl (obsEntriesOf p) db db' := by
  unfold store_observations at hok
  cases hds : p.dataSets.head? with
  | none =>
    rw [hds] at hok
    have hoe : obsEntriesOf p = [] := by
      simp only [obsEntriesOf, hds]
    cases hok
    exact {
      dts := rfl, dims := rfl, cats := rfl,
      obsLen := by rw [hoe]; simp [entriesObsCount],
      odvLen := by rw [hoe]; simp [entriesLinkCount],
      nid := le_refl _, keep := fun h => h }
  | some ds =>
    rw [hds] at hok
    change (if ds.observations.isEmpty = true then Except.ok db
        else soGo dtId dl order vc ds.observations db cl) = Except.ok db' at hok
    by_cases hemp : ds.observations.isEmpty = true
    · rw [if_pos hemp] at hok
      have hoe : obsEntriesOf p = [] := by
        simp only [obsEntriesOf, hds, if_pos hemp]
      cases hok
      exact {
        dts := rfl, dims := rfl, cats := rfl,
        obsLen := by rw [hoe]; simp [entriesObsCount],
        odvLen := by rw [hoe]; simp [entriesLinkCount],
        nid := le_refl _, keep := fun h => h }
    · rw [if_neg hemp] at hok
      have hoe : obsEntriesOf p = ds.observations := by
        simp only [obsEntriesOf, hds, if_neg hemp]
      have sop := soGo_main dtId dl order vc cl hlc ds.observations db db' hdl hcl hok
      exact {
        dts := sop.dts, dims := sop.dims, cats := sop.cats,
        obsLen := by rw [hoe]; exact sop.obsLen,
        odvLen := by rw [hoe]; exact sop.odvLen,
        nid := sop.nid, keep := sop.keep }

theorem emptyDB_invs : DTsOk emptyDB ∧ CatsOk emptyDB ∧ DimsOk emptyDB ∧
    CatDimCoh emptyDB ∧ IdsOk emptyDB ∧ C9Inv emptyDB := by
  refine ⟨List.Pairwise.nil, List.Pairwise.nil, List.Pairwise.nil,
    fun c hc => absurd hc (List.not_mem_nil c),
    ⟨fun t ht => absurd ht (List.not_mem_nil t),
      fun d hd => absurd hd (List.not_mem_nil d),
      fun c hc => absurd hc (List.not_mem_nil c),
      fun o ho => absurd ho (List.not_mem_nil o),
      List.nodup_nil, List.nodup_nil, List.nodup_nil, List.nodup_nil⟩,
    fun l hl => absurd hl (List.not_mem_nil l),
    fun o ho => absurd ho (List.not_mem_nil o)⟩

/-- C8: the XML-pipeline `store_metadata` refutes "never deletes a Dataset
row": re-ingesting code "D" deletes the existing Dataset row (id 0) and
recreates the dataset under a fresh id. -/
theorem C8_counterexample :
    ∃ r, xmStoreMetadata c8Store c8Meta = .ok r ∧
      (∃ t ∈ c8Store.datatables, t.id = 0 ∧ t.code = "D") ∧
      (∀ t ∈ r.db.datatables, t.id ≠ 0) ∧
      r.db.datatables.length = 1 := by
  refine ⟨_, rfl, ?_, ?_, rfl⟩ <;> decide

/-- C8 (amended): in the SDMX-JSON pipeline `store_metadata` the dataset
lifecycle holds as claimed: every existing Dataset row survives with its id
and code, a fresh code creates exactly one new row carrying the computed
name and description, and an existing code updates that row's name and
description in place without changing the row count. (The XML pipeline
instead deletes and recreates the row, see the counterexample.) -/
theorem C8_dataset_lifecycle (db : DB) (code : String) (p : Payload)
    (str0 : StructureMeta) (hstr : p.structures.head? = some str0)
    (hdts : DTsOk db) (hcat : CatsOk db) (hdims : DimsOk db)
    (hcoh : CatDimCoh db) (hids : IdsOk db) :
    ∃ r, store_metadata db code p = .ok r ∧
      (∀ t ∈ db.datatables, ∃ t' ∈ r.db.datatables, t'.id = t.id ∧ t'.code = t.code) ∧
      ((∀ t ∈ db.datatables, t.code ≠ code) →
        r.db.datatables.length = db.datatables.length + 1 ∧
        ∃ t' ∈ r.db.datatables, t'.id = db.nextId ∧ t'.code = code ∧
          t'.name = smName code p ∧ t'.description = smDesc p) ∧
      (∀ t0 ∈ db.datatables, t0.code = code →
        r.db.datatables.length = db.datatables.length ∧
        ∃ t' ∈ r.db.datatables, t'.id = t0.id ∧ t'.code = code ∧
          t'.name = smName code p ∧ t'.description = smDesc p) := by
  rcases store_metadata_main db code p str0 hstr hdts hcat hdims hcoh hids with
    ⟨r, hok, smp, _⟩
  refine ⟨r, hok, smp.dtSurvive, ?_, ?_⟩
  · intro hall
    rcases smp.dtNew hall with ⟨hlen, hid⟩
    rcases smp.dtRow with ⟨t', ht', e1, e2, e3, e4⟩
    exact ⟨hlen, t', ht', by rw [e1]; exact hid, e2, e3, e4⟩
  · intro t0 ht0 h0c
    rcases smp.dtOld t0 ht0 h0c with ⟨hlen, hid⟩
    rcases smp.dtRow with ⟨t', ht', e1, e2, e3, e4⟩
    exact ⟨hlen, t', ht', by rw [e1]; exact hid, e2, e3, e4⟩

/-- Witness for C8 at a concrete input: the empty store and a minimal
payload, every hypothesis discharged concretely. -/
theorem C8_dataset_lifecycle_witness :
    payloadC8.structures.head? = some strEx0 ∧
    ∃ r, store_metadata emptyDB "D" payloadC8 = .ok r ∧
      (∀ t ∈ emptyDB.datatables, ∃ t' ∈ r.db.datatables, t'.id = t.id ∧ t'.code = t.code) ∧
      ((∀ t ∈ emptyDB.datatables, t.code ≠ "D") →
        r.db.datatables.length = emptyDB.datatables.length + 1 ∧
        ∃ t' ∈ r.db.datatables, t'.id = emptyDB.nextId ∧ t'.code = "D" ∧
          t'.name = smName "D" payloadC8 ∧ t'.description = smDesc payloadC8) ∧
      (∀ t0 ∈ emptyDB.datatables, t0.code = "D" →
        r.db.datatables.length = emptyDB.datatables.length ∧
        ∃ t' ∈ r.db.datatables, t'.id = t0.id ∧ t'.code = "D" ∧
          t'.name = smName "D" payloadC8 ∧ t'.description = smDesc payloadC8) :=
  ⟨rfl, C8_dataset_lifecycle emptyDB "D" payloadC8 strEx0 rfl emptyDB_invs.1
    emptyDB_invs.2.1 emptyDB_invs.2.2.1 emptyDB_invs.2.2.2.1 emptyDB_invs.2.2.2.2.1⟩

/-- C1: re-ingesting the identical payload is not idempotent — the second
run leaves the metadata row counts unchanged but doubles the Observation
and ObservationDimensionValue counts, refuting the claimed idempotence. -/
theorem C1_counterexample :
    ∃ db1 db2, ingest emptyDB "DS" payloadFull = .ok db1 ∧
      ingest db1 "DS" payloadFull = .ok db2 ∧
      db1.observations.length = 2 ∧ db2.observations.length = 4 ∧
      db1.odvs.length = 6 ∧ db2.odvs.length = 12 ∧
      db2.datatables.length = db1.datatables.length ∧
      db2.dimensions.length = db1.dimensions.length ∧
      db2.categories.length = db1.categories.length := by
  refine ⟨_, _, rfl, rfl, rfl, rfl, rfl, rfl, rfl, rfl, rfl⟩

/-- C1 (amended): for every payload, running the ingestion pipeline twice
from the empty store keeps the Dataset, Dimension and Category row counts
of the first run, but doubles the Observation and ObservationDimensionValue
counts, because `store_observations` inserts unconditionally. -/
theorem C1_repeat_ingest (code : String) (p : Payload) (db1 db2 : DB)
    (h1 : ingest emptyDB code p = .ok db1)
    (h2 : ingest db1 code p = .ok db2) :
    db2.datatables.length = db1.datatables.length ∧
    db2.dimensions.length = db1.dimensions.length ∧
    db2.categories.length = db1.categories.length ∧
    db2.observations.length = 2 * db1.observations.length ∧
    db2.odvs.length = 2 * db1.odvs.length := by
  cases hstr : p.structures.head? with
  | none =>
    simp only [ingest, store_metadata, hstr, bind, Except.bind] at h1
    cases h1
  | some str0 =>
    obtain ⟨hdts0, hcat0, hdims0, hcoh0, hids0, hc90⟩ := emptyDB_invs
    rcases store_metadata_main emptyDB code p str0 hstr hdts0 hcat0 hdims0 hcoh0 hids0 with
      ⟨r1, hsm1, smp1, _⟩
    simp only [ingest, bind, Except.bind, hsm1] at h1
    have sop1 := store_observations_main r1.db r1.datatableId r1.dimension_lookup
      r1.category_lookup r1.dimension_order r1.dimension_value_codes p db1
      smp1.complete smp1.dlOk smp1.clOk h1
    have hdts1 : DTsOk db1 := by
      unfold DTsOk
      rw [sop1.dts]
      exact smp1.dtsOk
    have hdims1 : DimsOk db1 := by
      unfold DimsOk
      rw [sop1.dims]
      exact smp1.dimsOk
    have hcat1 : CatsOk db1 := by
      unfold CatsOk
      rw [sop1.cats]
      exact smp1.catsOk
    have hcoh1 : CatDimCoh db1 := by
      intro c hc
      rw [sop1.cats] at hc
      rcases smp1.coh c hc with ⟨d, hd, e1, e2⟩
      exact ⟨d, by rw [sop1.dims]; exact hd, e1, e2⟩
    have hc9r1 : C9Inv r1.db := by
      constructor
      · intro l hl
        rw [smp1.odvs] at hl
        exact absurd hl (List.not_mem_nil l)
      · intro o ho
        rw [smp1.obs] at ho
        exact absurd ho (List.not_mem_nil o)
    have hids1 : IdsOk db1 := (sop1.keep ⟨smp1.idsOk, hc9r1⟩).1
    have hsat1 : ∀ m ∈ metasOf p, SatDim db1 r1.datatableId m := by
      intro m hm
      rcases smp1.satDims m hm with ⟨d, hd, e1, e2, e3⟩
      refine ⟨d, by rw [sop1.dims]; exact hd, e1, e2, ?_⟩
      intro v hv
      rcases e3 v hv with ⟨c, hc, f1, f2⟩
      exact ⟨c, by rw [sop1.cats]; exact hc, f1, f2⟩
    rcases store_metadata_main db1 code p str0 hstr hdts1 hcat1 hdims1 hcoh1 hids1 with
      ⟨r2, hsm2, smp2, _⟩
    rcases smp1.dtRow with ⟨t1, ht1, g1, g2, _, _⟩
    have ht1db1 : t1 ∈ db1.datatables := by
      rw [sop1.dts]
      exact ht1
    rcases smp2.dtOld t1 ht1db1 g2 with ⟨hlen2, hid2⟩
    have hdtid : r2.datatableId = r1.datatableId := hid2.trans g1
    have hsat2 : ∀ m ∈ metasOf p, SatDim db1 r2.datatableId m := by
      intro m hm
      rw [hdtid]
      exact hsat1 m hm
    rcases smp2.satLens hsat2 with ⟨hdlen, hclen⟩
    simp only [ingest, bind, Except.bind, hsm2] at h2
    have sop2 := store_observations_main r2.db r2.datatableId r2.dimension_lookup
      r2.category_lookup r2.dimension_order r2.dimension_value_codes p db2
      smp2.complete smp2.dlOk smp2.clOk h2
    have hN1 : db1.observations.length =
        entriesObsCount (dimOrderOf p) (vcOf p) (obsEntriesOf p) := by
      have hA := sop1.obsLen
      rw [smp1.obs, smp1.ordEq, smp1.vcEq] at hA
      simpa [emptyDB] using hA
    have hM1 : db1.odvs.length =
        entriesLinkCount (dimOrderOf p) (vcOf p) (obsEntriesOf p) := by
      have hA := sop1.odvLen
      rw [smp1.odvs, smp1.ordEq, smp1.vcEq] at hA
      simpa [emptyDB] using hA
    refine ⟨?_, ?_, ?_, ?_, ?_⟩
    · rw [sop2.dts]
      exact hlen2
    · rw [sop2.dims]
      exact hdlen
    · rw [sop2.cats]
      exact hclen
    · have hA2 := sop2.obsLen
      rw [smp2.obs, smp2.ordEq, smp2.vcEq] at hA2
      rw [hA2, hN1]
      omega
    · have hA2 := sop2.odvLen
      rw [smp2.odvs, smp2.ordEq, smp2.vcEq] at hA2
      rw [hA2, hM1]
      omega

/-- Witness for C1 at a concrete input: the three-dimension payload ingested
twice from the empty store. -/
theorem C1_repeat_ingest_witness :
    ∃ db1 db2, ingest emptyDB "DS" payloadFull = .ok db1 ∧
      ingest db1 "DS" payloadFull = .ok db2 ∧
      db2.datatables.length = db1.datatables.length ∧
      db2.dimensions.length = db1.dimensions.length ∧
      db2.categories.length = db1.categories.length ∧
      db2.observations.length = 2 * db1.observations.length ∧
      db2.odvs.length = 2 * db1.odvs.length := by
  refine ⟨_, _, rfl, rfl, ?_⟩
  have h := C1_repeat_ingest "DS" payloadFull _ _ rfl rfl
  exact h

/-- C9: after ingesting any payload into the empty store, every Observation
row has pairwise-distinct link dimensions (at most one link per
(Observation, Dimension) pair), every link references a Dimension and a
Category of the Observation's own Dataset, and the link count never exceeds
the Dataset's Dimension count. -/
theorem C9_per_observation_links (code : String) (p : Payload) (db' : DB)
    (h : ingest emptyDB code p = .ok db') :
    ∀ o ∈ db'.observations,
      ((db'.odvs.filter (fun l => l.observation_id == o.id)).map
        (fun l => l.dimension_id)).Nodup ∧
      (∀ l ∈ db'.odvs, l.observation_id = o.id →
        ∃ d ∈ db'.dimensions, d.id = l.dimension_id ∧
          d.data_table_id = o.data_table_id ∧
          ∃ c ∈ db'.categories, c.id = l.category_id ∧
            c.data_table_id = o.data_table_id) ∧
      (db'.odvs.filter (fun l => l.observation_id == o.id)).length ≤
        (db'.dimensions.filter (fun d => d.data_table_id == o.data_table_id)).length := by
  cases hstr : p.structures.head? with
  | none =>
    simp only [ingest, store_metadata, hstr, bind, Except.bind] at h
    cases h
  | some str0 =>
    obtain ⟨hdts0, hcat0, hdims0, hcoh0, hids0, hc90⟩ := emptyDB_invs
    rcases store_metadata_main emptyDB code p str0 hstr hdts0 hcat0 hdims0 hcoh0 hids0 with
      ⟨r1, hsm1, smp1, _⟩
    simp only [ingest, bind, Except.bind, hsm1] at h
    have sop1 := store_observations_main r1.db r1.datatableId r1.dimension_lookup
      r1.category_lookup r1.dimension_order r1.dimension_value_codes p db'
      smp1.complete smp1.dlOk smp1.clOk h
    have hc9r1 : C9Inv r1.db := by
      constructor
      · intro l hl
        rw [smp1.odvs] at hl
        exact absurd hl (List.not_mem_nil l)
      · intro o ho
        rw [smp1.obs] at ho
        exact absurd ho (List.not_mem_nil o)
    exact (sop1.keep ⟨smp1.idsOk, hc9r1⟩).2.2

/-- Witness for C9 at a concrete input: the three-dimension payload ingested
into the empty store. -/
theorem C9_per_observation_links_witness :
    ∃ db', ingest emptyDB "DS" payloadFull = .ok db' ∧
      ∀ o ∈ db'.observations,
        ((db'.odvs.filter (fun l => l.observation_id == o.id)).map
          (fun l => l.dimension_id)).Nodup ∧
        (∀ l ∈ db'.odvs, l.observation_id = o.id →
          ∃ d ∈ db'.dimensions, d.id = l.dimension_id ∧
            d.data_table_id = o.data_table_id ∧
            ∃ c ∈ db'.categories, c.id = l.category_id ∧
              c.data_table_id = o.data_table_id) ∧
        (db'.odvs.filter (fun l => l.observation_id == o.id)).length ≤
          (db'.dimensions.filter (fun d => d.data_table_id == o.data_table_id)).length := by
  refine ⟨_, rfl, ?_⟩
  exact C9_per_observation_links "DS" payloadFull _ rfl

/-- C7: two-pass parent resolution of the SDMX-JSON upserter. For a
dimension whose value `v` declares `parent_code = X` (declared before or
after `v`), after `store_metadata` completes the category for `v` points at
the category with code `X` of the same dimension; when `X` is not in the
just-built set the pass falls back to a direct store lookup; and a parent
code that resolves nowhere leaves the parent null without raising. -/
theorem C7_parent_resolution (db : DB) (code : String) (p : Payload)
    (str0 : StructureMeta) (hstr : p.structures.head? = some str0)
    (hdts : DTsOk db) (hcat : CatsOk db) (hdims : DimsOk db)
    (hcoh : CatDimCoh db) (hids : IdsOk db)
    (hnd : (dimOrderOf p).Nodup) :
    ∃ r, store_metadata db code p = .ok r ∧
      (∀ m ∈ metasOf p, (m.values.map (fun v => v.code)).Nodup →
      ∀ v ∈ m.values, ∀ X, v.parent_code = some X → X ≠ "" →
      ∃ did, alGet r.dimension_lookup m.code = some did ∧
      ∃ cv ∈ r.db.categories, cv.dimension_id = did ∧ cv.code = v.code ∧
        ((X ∈ m.values.map (fun u => u.code) →
          ∃ cp ∈ r.db.categories, cp.dimension_id = did ∧ cp.code = X ∧
            cv.parent_id = some cp.id) ∧
         (X ∉ m.values.map (fun u => u.code) →
          ∀ P ∈ db.categories, P.dimension_id = did → P.code = X →
            cv.parent_id = some P.id) ∧
         (X ∉ m.values.map (fun u => u.code) →
          (∀ c0 ∈ db.categories, ¬(c0.dimension_id = did ∧ c0.code = X)) →
          (∀ c0 ∈ db.categories, ¬(c0.dimension_id = did ∧ c0.code = v.code)) →
          cv.parent_id = none))) := by
  rcases store_metadata_main db code p str0 hstr hdts hcat hdims hcoh hids with
    ⟨r, hok, smp, stDb, db1, pd', hstcats, hstdims, hstnid, sd, hrp⟩
  refine ⟨r, hok, ?_⟩
  intro m hm hvnd v hv X hpc hXne
  have hmcode : m.code ∈ (metasOf p).map (fun m => m.code) :=
    List.mem_map.mpr ⟨m, hm, rfl⟩
  rcases (sd.completeNew m.code hmcode).1 with ⟨did, hdid⟩
  refine ⟨did, hdid, ?_⟩
  have hvc : alGet r.dimension_value_codes m.code =
      some (m.values.map (fun v => v.code)) := by
    rw [sd.vcEq]
    exact foldl_alInsert_get (metasOf p) [] m hm hnd
  rcases (sd.completeNew m.code hmcode).2 with ⟨cm, hcm, hall⟩
  have hvmem : v.code ∈ (alGet r.dimension_value_codes m.code).getD [] := by
    rw [hvc]
    exact List.mem_map.mpr ⟨v, hv, rfl⟩
  rcases hall v.code hvmem with ⟨cidv, hcidv, cV, hcV, ecid, ecdt, eccode, ecdim0⟩
  have ecdim : cV.dimension_id = did := ecdim0 did hdid
  have hpend0 : ∀ e ∈ pd', (alGet r.dimension_lookup e.1).isSome = true :=
    sd.pendDl (fun e he => absurd he (List.not_mem_nil e))
  rcases resolveParents_main r.dimension_lookup r.category_lookup pd' db1
    sd.catsOk hpend0 with ⟨db2, hok2, rp⟩
  have hdb2 : db2 = r.db := by
    rw [hok2] at hrp
    exact Except.ok.inj hrp
  subst hdb2
  rcases rp.surv cV hcV with ⟨cv, hcv, s1, s2, s3, s4⟩
  have htr : pyTruthy v.parent_code = true := by
    rw [hpc]
    simp [pyTruthy, hXne]
  have hdl1 : DimLookupOk db1 r.datatableId r.dimension_lookup := by
    apply sd.dlOk
    intro cde d0 hget
    simp [alGet, List.find?] at hget
  rcases hdl1 m.code did hdid with ⟨dC, hdC, edC1, edC2, edC3⟩
  have h1 : ∀ e ∈ pd', e.2.1 = cidv → e = (m.code, cidv, X) := by
    intro e he hecid
    rcases sd.pendProv with ⟨np, hnp, hprov⟩
    have henp : e ∈ np := by
      rw [hnp] at he
      simpa using he
    rcases hprov e henp with
      ⟨m2, hm2, he1, v2, hv2, htr2, he22, cE, hcE, ecE, eccodeE, did2, hdid2, edimE⟩
    have hce : cE = cV := by
      apply List.inj_on_of_nodup_map sd.idsOk.2.2.2.2.2.2.1 hcE hcV
      show cE.id = cV.id
      rw [ecE, hecid]
      exact ecid.symm
    have hdid2did : did2 = did := by
      have h2 : cV.dimension_id = did2 := by
        rw [← hce]
        exact edimE
      exact h2.symm.trans ecdim
    rcases hdl1 m2.code did2 hdid2 with ⟨dC2, hdC2, f1, f2, f3⟩
    have hdd : dC2 = dC := by
      apply List.inj_on_of_nodup_map sd.idsOk.2.2.2.2.2.1 hdC2 hdC
      show dC2.id = dC.id
      rw [f1, hdid2did]
      exact edC1.symm
    have hm2code : m2.code = m.code := by
      rw [← f3, hdd, edC3]
    have hmm : m2 = m := List.inj_on_of_nodup_map hnd hm2 hm hm2code
    have hv2code : v2.code = v.code := by
      rw [← eccodeE, hce]
      exact eccode
    have hv2m : v2 ∈ m.values := by
      rw [← hmm]
      exact hv2
    have hvv : v2 = v := List.inj_on_of_nodup_map hvnd hv2m hv hv2code
    obtain ⟨e1, e2, e3⟩ := e
    have hx1 : e1 = m.code := by
      have h4 := he1
      rw [hm2code] at h4
      exact h4
    have hx3 : e3 = X := by
      have h3 := he22
      rw [hvv, hpc] at h3
      exact h3
    rw [hx1, show e2 = cidv from hecid, hx3]
  rcases sd.pendCover m hm v hv htr with
    ⟨cid0, hmem0, cB, hcB, ecB, eccodeB, didB, hdidB, edimB⟩
  have hdidB2 : didB = did := by
    rw [hdid] at hdidB
    exact (Option.some.inj hdidB).symm
  have hcBV : cB = cV := by
    apply catsOk_unique sd.catsOk cB hcB cV hcV
    · rw [edimB, hdidB2]
      exact ecdim.symm
    · rw [eccodeB]
      exact eccode.symm
  have hcid0 : cid0 = cidv := by
    rw [← ecB, hcBV]
    exact ecid
  have hgetd : v.parent_code.getD "" = X := by
    rw [hpc]
    rfl
  rw [hgetd, hcid0] at hmem0
  have hex : ∃ e ∈ pd', e.2.1 = cidv := ⟨(m.code, cidv, X), hmem0, rfl⟩
  refine ⟨cv, hcv, s2.trans ecdim, s4.trans eccode, ?_, ?_, ?_⟩
  · intro hXin
    have hXmem : X ∈ (alGet r.dimension_value_codes m.code).getD [] := by
      rw [hvc]
      exact hXin
    rcases hall X hXmem with ⟨pidX, hpidX, cX, hcX, exid, exdt, excode, exdim0⟩
    have exdim : cX.dimension_id = did := exdim0 did hdid
    have hres : ∀ dbk, KeyBisim db1 dbk → CatsOk dbk →
        parentResolve r.dimension_lookup r.category_lookup dbk (m.code, cidv, X) =
          .ok (some pidX) := by
      intro dbk _ _
      simp only [parentResolve, hcm, Option.bind, hpidX]
    have hset := resolveParents_sets r.dimension_lookup r.category_lookup db1
      m.code cidv X pidX hres pd' db1 r.db (keyBisim_refl db1) sd.catsOk h1 hok2
    have hpar : cv.parent_id = some pidX := hset.1 hex cv hcv (s1.trans ecid)
    rcases rp.surv cX hcX with ⟨cp, hcp, p1, p2, p3, p4⟩
    refine ⟨cp, hcp, p2.trans exdim, p4.trans excode, ?_⟩
    rw [hpar, p1.trans exid]
  · intro hXnotin P hP hPdim hPcode
    have hcmX : alGet cm X = none := by
      cases hq : alGet cm X with
      | none => rfl
      | some q =>
        exfalso
        rcases sd.clDom m.code cm hcm with hl | ⟨m2, hm2, hm2c, hdom⟩
        · simp [alGet, List.find?] at hl
        · have hmm : m2 = m := List.inj_on_of_nodup_map hnd hm2 hm hm2c
          subst hmm
          exact hXnotin (hdom X (by rw [hq]; rfl))
    have hPst : P ∈ stDb.categories := by
      rw [hstcats]
      exact hP
    rcases sd.catsSurvive P hPst with ⟨P1, hP1, q1, q2, q3, q4, q5⟩
    have hres : ∀ dbk, KeyBisim db1 dbk → CatsOk dbk →
        parentResolve r.dimension_lookup r.category_lookup dbk (m.code, cidv, X) =
          .ok (some P.id) := by
      intro dbk hkb hcatk
      rcases hkb.1 P1 hP1 with ⟨Pk, hPk, k1, k2, k3, k4⟩
      have hkdim : Pk.dimension_id = did := by rw [k2, q2, hPdim]
      have hkcode : Pk.code = X := by rw [k4, q4, hPcode]
      have hkid : Pk.id = P.id := by rw [k1, q1]
      have hle : (dbk.categories.filter
          (fun c => c.dimension_id == did && c.code == X)).length ≤ 1 := by
        apply filter_length_le_one hcatk
        intro a b hpa hpb hr
        simp only [Bool.and_eq_true, beq_iff_eq] at hpa hpb
        exact hr ⟨hpa.1.trans hpb.1.symm, hpa.2.trans hpb.2.symm⟩
      have hoonk := one_or_none_eq_head dbk.categories
        (fun c => c.dimension_id == did && c.code == X) hle
      have hPkf : Pk ∈ dbk.categories.filter
          (fun c => c.dimension_id == did && c.code == X) :=
        List.mem_filter.mpr ⟨hPk, by simp [hkdim, hkcode]⟩
      cases hfil : dbk.categories.filter
          (fun c => c.dimension_id == did && c.code == X) with
      | nil =>
        rw [hfil] at hPkf
        exact absurd hPkf (List.not_mem_nil _)
      | cons c2 tl =>
        have hc2 : c2 ∈ dbk.categories.filter
            (fun c => c.dimension_id == did && c.code == X) := by
          rw [hfil]
          exact List.mem_cons_self _ _
        have hc2m := List.mem_filter.mp hc2
        have hc2f := hc2m.2
        simp only [Bool.and_eq_true, beq_iff_eq] at hc2f
        have hc2Pk : c2 = Pk := catsOk_unique hcatk c2 hc2m.1 Pk hPk
          (hc2f.1.trans hkdim.symm) (hc2f.2.trans hkcode.symm)
        have hoonk2 : one_or_none dbk.categories
            (fun c => c.dimension_id == did && c.code == X) = .ok (some c2) := by
          rw [hoonk, hfil]
          rfl
        have hc2id : c2.id = P.id := by rw [hc2Pk, hkid]
        simp only [parentResolve, hcm, Option.bind, hcmX, hdid, bind, Except.bind,
          hoonk2, Option.map, pure, Except.pure, hc2id]
    have hset := resolveParents_sets r.dimension_lookup r.category_lookup db1
      m.code cidv X P.id hres pd' db1 r.db (keyBisim_refl db1) sd.catsOk h1 hok2
    exact hset.1 hex cv hcv (s1.trans ecid)
  · intro hXnotin hnoX hnoV
    have hcmX : alGet cm X = none := by
      cases hq : alGet cm X with
      | none => rfl
      | some q =>
        exfalso
        rcases sd.clDom m.code cm hcm with hl | ⟨m2, hm2, hm2c, hdom⟩
        · simp [alGet, List.find?] at hl
        · have hmm : m2 = m := List.inj_on_of_nodup_map hnd hm2 hm hm2c
          subst hmm
          exact hXnotin (hdom X (by rw [hq]; rfl))
    have hresN : ∀ dbk, KeyBisim db1 dbk → CatsOk dbk →
        parentResolve r.dimension_lookup r.category_lookup dbk (m.code, cidv, X) =
          .ok none := by
      intro dbk hkb hcatk
      have hfil : dbk.categories.filter
          (fun c => c.dimension_id == did && c.code == X) = [] := by
        apply List.filter_eq_nil_iff.mpr
        intro c2 hc2 hbe
        simp only [Bool.and_eq_true, beq_iff_eq] at hbe
        rcases hkb.2 c2 hc2 with ⟨c0, hc0, b1, b2, b3, b4⟩
        have hc0dim : c0.dimension_id = did := by rw [← b2, hbe.1]
        have hc0code : c0.code = X := by rw [← b4, hbe.2]
        rcases sd.catMeta c0 hc0 with hOld | hNew
        · rcases hOld with ⟨c0b, hc0b, z1, z2, z3, z4, z5⟩
          apply hnoX c0b (by rw [← hstcats]; exact hc0b)
          constructor
          · rw [← z2, hc0dim]
          · rw [← z4, hc0code]
        · rcases hNew with ⟨w1, w2, w3, m2, hm2, hw4, d, hd, wd1, wd2, wd3⟩
          have hdd : d = dC := by
            apply List.inj_on_of_nodup_map sd.idsOk.2.2.2.2.2.1 hd hdC
            show d.id = dC.id
            rw [wd1, hc0dim]
            exact edC1.symm
          have hm2c : m2.code = m.code := by rw [← wd3, hdd, edC3]
          have hmm : m2 = m := List.inj_on_of_nodup_map hnd hm2 hm hm2c
          subst hmm
          rw [hc0code] at hw4
          exact hXnotin hw4
      have hoonk2 : one_or_none dbk.categories
          (fun c => c.dimension_id == did && c.code == X) = .ok none := by
        unfold one_or_none
        rw [hfil]
      simp only [parentResolve, hcm, Option.bind, hcmX, hdid, bind, Except.bind,
        hoonk2, Option.map, pure, Except.pure]
    have hkeeps := resolveParents_keeps r.dimension_lookup r.category_lookup db1
      m.code cidv X hresN pd' db1 r.db (keyBisim_refl db1) sd.catsOk h1 hok2
      cv hcv (s1.trans ecid)
    rcases hkeeps with ⟨c0, hc0, hc0id, hpeq⟩
    have hc0V : c0 = cV := by
      apply List.inj_on_of_nodup_map sd.idsOk.2.2.2.2.2.2.1 hc0 hcV
      show c0.id = cV.id
      rw [hc0id]
      exact ecid.symm
    rw [hpeq, hc0V]
    rcases sd.catMeta cV hcV with hOld | hNew
    · exfalso
      rcases hOld with ⟨c0b, hc0b, z1, z2, z3, z4, z5⟩
      apply hnoV c0b (by rw [← hstcats]; exact hc0b)
      constructor
      · rw [← z2, ecdim]
      · rw [← z4, eccode]
    · exact hNew.2.2.1

/-- Witness for C7 at a concrete input: the forward-parent payload ingested
into the empty store, the hypotheses discharged concretely. -/
theorem C7_parent_resolution_witness :
    payloadC7.structures.head? = some strC7 ∧
    (dimOrderOf payloadC7).Nodup ∧
    ∃ r, store_metadata emptyDB "DS" payloadC7 = .ok r ∧
      (∀ m ∈ metasOf payloadC7, (m.values.map (fun v => v.code)).Nodup →
      ∀ v ∈ m.values, ∀ X, v.parent_code = some X → X ≠ "" →
      ∃ did, alGet r.dimension_lookup m.code = some did ∧
      ∃ cv ∈ r.db.categories, cv.dimension_id = did ∧ cv.code = v.code ∧
        ((X ∈ m.values.map (fun u => u.code) →
          ∃ cp ∈ r.db.categories, cp.dimension_id = did ∧ cp.code = X ∧
            cv.parent_id = some cp.id) ∧
         (X ∉ m.values.map (fun u => u.code) →
          ∀ P ∈ emptyDB.categories, P.dimension_id = did → P.code = X →
            cv.parent_id = some P.id) ∧
         (X ∉ m.values.map (fun u => u.code) →
          (∀ c0 ∈ emptyDB.categories, ¬(c0.dimension_id = did ∧ c0.code = X)) →
          (∀ c0 ∈ emptyDB.categories, ¬(c0.dimension_id = did ∧ c0.code = v.code)) →
          cv.parent_id = none))) :=
  ⟨rfl, by decide, C7_parent_resolution emptyDB "DS" payloadC7 strC7 rfl
    emptyDB_invs.1 emptyDB_invs.2.1 emptyDB_invs.2.2.1 emptyDB_invs.2.2.2.1
    emptyDB_invs.2.2.2.2.1 (by decide)⟩

theorem groupInsert_fresh {α : Type} (key : α → String) (x : α) :
    ∀ acc, (∀ g ∈ acc, ¬(g.1 = key x)) →
      groupInsert key x acc = acc ++ [(key x, [x])] := by
  intro acc
  induction acc with
  | nil => intro _; rfl
  | cons g t ih =>
    intro hfresh
    obtain ⟨k, xs⟩ := g
    have hg : ¬(k = key x) := hfresh (k, xs) (List.mem_cons_self _ t)
    have hgb : (k == key x) = false := by simpa using hg
    simp only [groupInsert, hgb, Bool.false_eq_true, if_false]
    rw [ih (fun g2 hg2 => hfresh g2 (List.mem_cons_of_mem _ hg2))]
    rfl

theorem gbk_singletons {α : Type} (key : α → String) :
    ∀ (l : List α) (acc : List (String × List α)),
      (∀ g ∈ acc, ∃ y, g.2 = [y]) →
      (∀ g ∈ acc, ∀ z ∈ l, ¬(g.1 = key z)) →
      (l.map key).Nodup →
      ∀ g ∈ l.foldl (fun a x => groupInsert key x a) acc, ∃ y, g.2 = [y] := by
  intro l
  induction l with
  | nil =>
    intro acc hsing _ _ g hg
    exact hsing g hg
  | cons x xs ih =>
    intro acc hsing hfresh hnd g hg
    rw [List.foldl_cons] at hg
    have hfx : ∀ g2 ∈ acc, ¬(g2.1 = key x) :=
      fun g2 hg2 => hfresh g2 hg2 x (List.mem_cons_self x xs)
    rw [groupInsert_fresh key x acc hfx] at hg
    have hnd' := hnd
    rw [List.map_cons] at hnd'
    rcases List.nodup_cons.mp hnd' with ⟨hxnot, hndx⟩
    refine ih (acc ++ [(key x, [x])]) ?_ ?_ hndx g hg
    · intro g2 hg2
      rcases List.mem_append.mp hg2 with h1 | h1
      · exact hsing g2 h1
      · rw [List.mem_singleton.mp h1]
        exact ⟨x, rfl⟩
    · intro g2 hg2 z hz
      rcases List.mem_append.mp hg2 with h1 | h1
      · exact hfresh g2 h1 z (List.mem_cons_of_mem _ hz)
      · rw [List.mem_singleton.mp h1]
        intro hkeq
        have hkeq2 : key x = key z := hkeq
        apply hxnot
        rw [hkeq2]
        exact List.mem_map.mpr ⟨z, hz, rfl⟩

theorem foldl_dedupCatGroup_noop :
    ∀ (gs : List (String × List CategoryRow)) (db : DB),
      (∀ g ∈ gs, ∃ y, g.2 = [y]) →
      List.foldl dedupCatGroup db gs = db := by
  intro gs
  induction gs with
  | nil => intro db _; rfl
  | cons g t ih =>
    intro db hsing
    rcases hsing g (List.mem_cons_self g t) with ⟨y, hy⟩
    obtain ⟨k, lst⟩ := g
    have hlst : lst = [y] := hy
    subst hlst
    rw [List.foldl_cons]
    have hone : dedupCatGroup db (k, [y]) = db := by
      simp [dedupCatGroup]
    rw [hone]
    exact ih db (fun g2 hg2 => hsing g2 (List.mem_cons_of_mem _ hg2))

theorem insById_perm {α : Type} (idOf : α → Nat) (x : α) :
    ∀ l, (insById idOf x l).Perm (x :: l) := by
  intro l
  induction l with
  | nil => exact List.Perm.refl _
  | cons y ys ih =>
    by_cases h : idOf x < idOf y
    · simp only [insById, if_pos h]
      exact List.Perm.refl _
    · simp only [insById, if_neg h]
      exact (List.Perm.cons y ih).trans (List.Perm.swap x y ys)

theorem sortById_perm {α : Type} (idOf : α → Nat) :
    ∀ l, (sortById idOf l).Perm l := by
  intro l
  induction l with
  | nil => exact List.Perm.refl _
  | cons x xs ih =>
    show (insById idOf x (sortById idOf xs)).Perm (x :: xs)
    exact (insById_perm idOf x (sortById idOf xs)).trans (List.Perm.cons x ih)

theorem catsOfDim_noop (db : DB) (dimId : Nat)
    (hnd : ((db.categories.filter (fun c => c.dimension_id == dimId)).map
      (fun c => c.code)).Nodup) :
    dedupCatsOfDim db dimId = db := by
  unfold dedupCatsOfDim
  have hperm := sortById_perm (fun c : CategoryRow => c.id)
    (db.categories.filter (fun c => c.dimension_id == dimId))
  have hnd2 : ((sortById (fun c : CategoryRow => c.id)
      (db.categories.filter (fun c => c.dimension_id == dimId))).map
      (fun c => c.code)).Nodup :=
    ((hperm.map (fun c => c.code)).nodup_iff).mpr hnd
  apply foldl_dedupCatGroup_noop
  exact gbk_singletons (fun c : CategoryRow => c.code) _ []
    (fun g hg => absurd hg (List.not_mem_nil g))
    (fun g hg => absurd hg (List.not_mem_nil g)) hnd2

theorem pw_filter_codes_nodup (cats : List CategoryRow) (dimId : Nat)
    (hpw : cats.Pairwise (fun a b => a.id ≠ b.id ∧
      (a.dimension_id = dimId → b.dimension_id = dimId → a.code ≠ b.code))) :
    ((cats.filter (fun c => c.dimension_id == dimId)).map (fun c => c.code)).Nodup := by
  have h1 : (cats.filter (fun c => c.dimension_id == dimId)).Pairwise
      (fun a b => a.id ≠ b.id ∧
        (a.dimension_id = dimId → b.dimension_id = dimId → a.code ≠ b.code)) :=
    hpw.sublist (List.filter_sublist _)
  have h2 : (cats.filter (fun c => c.dimension_id == dimId)).Pairwise
      (fun a b => a.code ≠ b.code) := by
    apply List.Pairwise.imp_of_mem _ h1
    intro a b ha hb hab
    have hda : a.dimension_id = dimId := by
      have := (List.mem_filter.mp ha).2
      simpa using this
    have hdb : b.dimension_id = dimId := by
      have := (List.mem_filter.mp hb).2
      simpa using this
    exact hab.2 hda hdb
  exact List.Pairwise.map _ (fun a b h => h) h2

theorem mergeDupCats_main (primaryId : Nat) :
    ∀ (cs : List CategoryRow) (db : DB),
      (∀ c ∈ cs, c ∈ db.categories ∧ c.dimension_id ≠ primaryId) →
      cs.Pairwise (fun a b => a.id ≠ b.id) →
      db.categories.Pairwise (fun a b => a.id ≠ b.id ∧
        (a.dimension_id = primaryId → b.dimension_id = primaryId → a.code ≠ b.code)) →
      (∀ l ∈ db.odvs, ∃ c ∈ db.categories, c.id = l.category_id) →
      ∃ db1, mergeDupCats primaryId cs db = .ok db1 ∧ MCPost primaryId cs db db1 := by
  intro cs
  induction cs with
  | nil =>
    intro db hcs hcsnd hpw hlinks
    refine ⟨db, rfl, ?_⟩
    exact {
      dts := rfl, dims := rfl, obs := rfl, nid := rfl,
      odvProv := fun l hl => ⟨l, hl, rfl, rfl⟩,
      linksOk := hlinks,
      catsOut := fun c hc => Or.inr ⟨c, hc, rfl, rfl, by simp⟩,
      catsPW := hpw }
  | cons c cs' ih =>
    intro db hcs hcsnd hpw hlinks
    rcases hcs c (List.mem_cons_self c cs') with ⟨hcmem, hcdim⟩
    rcases List.pairwise_cons.mp hcsnd with ⟨hchead, hcsnd2⟩
    have hle : (db.categories.filter
        (fun k => k.dimension_id == primaryId && k.code == c.code)).length ≤ 1 := by
      apply filter_length_le_one hpw
      intro a b hpa hpb hr
      simp only [Bool.and_eq_true, beq_iff_eq] at hpa hpb
      exact hr.2 hpa.1 hpb.1 (hpa.2.trans hpb.2.symm)
    have hoon := one_or_none_eq_head db.categories
      (fun k => k.dimension_id == primaryId && k.code == c.code) hle
    have hidnd : (db.categories.map (fun k => k.id)).Nodup :=
      List.Pairwise.map _ (fun a b h => h.1) hpw
    cases hhead : (db.categories.filter
        (fun k => k.dimension_id == primaryId && k.code == c.code)).head? with
    | some k =>
      rw [hhead] at hoon
      have hks := one_or_none_ok_some hoon
      have hkmem : k ∈ db.categories := hks.1
      have hkf := hks.2
      simp only [Bool.and_eq_true, beq_iff_eq] at hkf
      have hkid : k.id ≠ c.id := by
        intro he
        have hkc : k = c := List.inj_on_of_nodup_map hidnd hkmem hcmem he
        apply hcdim
        rw [← hkc]
        exact hkf.1
      have hcs2 : ∀ x ∈ cs', x ∈ (deleteCategoryRow (redirectCatOdvs db c.id k.id) c.id).categories ∧ x.dimension_id ≠ primaryId := by
        intro x hx
        rcases hcs x (List.mem_cons_of_mem _ hx) with ⟨hxm, hxd⟩
        have hxid : x.id ≠ c.id := (hchead x hx).symm
        exact ⟨List.mem_filter.mpr ⟨hxm, by simp [hxid]⟩, hxd⟩
      have hpw2 : (deleteCategoryRow (redirectCatOdvs db c.id k.id) c.id).categories.Pairwise (fun a b => a.id ≠ b.id ∧
          (a.dimension_id = primaryId → b.dimension_id = primaryId → a.code ≠ b.code)) :=
        hpw.sublist (List.filter_sublist _)
      have hlinks2 : ∀ l ∈ (deleteCategoryRow (redirectCatOdvs db c.id k.id) c.id).odvs, ∃ cc ∈ (deleteCategoryRow (redirectCatOdvs db c.id k.id) c.id).categories, cc.id = l.category_id := by
        intro l hl
        rcases List.mem_map.mp hl with ⟨l0, hl0, hfl⟩
        by_cases hredir : (l0.category_id == c.id) = true
        · refine ⟨k, List.mem_filter.mpr ⟨hkmem, by simp [hkid]⟩, ?_⟩
          rw [← hfl]
          simp [hredir]
        · rcases hlinks l0 hl0 with ⟨c0, hc0, hc0id⟩
          have hc0ne : c0.id ≠ c.id := by
            intro he
            have hl0c : l0.category_id = c.id := hc0id.symm.trans he
            exact hredir (by simp [hl0c])
          refine ⟨c0, List.mem_filter.mpr ⟨hc0, by simp [hc0ne]⟩, ?_⟩
          rw [← hfl]
          have hif : (if (l0.category_id == c.id) = true
              then { l0 with category_id := k.id } else l0) = l0 := by
            simp [hredir]
          rw [hif]
          exact hc0id
      rcases ih (deleteCategoryRow (redirectCatOdvs db c.id k.id) c.id) hcs2 hcsnd2 hpw2 hlinks2 with ⟨db1, hok1, post⟩
      have heq : mergeDupCats primaryId (c :: cs') db = mergeDupCats primaryId cs' (deleteCategoryRow (redirectCatOdvs db c.id k.id) c.id) := by
        simp only [mergeDupCats, bind, Except.bind, hoon]
      refine ⟨db1, by rw [heq]; exact hok1, ?_⟩
      refine {
        dts := post.dts, dims := post.dims, obs := post.obs, nid := post.nid,
        odvProv := ?_, linksOk := post.linksOk, catsOut := ?_, catsPW := post.catsPW }
      · intro l hl
        rcases post.odvProv l hl with ⟨l1, hl1, e1, e2⟩
        rcases List.mem_map.mp hl1 with ⟨l0, hl0, hfl⟩
        refine ⟨l0, hl0, ?_, ?_⟩
        · rw [e1, ← hfl]
          by_cases hr : (l0.category_id == c.id) = true <;> simp [hr]
        · rw [e2, ← hfl]
          by_cases hr : (l0.category_id == c.id) = true <;> simp [hr]
      · intro cc hcc
        rcases post.catsOut cc hcc with h | ⟨c0, hc0, e1, e2, hnin⟩
        · exact Or.inl h
        · have hc0m := List.mem_filter.mp hc0
          refine Or.inr ⟨c0, hc0m.1, e1, e2, ?_⟩
          intro hin
          rw [List.map_cons] at hin
          rcases List.mem_cons.mp hin with h1 | h1
          · have hp := hc0m.2
            simp at hp
            exact hp h1
          · exact hnin h1
    | none =>
      rw [hhead] at hoon
      have hnomatch := one_or_none_ok_none hoon
      have hnm : ∀ kk ∈ db.categories, kk.dimension_id = primaryId → kk.code ≠ c.code := by
        intro kk hkk hd he
        exact hnomatch kk hkk (by simp [hd, he])
      have gid : ∀ x : CategoryRow, ((fun x : CategoryRow => if x.id == c.id then { x with dimension_id := primaryId } else x) x).id = x.id := by
        intro x
        by_cases h : (x.id == c.id) = true <;> simp [h]
      have gcode : ∀ x : CategoryRow, ((fun x : CategoryRow => if x.id == c.id then { x with dimension_id := primaryId } else x) x).code = x.code := by
        intro x
        by_cases h : (x.id == c.id) = true <;> simp [h]
      have hcs2 : ∀ x ∈ cs', x ∈ (moveCategoryToDim db c.id primaryId).categories ∧ x.dimension_id ≠ primaryId := by
        intro x hx
        rcases hcs x (List.mem_cons_of_mem _ hx) with ⟨hxm, hxd⟩
        have hxid : (x.id == c.id) = false := by
          simp [(hchead x hx).symm]
        have hgx : (fun x : CategoryRow => if x.id == c.id then { x with dimension_id := primaryId } else x) x = x := by simp [hxid]
        refine ⟨?_, hxd⟩
        have := List.mem_map_of_mem (fun x : CategoryRow => if x.id == c.id then { x with dimension_id := primaryId } else x) hxm
        rw [hgx] at this
        exact this
      have hbaked : db.categories.Pairwise (fun a b =>
          (a.id ≠ b.id ∧
            (a.dimension_id = primaryId → b.dimension_id = primaryId → a.code ≠ b.code)) ∧
          (a.id = c.id → a = c) ∧ (b.id = c.id → b = c) ∧
          (a.dimension_id = primaryId → a.code ≠ c.code) ∧
          (b.dimension_id = primaryId → b.code ≠ c.code)) := by
        apply List.Pairwise.imp_of_mem _ hpw
        intro a b ha hb hab
        exact ⟨hab, fun he => List.inj_on_of_nodup_map hidnd ha hcmem he,
          fun he => List.inj_on_of_nodup_map hidnd hb hcmem he,
          fun hd => hnm a ha hd, fun hd => hnm b hb hd⟩
      have hpw2 : (moveCategoryToDim db c.id primaryId).categories.Pairwise (fun a b => a.id ≠ b.id ∧
          (a.dimension_id = primaryId → b.dimension_id = primaryId → a.code ≠ b.code)) := by
        apply List.Pairwise.map _ _ hbaked
        intro a b hB
        constructor
        · rw [gid a, gid b]
          exact hB.1.1
        · intro hda hdb
          rw [gcode a, gcode b]
          by_cases hac : (a.id == c.id) = true
          · by_cases hbc : (b.id == c.id) = true
            · exfalso
              apply hB.1.1
              have h1 : a.id = c.id := by simpa using hac
              have h2 : b.id = c.id := by simpa using hbc
              rw [h1, h2]
            · have ha2 : a = c := hB.2.1 (by simpa using hac)
              have hgb : (fun x : CategoryRow => if x.id == c.id then { x with dimension_id := primaryId } else x) b = b := by simp [hbc]
              have hbdim : b.dimension_id = primaryId := by
                rw [← hgb]
                exact hdb
              have hbne := hB.2.2.2.2 hbdim
              rw [ha2]
              exact fun hcb => hbne hcb.symm
          · by_cases hbc : (b.id == c.id) = true
            · have hb2 : b = c := hB.2.2.1 (by simpa using hbc)
              have hga : (fun x : CategoryRow => if x.id == c.id then { x with dimension_id := primaryId } else x) a = a := by simp [hac]
              have hadim : a.dimension_id = primaryId := by
                rw [← hga]
                exact hda
              have hane := hB.2.2.2.1 hadim
              rw [hb2]
              exact hane
            · have hga : (fun x : CategoryRow => if x.id == c.id then { x with dimension_id := primaryId } else x) a = a := by simp [hac]
              have hgb : (fun x : CategoryRow => if x.id == c.id then { x with dimension_id := primaryId } else x) b = b := by simp [hbc]
              have hadim : a.dimension_id = primaryId := by
                rw [← hga]
                exact hda
              have hbdim : b.dimension_id = primaryId := by
                rw [← hgb]
                exact hdb
              exact hB.1.2 hadim hbdim
      have hlinks2 : ∀ l ∈ (moveCategoryToDim db c.id primaryId).odvs, ∃ cc ∈ (moveCategoryToDim db c.id primaryId).categories, cc.id = l.category_id := by
        intro l hl
        rcases hlinks l hl with ⟨c0, hc0, hc0id⟩
        refine ⟨(fun x : CategoryRow => if x.id == c.id then { x with dimension_id := primaryId } else x) c0, List.mem_map_of_mem (fun x : CategoryRow => if x.id == c.id then { x with dimension_id := primaryId } else x) hc0, ?_⟩
        rw [gid c0]
        exact hc0id
      rcases ih (moveCategoryToDim db c.id primaryId) hcs2 hcsnd2 hpw2 hlinks2 with ⟨db1, hok1, post⟩
      have heq : mergeDupCats primaryId (c :: cs') db = mergeDupCats primaryId cs' (moveCategoryToDim db c.id primaryId) := by
        simp only [mergeDupCats, bind, Except.bind, hoon]
      refine ⟨db1, by rw [heq]; exact hok1, ?_⟩
      refine {
        dts := post.dts, dims := post.dims, obs := post.obs, nid := post.nid,
        odvProv := post.odvProv, linksOk := post.linksOk,
        catsOut := ?_, catsPW := post.catsPW }
      intro cc hcc
      rcases post.catsOut cc hcc with h | ⟨c0v, hc0v, e1, e2, hnin⟩
      · exact Or.inl h
      · rcases List.mem_map.mp hc0v with ⟨c0, hc0, hfl⟩
        by_cases hc0c : (c0.id == c.id) = true
        · left
          have hdimv : c0v.dimension_id = primaryId := by
            rw [← hfl]
            simp [hc0c]
          exact e2.trans hdimv
        · have hvc0 : c0v = c0 := by
            rw [← hfl]
            simp [hc0c]
          refine Or.inr ⟨c0, hc0, by rw [e1, hvc0], by rw [e2, hvc0], ?_⟩
          intro hin
          rw [List.map_cons] at hin
          rcases List.mem_cons.mp hin with h1 | h1
          · simp at hc0c
            exact hc0c h1
          · apply hnin
            rw [hvc0]
            exact h1

/-- C6: dedup convergence and idempotence on the seeded family. For every
store holding one dataset with exactly two dimension rows sharing its
(dataset, code) — per-dimension category codes unique, ids distinct, links
split arbitrarily across both — one run of the repairer (category pass then
dimension pass) succeeds, leaves exactly the lower-id dimension, re-homes
every category and link onto it with no reference to a deleted dimension or
category, and a second run returns the state unchanged. -/
theorem C6_dedup_convergence (T : DataTableRow) (d1 d2 : DimensionRow) (db : DB)
    (hdt : db.datatables = [T]) (hdims : db.dimensions = [d1, d2])
    (h1dt : d1.data_table_id = T.id) (h2dt : d2.data_table_id = T.id)
    (hcode : d1.code = d2.code) (hltid : d1.id < d2.id)
    (hcdim : ∀ c ∈ db.categories, c.dimension_id = d1.id ∨ c.dimension_id = d2.id)
    (hcpw : db.categories.Pairwise (fun a b => a.id ≠ b.id ∧
      (a.dimension_id = b.dimension_id → a.code ≠ b.code)))
    (hlinks : ∀ l ∈ db.odvs, (l.dimension_id = d1.id ∨ l.dimension_id = d2.id) ∧
      ∃ c ∈ db.categories, c.id = l.category_id) :
    ∃ db', dedupRepair db = .ok db' ∧
      db'.dimensions = [d1] ∧
      (∀ c ∈ db'.categories, c.dimension_id = d1.id) ∧
      (∀ l ∈ db'.odvs, l.dimension_id = d1.id ∧
        ∃ c ∈ db'.categories, c.id = l.category_id) ∧
      dedupRepair db' = .ok db' := by
  have h12 : d1.id ≠ d2.id := Nat.ne_of_lt hltid
  have hpwAt : ∀ dimId, db.categories.Pairwise (fun a b => a.id ≠ b.id ∧
      (a.dimension_id = dimId → b.dimension_id = dimId → a.code ≠ b.code)) := by
    intro dimId
    exact hcpw.imp (fun hab => ⟨hab.1, fun hda hdb => hab.2 (hda.trans hdb.symm)⟩)
  have hnd1 := pw_filter_codes_nodup db.categories d1.id (hpwAt d1.id)
  have hnd2 := pw_filter_codes_nodup db.categories d2.id (hpwAt d2.id)
  have hfd : db.dimensions.filter (fun d => d.data_table_id == T.id) = [d1, d2] := by
    rw [hdims]
    simp [List.filter, h1dt, h2dt]
  have hrc : remove_duplicate_categories db = db := by
    unfold remove_duplicate_categories
    rw [hdt]
    simp only [List.foldl_cons, List.foldl_nil]
    rw [hfd]
    simp only [List.foldl_cons, List.foldl_nil]
    rw [catsOfDim_noop db d1.id hnd1, catsOfDim_noop db d2.id hnd2]
  have hcs : ∀ x ∈ (db.categories.filter (fun c => c.dimension_id == d2.id)), x ∈ db.categories ∧ x.dimension_id ≠ d1.id := by
    intro x hx
    have hm := List.mem_filter.mp hx
    have hxd : x.dimension_id = d2.id := by simpa using hm.2
    refine ⟨hm.1, ?_⟩
    rw [hxd]
    exact h12.symm
  have hcsnd : (db.categories.filter (fun c => c.dimension_id == d2.id)).Pairwise (fun a b => a.id ≠ b.id) :=
    (hcpw.imp (fun hab => hab.1)).sublist (List.filter_sublist _)
  rcases mergeDupCats_main d1.id (db.categories.filter (fun c => c.dimension_id == d2.id)) db hcs hcsnd (hpwAt d1.id)
    (fun l hl => (hlinks l hl).2) with ⟨db1, hmc, post⟩
  have hdims1 : db1.dimensions = [d1, d2] := post.dims.trans hdims
  have e2a : dedupDimGroup db (d1.code, [d1, d2]) = dedupDimDups d1.id [d2] db := rfl
  have e2b : dedupDimDups d1.id [d2] db = .ok ({ (redirectDimOdvs db1 d2.id d1.id) with dimensions := (redirectDimOdvs db1 d2.id d1.id).dimensions.filter (fun d => d.id != d2.id) } : DB) := by
    simp only [dedupDimDups, bind, Except.bind, hmc]
  have e2c : dedupDimGroups [(d1.code, [d1, d2])] db = .ok ({ (redirectDimOdvs db1 d2.id d1.id) with dimensions := (redirectDimOdvs db1 d2.id d1.id).dimensions.filter (fun d => d.id != d2.id) } : DB) := by
    simp only [dedupDimGroups, bind, Except.bind, e2a, e2b]
  have hsort : sortById (fun d : DimensionRow => d.id) [d1, d2] = [d1, d2] := by
    simp [sortById, insById, hltid]
  have hgrp : groupByKey (fun d : DimensionRow => d.code) [d1, d2] =
      [(d1.code, [d1, d2])] := by
    simp [groupByKey, groupInsert, hcode]
  have e3 : dimPassTables [T] db = .ok ({ (redirectDimOdvs db1 d2.id d1.id) with dimensions := (redirectDimOdvs db1 d2.id d1.id).dimensions.filter (fun d => d.id != d2.id) } : DB) := by
    simp only [dimPassTables, bind, Except.bind, hfd, hsort, hgrp, e2c]
  have e4 : dedupRepair db = .ok ({ (redirectDimOdvs db1 d2.id d1.id) with dimensions := (redirectDimOdvs db1 d2.id d1.id).dimensions.filter (fun d => d.id != d2.id) } : DB) := by
    unfold dedupRepair
    rw [hrc]
    unfold remove_duplicate_dimensions
    rw [hdt]
    exact e3
  have hd3 : ({ (redirectDimOdvs db1 d2.id d1.id) with dimensions := (redirectDimOdvs db1 d2.id d1.id).dimensions.filter (fun d => d.id != d2.id) } : DB).dimensions = [d1] := by
    show db1.dimensions.filter (fun d => d.id != d2.id) = [d1]
    have hb : (d1.id != d2.id) = true := by simp [h12]
    rw [hdims1]
    simp [List.filter, hb]
  have hcats3 : ∀ c ∈ ({ (redirectDimOdvs db1 d2.id d1.id) with dimensions := (redirectDimOdvs db1 d2.id d1.id).dimensions.filter (fun d => d.id != d2.id) } : DB).categories, c.dimension_id = d1.id := by
    intro c hc
    have hc' : c ∈ db1.categories := hc
    rcases post.catsOut c hc' with h | ⟨c0, hc0, e1, e2, hnin⟩
    · exact h
    · rcases hcdim c0 hc0 with hA | hB
      · rw [e2]
        exact hA
      · exfalso
        apply hnin
        refine List.mem_map.mpr ⟨c0, ?_, rfl⟩
        exact List.mem_filter.mpr ⟨hc0, by simp [hB]⟩
  have hodv3 : ∀ l ∈ ({ (redirectDimOdvs db1 d2.id d1.id) with dimensions := (redirectDimOdvs db1 d2.id d1.id).dimensions.filter (fun d => d.id != d2.id) } : DB).odvs, l.dimension_id = d1.id ∧
      ∃ c ∈ ({ (redirectDimOdvs db1 d2.id d1.id) with dimensions := (redirectDimOdvs db1 d2.id d1.id).dimensions.filter (fun d => d.id != d2.id) } : DB).categories, c.id = l.category_id := by
    intro l hl
    have hl' : l ∈ db1.odvs.map (fun o =>
        if o.dimension_id == d2.id then { o with dimension_id := d1.id } else o) := hl
    rcases List.mem_map.mp hl' with ⟨l1, hl1, hfl⟩
    constructor
    · rw [← hfl]
      by_cases hr : (l1.dimension_id == d2.id) = true
      · simp [hr]
      · simp only [Bool.false_eq_true, if_neg (by simp [hr] : ¬((l1.dimension_id == d2.id) = true))]
        rcases post.odvProv l1 hl1 with ⟨l0, hl0, ed, _⟩
        rcases (hlinks l0 hl0).1 with hA | hB
        · rw [ed]
          exact hA
        · exfalso
          exact hr (by simp [ed, hB])
    · rcases post.linksOk l1 hl1 with ⟨c, hc, hcid⟩
      refine ⟨c, hc, ?_⟩
      rw [← hfl]
      by_cases hr : (l1.dimension_id == d2.id) = true
      · simp only [hr, if_true]
        exact hcid
      · simp only [Bool.false_eq_true, if_neg (by simp [hr] : ¬((l1.dimension_id == d2.id) = true))]
        exact hcid
  have hdt3 : ({ (redirectDimOdvs db1 d2.id d1.id) with dimensions := (redirectDimOdvs db1 d2.id d1.id).dimensions.filter (fun d => d.id != d2.id) } : DB).datatables = [T] := by
    show db1.datatables = [T]
    rw [post.dts, hdt]
  have hnd3 : ((({ (redirectDimOdvs db1 d2.id d1.id) with dimensions := (redirectDimOdvs db1 d2.id d1.id).dimensions.filter (fun d => d.id != d2.id) } : DB).categories.filter (fun c => c.dimension_id == d1.id)).map
      (fun c => c.code)).Nodup :=
    pw_filter_codes_nodup db1.categories d1.id post.catsPW
  have hfd3 : ({ (redirectDimOdvs db1 d2.id d1.id) with dimensions := (redirectDimOdvs db1 d2.id d1.id).dimensions.filter (fun d => d.id != d2.id) } : DB).dimensions.filter (fun d => d.data_table_id == T.id) = [d1] := by
    rw [hd3]
    simp [List.filter, h1dt]
  have hrc2 : remove_duplicate_categories ({ (redirectDimOdvs db1 d2.id d1.id) with dimensions := (redirectDimOdvs db1 d2.id d1.id).dimensions.filter (fun d => d.id != d2.id) } : DB) = ({ (redirectDimOdvs db1 d2.id d1.id) with dimensions := (redirectDimOdvs db1 d2.id d1.id).dimensions.filter (fun d => d.id != d2.id) } : DB) := by
    unfold remove_duplicate_categories
    rw [hdt3]
    simp only [List.foldl_cons, List.foldl_nil]
    rw [hfd3]
    simp only [List.foldl_cons, List.foldl_nil]
    rw [catsOfDim_noop ({ (redirectDimOdvs db1 d2.id d1.id) with dimensions := (redirectDimOdvs db1 d2.id d1.id).dimensions.filter (fun d => d.id != d2.id) } : DB) d1.id hnd3]
  have hrd2 : remove_duplicate_dimensions ({ (redirectDimOdvs db1 d2.id d1.id) with dimensions := (redirectDimOdvs db1 d2.id d1.id).dimensions.filter (fun d => d.id != d2.id) } : DB) = .ok ({ (redirectDimOdvs db1 d2.id d1.id) with dimensions := (redirectDimOdvs db1 d2.id d1.id).dimensions.filter (fun d => d.id != d2.id) } : DB) := by
    unfold remove_duplicate_dimensions
    rw [hdt3]
    have hsort3 : sortById (fun d : DimensionRow => d.id) [d1] = [d1] := rfl
    have hgrp3 : groupByKey (fun d : DimensionRow => d.code) [d1] =
        [(d1.code, [d1])] := rfl
    simp only [dimPassTables, bind, Except.bind, hfd3, hsort3, hgrp3,
      dedupDimGroups, dedupDimGroup, List.isEmpty]
    rfl
  have e5 : dedupRepair ({ (redirectDimOdvs db1 d2.id d1.id) with dimensions := (redirectDimOdvs db1 d2.id d1.id).dimensions.filter (fun d => d.id != d2.id) } : DB) = .ok ({ (redirectDimOdvs db1 d2.id d1.id) with dimensions := (redirectDimOdvs db1 d2.id d1.id).dimensions.filter (fun d => d.id != d2.id) } : DB) := by
    unfold dedupRepair
    rw [hrc2]
    exact hrd2
  exact ⟨({ (redirectDimOdvs db1 d2.id d1.id) with dimensions := (redirectDimOdvs db1 d2.id d1.id).dimensions.filter (fun d => d.id != d2.id) } : DB), e4, hd3, hcats3, hodv3, e5⟩

/-- Witness for C6 at a concrete seeded store: two duplicate "DIM"
dimensions with categories and links split across both, the hypotheses
discharged concretely. -/
theorem C6_dedup_convergence_witness :
    c6db.datatables = [c6T] ∧ c6db.dimensions = [c6d1, c6d2] ∧
    c6d1.code = c6d2.code ∧ c6d1.id < c6d2.id ∧
    ∃ db', dedupRepair c6db = .ok db' ∧
      db'.dimensions = [c6d1] ∧
      (∀ c ∈ db'.categories, c.dimension_id = c6d1.id) ∧
      (∀ l ∈ db'.odvs, l.dimension_id = c6d1.id ∧
        ∃ c ∈ db'.categories, c.id = l.category_id) ∧
      dedupRepair db' = .ok db' :=
  ⟨rfl, rfl, rfl, by decide,
    C6_dedup_convergence c6T c6d1 c6d2 c6db rfl rfl rfl rfl rfl (by decide)
      (by decide) (by decide) (by decide)⟩
